import Mathlib

/-!
# MIPS++ toolchain: instruction codec, memory, assembler, CPU, emulator and object file

A shallow embedding of the C++ sources (`include/instruction.hpp`,
`src/memory.cpp`, `src/assembler.cpp`, `src/cpu.cpp`, `src/emulator.cpp`,
`src/obj.cpp`) followed by theorems about them.

Conventions of the embedding.

* `byte_t`, `halfword_t` and `word_t` values are natural numbers; every place
  where the C++ converts to one of these types reduces modulo `2^8`, `2^16` or
  `2^32` explicitly.  `int` is 32 bits, `long` and `size_t` are 64 bits (LP64).
* `std::string` is `List Char`, `std::vector<T>` is `List T`,
  `std::map` is an association list.
* A C++ exception is a value of `AsmError` (assembler) or `Fault` (emulator);
  the object state at the moment of the throw is kept next to it, because a
  throw does not roll back earlier mutations.
-/

namespace Mips

/-! ## include/instruction.hpp -/

/-- R-Type indicator (`constexpr opcode_t R_TYPE = 0x00`). -/
def R_TYPE : Nat := 0x00

def OPCODE_MASK : Nat := 0xFC000000
def RS_MASK : Nat := 0x03E00000
def RT_MASK : Nat := 0x001F0000
def RD_MASK : Nat := 0x0000F800
def SHAMT_MASK : Nat := 0x000007C0
def FUNCT_MASK : Nat := 0x0000003F
def IMMEDIATE_MASK : Nat := 0x0000FFFF
def ADDRESS_MASK : Nat := 0x03FFFFFF

def OPCODE_SHIFT : Nat := 26
def RS_SHIFT : Nat := 21
def RT_SHIFT : Nat := 16
def RD_SHIFT : Nat := 11
def SHAMT_SHIFT : Nat := 6
def FUNCT_SHIFT : Nat := 0
def IMMEDIATE_SHIFT : Nat := 0
def ADDRESS_SHIFT : Nat := 0

/-- Syscall id (`constexpr word_t SYSCALL = 0x0C`). -/
def SYSCALL : Nat := 0x0C

/-- The function `get_opcode`; the result is converted to `opcode_t` (8 bits). -/
def get_opcode (instruction : Nat) : Nat :=
  ((instruction &&& OPCODE_MASK) >>> OPCODE_SHIFT) % 256

/-- The function `get_rs`; the result is converted to `byte_t`. -/
def get_rs (instruction : Nat) : Nat :=
  ((instruction &&& RS_MASK) >>> RS_SHIFT) % 256

/-- The function `get_rt`; the result is converted to `byte_t`. -/
def get_rt (instruction : Nat) : Nat :=
  ((instruction &&& RT_MASK) >>> RT_SHIFT) % 256

/-- The function `get_rd`; the result is converted to `byte_t`. -/
def get_rd (instruction : Nat) : Nat :=
  ((instruction &&& RD_MASK) >>> RD_SHIFT) % 256

/-- The function `get_shamt`; the result is converted to `byte_t`. -/
def get_shamt (instruction : Nat) : Nat :=
  ((instruction &&& SHAMT_MASK) >>> SHAMT_SHIFT) % 256

/-- The function `get_funct`; the result is converted to `byte_t`. -/
def get_funct (instruction : Nat) : Nat :=
  ((instruction &&& FUNCT_MASK) >>> FUNCT_SHIFT) % 256

/-- The function `get_immediate`; the result is converted to `halfword_t`. -/
def get_immediate (instruction : Nat) : Nat :=
  ((instruction &&& IMMEDIATE_MASK) >>> IMMEDIATE_SHIFT) % 65536

/-- The function `get_address`; the result is a `word_t`. -/
def get_address (instruction : Nat) : Nat :=
  ((instruction &&& ADDRESS_MASK) >>> ADDRESS_SHIFT) % 2 ^ 32

/-- The function `create_r_instruction`.  The six parameters are `byte_t`
(callers pass values below 256); each is promoted to `int`, shifted, the
results are or-ed and the value is converted to the 32-bit return type. -/
def create_r_instruction (opcode rs rt rd shamt funct : Nat) : Nat :=
  ((opcode <<< OPCODE_SHIFT) ||| (rs <<< RS_SHIFT) ||| (rt <<< RT_SHIFT) |||
    (rd <<< RD_SHIFT) ||| (shamt <<< SHAMT_SHIFT) ||| (funct <<< FUNCT_SHIFT)) % 2 ^ 32

/-- The function `create_i_instruction`.  `immediate` is a `word_t` and is
or-ed in unmasked. -/
def create_i_instruction (opcode rs rt immediate : Nat) : Nat :=
  ((opcode <<< OPCODE_SHIFT) ||| (rs <<< RS_SHIFT) ||| (rt <<< RT_SHIFT) |||
    (immediate <<< IMMEDIATE_SHIFT)) % 2 ^ 32

/-- The function `create_j_instruction`.  `address` is a `word_t` and is
or-ed in unmasked. -/
def create_j_instruction (opcode address : Nat) : Nat :=
  ((opcode <<< OPCODE_SHIFT) ||| (address <<< ADDRESS_SHIFT)) % 2 ^ 32

/-! ## include/memory.hpp, src/memory.cpp -/

/-- The constant `MAX_MEMORY = 0x100000000` (a 64-bit `long`). -/
def MAX_MEMORY : Nat := 0x100000000

def TEXT_OFFSET : Nat := 0x00400000
def DATA_OFFSET : Nat := 0x10000000
def STACK_OFFSET : Nat := 0x7FFFFFFF

deriving instance DecidableEq for Except

/-- A C++ exception raised by the emulator side (`std::runtime_error`). -/
inductive Fault where
  | runtime_error (what : String)
  deriving DecidableEq, Repr

/-- The class `Memory`: the member `memory` is a `std::vector<byte_t>` of
`MAX_MEMORY` cells.  A cell index is always a 32-bit value, so the vector is a
total map from indices to bytes. -/
structure Memory where
  /-- The cell at each index. -/
  memory : Nat → Nat
  /-- Every cell holds a `byte_t`. -/
  byte_bound : ∀ a, memory a < 256

/-- The state after `zero_memory` (run by the constructor). -/
def Memory.zero_memory : Memory := ⟨fun _ => 0, fun _ => Nat.succ_pos 255⟩

/-- The assignment `memory[address] = value` with `value` converted to `byte_t`. -/
def Memory.store (m : Memory) (address value : Nat) : Memory :=
  ⟨fun a => if a = address then value % 256 else m.memory a, fun a => by
    by_cases h : a = address
    · simp only [h, if_true]; exact Nat.mod_lt _ (by decide)
    · simp only [h, if_false]; exact m.byte_bound a⟩

/-- The method `check_address`.  The parameter is an `address_t` (unsigned,
32 bits): `static_cast<size_t>(address) >= MAX_MEMORY || address < 0`, where
`address < 0` is false for an unsigned value. -/
def check_address (address : Nat) : Bool :=
  if decide (address ≥ MAX_MEMORY) || false then false else true

/-- The method `read_byte`. -/
def Memory.read_byte (m : Memory) (address : Nat) : Except Fault Nat :=
  if !check_address address then .error (.runtime_error "Invalid address")
  else .ok (m.memory address)

/-- The method `read_word`.  `address + k` is computed in `address_t`
(32 bits, wrapping); each byte is promoted to `int`, shifted and or-ed, and the
result is converted to `word_t`. -/
def Memory.read_word (m : Memory) (address : Nat) : Except Fault Nat :=
  if !check_address address || !check_address ((address + 3) % 2 ^ 32) then
    .error (.runtime_error "Invalid address")
  else
    .ok (((m.memory address <<< 24) ||| (m.memory ((address + 1) % 2 ^ 32) <<< 16) |||
      (m.memory ((address + 2) % 2 ^ 32) <<< 8) ||| m.memory ((address + 3) % 2 ^ 32)) % 2 ^ 32)

/-- The method `write_byte`. -/
def Memory.write_byte (m : Memory) (value address : Nat) : Except Fault Memory :=
  if !check_address address then .error (.runtime_error "Invalid address")
  else .ok (m.store address value)

/-- The method `write_word`; the four assignments happen in source order. -/
def Memory.write_word (m : Memory) (value address : Nat) : Except Fault Memory :=
  if !check_address address || !check_address ((address + 3) % 2 ^ 32) then
    .error (.runtime_error "Invalid address")
  else
    .ok ((((m.store address (value >>> 24)).store ((address + 1) % 2 ^ 32) (value >>> 16)).store
      ((address + 2) % 2 ^ 32) (value >>> 8)).store ((address + 3) % 2 ^ 32) value)

/-! ## src/assembler.cpp -/

/-- The exceptions that can leave the assembler: `mips::SyntaxException`,
`std::runtime_error`, and the two exceptions of `std::stoi`. -/
inductive AsmError where
  | SyntaxException (what : List Char)
  | runtime_error (what : String)
  | invalid_argument
  | out_of_range
  deriving DecidableEq, Repr

def MAX_IMMEDIATE : Int := 32767
def MIN_IMMEDIATE : Int := -32768

/-- The map `r_opcode_map`. -/
def r_opcode_map : List (List Char × Nat) :=
  [ ("add".toList, 0x20), ("addu".toList, 0x21), ("and".toList, 0x24), ("break".toList, 0x0D),
    ("div".toList, 0x1A), ("divu".toList, 0x1B), ("jalr".toList, 0x09), ("jr".toList, 0x08),
    ("mfhi".toList, 0x10), ("mflo".toList, 0x12), ("mthi".toList, 0x11), ("mtlo".toList, 0x13),
    ("mult".toList, 0x18), ("multu".toList, 0x19), ("nor".toList, 0x27), ("or".toList, 0x25),
    ("sll".toList, 0x00), ("sllv".toList, 0x04), ("slt".toList, 0x2A), ("sltu".toList, 0x2B),
    ("sra".toList, 0x03), ("srav".toList, 0x07), ("srl".toList, 0x02), ("srlv".toList, 0x06),
    ("sub".toList, 0x22), ("subu".toList, 0x23), ("syscall".toList, 0x0C), ("xor".toList, 0x26) ]

/-- The map `i_opcode_map`. -/
def i_opcode_map : List (List Char × Nat) :=
  [ ("addi".toList, 0x08), ("addiu".toList, 0x09), ("andi".toList, 0x0C), ("beq".toList, 0x04),
    ("bgez".toList, 0x01), ("bgezal".toList, 0x01), ("bgtz".toList, 0x07), ("blez".toList, 0x06),
    ("bltz".toList, 0x01), ("bltzal".toList, 0x01), ("bne".toList, 0x05), ("lb".toList, 0x20),
    ("lbu".toList, 0x24), ("lh".toList, 0x21), ("lhu".toList, 0x25), ("lui".toList, 0x0F),
    ("lw".toList, 0x23), ("lwc1".toList, 0x31), ("ori".toList, 0x0D), ("sb".toList, 0x28),
    ("sh".toList, 0x29), ("slti".toList, 0x0A), ("sltiu".toList, 0x0B), ("sw".toList, 0x2B),
    ("swc1".toList, 0x39), ("xori".toList, 0x0E) ]

/-- The map `j_opcode_map`. -/
def j_opcode_map : List (List Char × Nat) :=
  [ ("j".toList, 0x02), ("jal".toList, 0x03) ]

/-- The expression `map.find(key) != map.end()`. -/
def map_contains (map : List (List Char × Nat)) (key : List Char) : Bool :=
  (map.lookup key).isSome

/-- The expression `map[key]` (a missing key reads as the default 0). -/
def map_at (map : List (List Char × Nat)) (key : List Char) : Nat :=
  (map.lookup key).getD 0

def is_r_type_instruction (instruction : List Char) : Bool :=
  map_contains r_opcode_map instruction

def is_i_type_instruction (instruction : List Char) : Bool :=
  map_contains i_opcode_map instruction

def is_j_type_instruction (instruction : List Char) : Bool :=
  map_contains j_opcode_map instruction

/-- The function `is_label`: `line.find(":") != npos`. -/
def is_label (line : List Char) : Bool := line.contains ':'

/-- The function `is_comment`: `line.find("#") != npos`. -/
def is_comment (line : List Char) : Bool := line.contains '#'

/-- The function `is_empty_line`: `line == "" || line == "\n"`. -/
def is_empty_line (line : List Char) : Bool :=
  decide (line = []) || decide (line = ['\n'])

/-- The character at index `i` of a `std::string`; index `size()` reads as the
terminating NUL. -/
def char_at (s : List Char) (i : Nat) : Char := s.getD i (Char.ofNat 0)

/-- The function `is_valid_register`. -/
def is_valid_register (reg : List Char) : Bool :=
  decide (char_at reg 0 = '$') && decide (reg.length = 3) && decide (char_at reg 1 = 't') &&
    decide (char_at reg 2 ≥ '0') && decide (char_at reg 2 ≤ '9')

/-- The loop of `is_valid_immediate` and `is_valid_address`: false as soon as
one character is outside `'0'..'9'`. -/
def all_digits (s : List Char) : Bool :=
  s.all fun c => !(decide (c < '0') || decide (c > '9'))

/-- The function `std::isspace` in the "C" locale. -/
def isspace (c : Char) : Bool :=
  c = ' ' || c = '\t' || c = '\n' || c = Char.ofNat 11 || c = Char.ofNat 12 || c = '\r'

/-- The digits that `std::stoi` consumes, most significant first, as a number. -/
def digits_value (ds : List Char) : Nat :=
  ds.foldl (fun acc c => 10 * acc + (c.toNat - '0'.toNat)) 0

/-- The function `std::stoi(str)` (base 10): leading white space is skipped, an
optional sign is read, then the longest run of digits; no digit gives
`std::invalid_argument`, a value outside `int` gives `std::out_of_range`. -/
def stoi (str : List Char) : Except AsmError Int :=
  let s := str.dropWhile isspace
  let (negative, s) :=
    match s with
    | '-' :: rest => (true, rest)
    | '+' :: rest => (false, rest)
    | _ => (false, s)
  let ds := s.takeWhile Char.isDigit
  if ds.isEmpty then .error .invalid_argument
  else
    let v : Int := if negative then - (digits_value ds : Int) else (digits_value ds : Int)
    if v < -2147483648 ∨ v > 2147483647 then .error .out_of_range else .ok v

/-- The function `is_valid_immediate`; `substr(1)` is only reached on a
non-empty string. -/
def is_valid_immediate (immediate : List Char) : Except AsmError Bool :=
  let immediate := if char_at immediate 0 = '-' then immediate.drop 1 else immediate
  if !all_digits immediate then .ok false
  else do
    let imm ← stoi immediate
    pure (decide (imm ≥ MIN_IMMEDIATE) && decide (imm ≤ MAX_IMMEDIATE))

/-- The function `is_valid_address`. -/
def is_valid_address (address : List Char) : Bool := all_digits address

/-- The function `trim`: leading, then trailing white space is erased. -/
def trim (str : List Char) : List Char :=
  (((str.dropWhile isspace).reverse).dropWhile isspace).reverse

/-- One call `std::getline(stream, token, delim)` on a stream whose unread
characters are `rest`: it fails when nothing is left; otherwise the token is
the text before the first delimiter, and the delimiter is consumed. -/
def getline (rest : List Char) (delim : Char) : Option (List Char × List Char) :=
  match rest with
  | [] => none
  | _ => some (rest.takeWhile (fun c => c != delim), (rest.dropWhile (fun c => c != delim)).drop 1)

/-- The loop `while (std::getline(token_stream, token, ','))` of `tokenize`;
every iteration consumes a character, so `rest.length` iterations suffice. -/
def tokenize_loop : Nat → List Char → List (List Char)
  | 0, _ => []
  | n + 1, rest =>
    match getline rest ',' with
    | none => []
    | some (token, rest') => trim token :: tokenize_loop n rest'

/-- The function `tokenize`.  The result of the first `getline` is not
tested: on an empty stream the token stays empty. -/
def tokenize (line : List Char) : List (List Char) :=
  let (token, rest) := (getline line ' ').getD ([], [])
  trim token :: tokenize_loop rest.length rest

/-- The call `str.substr(pos)`: `std::out_of_range` when `pos > size()`. -/
def substr (str : List Char) (pos : Nat) : Except AsmError (List Char) :=
  if pos > str.length then .error .out_of_range else .ok (str.drop pos)

/-- The conversion of an `int` to `byte_t`. -/
def to_byte (v : Int) : Nat := (v % 256).toNat

/-- The conversion of an `int` to `word_t`. -/
def to_word (v : Int) : Nat := (v % 4294967296).toNat

/-- The function `assemble_r_type_instruction`: the table entry goes into the
variable `opcode`, the variable `funct` is `0x0`. -/
def assemble_r_type_instruction (instruction rd rs rt : List Char) : Except AsmError Nat := do
  let opcode := map_at r_opcode_map instruction
  let funct := 0x0
  let rd_reg := to_byte (← stoi (← substr rd 2))
  let rs_reg := to_byte (← stoi (← substr rs 2))
  let rt_reg := to_byte (← stoi (← substr rt 2))
  pure (create_r_instruction opcode rs_reg rt_reg rd_reg 0x0 funct)

/-- The function `assemble_i_type_instruction`. -/
def assemble_i_type_instruction (instruction rt rs immediate : List Char) :
    Except AsmError Nat := do
  let opcode := map_at i_opcode_map instruction
  let rt_reg := to_byte (← stoi (← substr rt 2))
  let rs_reg := to_byte (← stoi (← substr rs 2))
  let imm := to_word (← stoi immediate)
  pure (create_i_instruction opcode rs_reg rt_reg imm)

/-- The function `assemble_j_type_instruction`. -/
def assemble_j_type_instruction (instruction address : List Char) : Except AsmError Nat := do
  let opcode := map_at j_opcode_map instruction
  let addr := to_word (← stoi address)
  pure (create_j_instruction opcode addr)

/-- The function `append_instruction`: four `push_back` calls, each converting
its argument to `byte_t`. -/
def append_instruction (instruction : Nat) (binary : List Nat) : List Nat :=
  binary ++ [(instruction >>> 24) % 256, (instruction >>> 16) % 256,
    (instruction >>> 8) % 256, instruction % 256]

/-- The function `std::to_string` on an unsigned value. -/
def to_string (n : Nat) : List Char := Nat.toDigits 10 n

/-- The statement `ASSERT_ARG_COUNT(count, line, instruction)`. -/
def ASSERT_ARG_COUNT (tokens : List (List Char)) (count line : Nat) (instruction : List Char) :
    Except AsmError Unit :=
  if tokens.length ≠ count then
    .error (.SyntaxException ("Invalid number of arguments in line ".toList ++ to_string line ++
      " for instruction ".toList ++ [Char.ofNat 39] ++ instruction ++ [Char.ofNat 39] ++
      " (expected ".toList ++ to_string count ++ ", got ".toList ++ to_string tokens.length ++
      ")".toList))
  else .ok ()

/-- The struct `Symbol`. -/
structure Symbol where
  name : List Char
  address : Nat
  deriving DecidableEq, Repr

/-- The member variables of the class `Assembler`.  The counter `line` is an
`int` that is only ever incremented and never read. -/
structure Assembler where
  file_contents : List (List Char) := []
  labels : List Symbol := []
  binary : List Nat := []
  line : Int := 0
  text_size : Nat := 0
  data_size : Nat := 0
  deriving DecidableEq, Repr

/-- The token `tokens[k]` of the token vector. -/
def token_at (tokens : List (List Char)) (k : Nat) : List Char := tokens.getD k []

/-- The body of the `for` loop of `second_pass` for the line of index `i`, up
to the instruction it assembles: `none` when the line is skipped (empty line,
comment, label, or a mnemonic that is in none of the three tables). -/
def second_pass_line (i : Nat) (line : List Char) : Except AsmError (Option Nat) :=
  if is_empty_line line || is_comment line || is_label line then .ok none
  else
    let tokens := tokenize line
    if is_r_type_instruction (token_at tokens 0) then do
      ASSERT_ARG_COUNT tokens 4 i (token_at tokens 0)
      if !is_valid_register (token_at tokens 1) || !is_valid_register (token_at tokens 2) ||
          !is_valid_register (token_at tokens 3) then
        throw (.runtime_error "Invalid register")
      let instruction ← assemble_r_type_instruction (token_at tokens 0) (token_at tokens 1)
        (token_at tokens 2) (token_at tokens 3)
      pure (some instruction)
    else if is_i_type_instruction (token_at tokens 0) then do
      ASSERT_ARG_COUNT tokens 4 i (token_at tokens 0)
      if !is_valid_register (token_at tokens 1) || !is_valid_register (token_at tokens 2) then
        throw (.runtime_error "Invalid register")
      if !(← is_valid_immediate (token_at tokens 3)) then
        throw (.runtime_error "Invalid immediate")
      let instruction ← assemble_i_type_instruction (token_at tokens 0) (token_at tokens 1)
        (token_at tokens 2) (token_at tokens 3)
      pure (some instruction)
    else if is_j_type_instruction (token_at tokens 0) then do
      ASSERT_ARG_COUNT tokens 2 i (token_at tokens 0)
      if !is_valid_address (token_at tokens 1) then
        throw (.runtime_error "Invalid address")
      let instruction ← assemble_j_type_instruction (token_at tokens 0) (token_at tokens 1)
      pure (some instruction)
    else .ok none

/-- The tail of an emitting iteration of `second_pass`: the instruction is
appended, `text_size += 4` (a `word_t`), `line++`. -/
def Assembler.emit (a : Assembler) (instruction : Nat) : Assembler :=
  { a with binary := append_instruction instruction a.binary,
           text_size := (a.text_size + 4) % 2 ^ 32,
           line := a.line + 1 }

/-- The `for` loop of `second_pass` from index `i` on, over the remaining
lines.  The result is the state when the loop is left, with the exception when
it is left by a throw. -/
def second_pass_from : Nat → List (List Char) → Assembler → Assembler × Option AsmError
  | _, [], a => (a, none)
  | i, line :: rest, a =>
    match second_pass_line i line with
    | .error e => (a, some e)
    | .ok none => second_pass_from (i + 1) rest a
    | .ok (some instruction) => second_pass_from (i + 1) rest (a.emit instruction)

/-- The method `Assembler::second_pass`. -/
def Assembler.second_pass (a : Assembler) : Assembler × Option AsmError :=
  second_pass_from 0 a.file_contents a

/-! ## include/cpu.hpp, src/cpu.cpp -/

/-- The class `CPU` together with the `Memory` it points to and the standard
streams of the process.  `stdout` is what has been written to `std::cout`;
`stdin` lists the unsigned decimal numbers that `std::cin` still holds, each
as its value; a stream on which an extraction has failed delivers nothing any
more, which is an input with nothing left.  The four flag members are never
used. -/
structure CPU where
  pc : Nat
  hi : Nat
  lo : Nat
  registers : Nat → Nat
  memory : Memory
  stdout : List Char
  stdin : List Nat

/-- How a step can end other than by returning: a C++ exception, the call
`exit(status)`, or a loop that does not terminate. -/
inductive Stop where
  | fault (e : Fault)
  | exit (status : Nat)
  | hang
  deriving DecidableEq, Repr

/-- The result of a method of `CPU`: the new state, or the reason it stopped
with the state at that moment. -/
abbrev Exec := Except (Stop × CPU) CPU

/-- The assignment `registers[i] = v`. -/
def CPU.set_register (cpu : CPU) (i v : Nat) : CPU :=
  { cpu with registers := fun j => if j = i then v else cpu.registers j }

/-- The method `reset`. -/
def CPU.reset (cpu : CPU) : CPU :=
  { cpu with pc := 0, hi := 0, lo := 0, registers := fun _ => 0 }

/-- The constructor `CPU(Memory* memory)`, on a process that has written
nothing and whose input is `stdin`. -/
def CPU.new (memory : Memory) (stdin : List Nat) : CPU :=
  { pc := 0, hi := 0, lo := 0, registers := fun _ => 0, memory := memory,
    stdout := [], stdin := stdin }

/-- The loop of `Memory::read_string`: `address` is an `address_t` and wraps;
after `MAX_MEMORY` iterations without a zero byte the loop never ends. -/
def read_string_loop (m : Memory) : Nat → Nat → Option (List Char)
  | 0, _ => none
  | fuel + 1, address =>
    if m.memory address ≠ 0 then
      (read_string_loop m fuel ((address + 1) % 2 ^ 32)).map
        (fun str => Char.ofNat (m.memory address) :: str)
    else some []

/-- The method `Memory::read_string`; `none` when it does not terminate. -/
def Memory.read_string (m : Memory) (address : Nat) : Option (List Char) :=
  read_string_loop m MAX_MEMORY address

/-- The method `fetch`. -/
def CPU.fetch (cpu : CPU) : Except (Stop × CPU) (Nat × CPU) :=
  match cpu.memory.read_word cpu.pc with
  | .error e => .error (.fault e, cpu)
  | .ok instruction => .ok (instruction, { cpu with pc := (cpu.pc + 4) % 2 ^ 32 })

/-- The method `decode`. -/
def CPU.decode (instruction : Nat) : Nat := get_opcode instruction

/-- The method `execute_r`. -/
def CPU.execute_r (cpu : CPU) (instruction : Nat) : Exec :=
  let rs := get_rs instruction
  let rt := get_rt instruction
  let rd := get_rd instruction
  let funct := get_funct instruction
  match funct with
  | 0x20 => .ok (cpu.set_register rd ((cpu.registers rs + cpu.registers rt) % 2 ^ 32))
  | 0x22 => .ok (cpu.set_register rd ((cpu.registers rs + 2 ^ 32 - cpu.registers rt % 2 ^ 32) % 2 ^ 32))
  | 0x24 => .ok (cpu.set_register rd (cpu.registers rs &&& cpu.registers rt))
  | 0x25 => .ok (cpu.set_register rd (cpu.registers rs ||| cpu.registers rt))
  | _ => .error (.fault (.runtime_error "Invalid funct for R-type instruction"), cpu)

/-- The method `execute_j`. -/
def CPU.execute_j (cpu : CPU) (instruction : Nat) : Exec :=
  let opcode := get_opcode instruction
  let address := get_address instruction
  match opcode with
  | 0x02 => .ok { cpu with pc := address }
  | 0x03 => .ok { cpu.set_register 31 cpu.pc with pc := address }
  | _ => .error (.fault (.runtime_error "Invalid opcode for J-type instruction"), cpu)

/-- The method `execute_i`.  `immediate` is a `halfword_t`; in every
expression it is promoted to `int` (so zero-extended) and the arithmetic with a
register is unsigned 32-bit. -/
def CPU.execute_i (cpu : CPU) (instruction : Nat) : Exec :=
  let opcode := get_opcode instruction
  let rs := get_rs instruction
  let rt := get_rt instruction
  let immediate := get_immediate instruction
  match opcode with
  | 0x23 =>
    match cpu.memory.read_word ((cpu.registers rs + immediate) % 2 ^ 32) with
    | .error e => .error (.fault e, cpu)
    | .ok v => .ok (cpu.set_register rt v)
  | 0x2B =>
    match cpu.memory.write_word ((cpu.registers rs + immediate) % 2 ^ 32) (cpu.registers rt) with
    | .error e => .error (.fault e, cpu)
    | .ok m => .ok { cpu with memory := m }
  | 0x0F => .ok (cpu.set_register rt ((immediate <<< 16) % 2 ^ 32))
  | 0x0C => .ok (cpu.set_register rt (cpu.registers rs &&& immediate))
  | 0x0D => .ok (cpu.set_register rt (cpu.registers rs ||| immediate))
  | 0x0E => .ok (cpu.set_register rt (2 ^ 32 - 1 - (cpu.registers rs ||| immediate) % 2 ^ 32))
  | 0x0A => .ok (cpu.set_register rt (if cpu.registers rs < immediate then 1 else 0))
  | 0x04 =>
    if cpu.registers rs = cpu.registers rt then
      .ok { cpu with pc := (cpu.pc + (immediate <<< 2)) % 2 ^ 32 }
    else .ok cpu
  | 0x05 =>
    if cpu.registers rs ≠ cpu.registers rt then
      .ok { cpu with pc := (cpu.pc + (immediate <<< 2)) % 2 ^ 32 }
    else .ok cpu
  | 0x07 =>
    if cpu.registers rs > 0 then
      .ok { cpu with pc := (cpu.pc + (immediate <<< 2)) % 2 ^ 32 }
    else .ok cpu
  | _ => .error (.fault (.runtime_error "Invalid opcode for I-type instruction"), cpu)

/-- The method `get_syscall_code`: `registers[2]` converted to `byte_t`. -/
def CPU.get_syscall_code (cpu : CPU) : Nat := cpu.registers 2 % 256

/-- The method `execute_syscall`; `case 9` is commented out in the source.
In `case 5` the extraction `std::cin >> registers[2]` into a `uint32_t` leaves
the register as it is at the end of the input, and on a number above
`0xFFFFFFFF` it stores `0xFFFFFFFF` and the stream fails. -/
def CPU.execute_syscall (cpu : CPU) : Exec :=
  let syscall_code := cpu.get_syscall_code
  match syscall_code with
  | 1 => .ok { cpu with stdout := cpu.stdout ++ to_string (cpu.registers 4) }
  | 4 =>
    match cpu.memory.read_string (cpu.registers 4) with
    | none => .error (.hang, cpu)
    | some str => .ok { cpu with stdout := cpu.stdout ++ str }
  | 5 =>
    match cpu.stdin with
    | [] => .ok cpu
    | v :: rest =>
      if v < 2 ^ 32 then .ok { cpu.set_register 2 v with stdin := rest }
      else .ok { cpu.set_register 2 (2 ^ 32 - 1) with stdin := [] }
  | 8 => .ok cpu
  | 10 => .error (.exit (cpu.registers 4), cpu)
  | 11 => .ok { cpu with stdout := cpu.stdout ++ [Char.ofNat (cpu.registers 4 % 256)] }
  | 12 => .ok cpu
  | _ => .error (.fault (.runtime_error "Invalid syscall code"), cpu)

/-- The method `execute`: in the `default` branch `execute_i` runs and then,
when it has returned, `execute_j` runs on the same instruction. -/
def CPU.execute (cpu : CPU) (instruction opcode : Nat) : Exec :=
  if opcode = R_TYPE then cpu.execute_r instruction
  else if opcode = SYSCALL then cpu.execute_syscall
  else do
    let cpu ← cpu.execute_i instruction
    cpu.execute_j instruction

/-- The method `step`: fetch, decode, execute. -/
def CPU.step (cpu : CPU) : Exec := do
  let (instruction, cpu) ← cpu.fetch
  let opcode := CPU.decode instruction
  cpu.execute instruction opcode

/-- The memory after the bytes `bytes` have been stored from `address` on
(one `write_byte` each, as a loader or a test harness does). -/
def Memory.store_bytes (m : Memory) : Nat → List Nat → Memory
  | _, [] => m
  | address, b :: bs => (m.store address b).store_bytes ((address + 1) % 2 ^ 32) bs

/-! ## Scenarios built from the functions above -/

/-- The word that the second pass emits for a one-line source on a fresh
`Assembler`, when it leaves without an exception and has emitted exactly four
bytes; the bytes are read most significant first. -/
def emitted_word (line : List Char) : Option Nat :=
  match Assembler.second_pass { file_contents := [line] } with
  | (a, none) =>
    match a.binary with
    | [b0, b1, b2, b3] => some ((b0 <<< 24) ||| (b1 <<< 16) ||| (b2 <<< 8) ||| b3)
    | _ => none
  | _ => none

/-- The end-to-end scenario: the bytes that the second pass emits for a
one-line source are stored in memory from `pc` on and one CPU step is run. -/
def assemble_and_step (line : List Char) (cpu : CPU) : Exec :=
  let a := (Assembler.second_pass { file_contents := [line] }).1
  CPU.step { cpu with memory := cpu.memory.store_bytes cpu.pc a.binary }

/-- The CPU state of the Add scenario: `pc = TEXT_OFFSET`, `registers[2] = 5`,
`registers[3] = 7`, every other register 0, zeroed memory. -/
def add_scenario_cpu : CPU :=
  { ((CPU.new Memory.zero_memory []).set_register 2 5).set_register 3 7 with pc := TEXT_OFFSET }

/-- Whether a step ended with the exception `what`, leaving register `r` at
`v` and the program counter at `pc`. -/
def faulted_with (r : Exec) (what : String) (reg v pc : Nat) : Bool :=
  match r with
  | .error (.fault (.runtime_error msg), cpu) =>
    decide (msg = what) && decide (cpu.registers reg = v) && decide (cpu.pc = pc)
  | _ => false

/-- The instruction words that the loop of `second_pass` emits from index `i`
on over the remaining lines, in order, up to the first line that throws. -/
def emitted_from : Nat → List (List Char) → List Nat
  | _, [] => []
  | i, line :: rest =>
    match second_pass_line i line with
    | .error _ => []
    | .ok none => emitted_from (i + 1) rest
    | .ok (some instruction) => instruction :: emitted_from (i + 1) rest

/-- The packed payload of a sequence of words: four bytes each, most
significant first. -/
def be_payload : List Nat → List Nat
  | [] => []
  | w :: ws => (w >>> 24) % 256 :: (w >>> 16) % 256 :: (w >>> 8) % 256 :: w % 256 :: be_payload ws

/-- The bytes `4k .. 4k+3` of a byte buffer read as one big-endian word. -/
def word_at (binary : List Nat) (k : Nat) : Option Nat :=
  match binary.drop (4 * k) with
  | b0 :: b1 :: b2 :: b3 :: _ => some ((b0 <<< 24) ||| (b1 <<< 16) ||| (b2 <<< 8) ||| b3)
  | _ => none

/-- The CPU state that a method leaves behind, whether it returned or stopped
(an exception does not undo the assignments made before it). -/
def state_after (r : Exec) : CPU :=
  match r with
  | .ok cpu => cpu
  | .error (_, cpu) => cpu

/-- Whether a method returned (no exception, no `exit`, no endless loop). -/
def returned (r : Exec) : Bool :=
  match r with
  | .ok _ => true
  | .error _ => false

/-- The exception message a method ended with, if it ended with one. -/
def fault_of (r : Exec) : Option String :=
  match r with
  | .error (.fault (.runtime_error what), _) => some what
  | _ => none

/-- The CPU state `cpu` after the four bytes of the instruction word `w` have
been stored in memory from `pc` on, most significant first. -/
def with_instruction (cpu : CPU) (w : Nat) : CPU :=
  { cpu with
    memory := cpu.memory.store_bytes cpu.pc
      ([(w >>> 24) % 256, (w >>> 16) % 256, (w >>> 8) % 256, w % 256]) }

/-- A CPU on zeroed memory with `pc = TEXT_OFFSET`, the listed registers set to
the listed values and every other register 0. -/
def scenario_cpu (regs : List (Nat × Nat)) : CPU :=
  { regs.foldl (fun cpu p => cpu.set_register p.1 p.2) (CPU.new Memory.zero_memory []) with
    pc := TEXT_OFFSET }

/-! ## Readings of bit patterns used to state the claims -/

/-- A 32-bit pattern read as a signed (two's complement) integer. -/
def signed32 (v : Nat) : Int := if v < 2 ^ 31 then (v : Int) else (v : Int) - 2 ^ 32

/-- A 16-bit pattern read as a signed (two's complement) integer. -/
def signed16 (v : Nat) : Int := if v < 2 ^ 15 then (v : Int) else (v : Int) - 2 ^ 16

/-- A 16-bit pattern sign-extended to a 32-bit pattern. -/
def sign_extend (imm : Nat) : Nat := if imm < 2 ^ 15 then imm else imm + 0xFFFF0000

/-- The CPU state `cpu` after the instruction words `words` have been stored
in memory from `pc` on, four bytes each, most significant first. -/
def with_program (cpu : CPU) (words : List Nat) : CPU :=
  { cpu with memory := cpu.memory.store_bytes cpu.pc (be_payload words) }

/-- The store/load scenario: `registers[8] = 0x00400100` (the base),
`registers[9] = 0xCAFEBABE` (the value to store), and at `pc` the program
`sw` (`rs = 8`, `rt = 9`, `imm = 0`) followed by `lw` (`rs = 8`, `rt = 10`,
`imm = 0`). -/
def store_load_scenario_cpu : CPU :=
  with_program (scenario_cpu [(8, 0x00400100), (9, 0xCAFEBABE)])
    ([create_i_instruction 0x2B 8 9 0, create_i_instruction 0x23 8 10 0])

/-! ## include/emulator.hpp, src/emulator.cpp -/

/-- The class `Emulator`: it owns the `Memory` and the `CPU` (the CPU state
carries the memory it points to); `stderr` is what has been written to
`std::cerr`. -/
structure Emulator where
  cpu : CPU
  stderr : List Char

/-- The constructor `Emulator()`, on a process whose input is `stdin`. -/
def Emulator.new (stdin : List Nat) : Emulator :=
  { cpu := CPU.new Memory.zero_memory stdin, stderr := [] }

/-- The method `Emulator::step`: every `std::exception` of `cpu->step()` is
caught here, its message and a newline are written to `std::cerr`, and the
method returns normally.  Only `exit` and a loop that never ends stop it. -/
def Emulator.step (e : Emulator) : Except (Stop × Emulator) Emulator :=
  match e.cpu.step with
  | .ok cpu => .ok { e with cpu := cpu }
  | .error (.fault (.runtime_error what), cpu) =>
    .ok { cpu := cpu, stderr := e.stderr ++ what.toList ++ ['\n'] }
  | .error (.exit status, cpu) => .error (.exit status, { e with cpu := cpu })
  | .error (.hang, cpu) => .error (.hang, { e with cpu := cpu })

/-- Where the loop of `Emulator::run` is after a bounded number of
iterations. -/
inductive RunResult where
  /-- All the iterations asked for have been made and the loop goes on. -/
  | looping (e : Emulator)
  /-- An exception reached the `catch` of `run`, which left the loop by `break`. -/
  | broke (e : Emulator)
  /-- The process ended (`exit`) or a step never returned. -/
  | stopped (s : Stop) (e : Emulator)

/-- The loop `while (true)` of `Emulator::run`, for at most `n` iterations: an
exception of `this->step()` is printed and breaks the loop. -/
def Emulator.run_loop : Nat → Emulator → RunResult
  | 0, e => .looping e
  | n + 1, e =>
    match e.step with
    | .ok e' => Emulator.run_loop n e'
    | .error (.fault (.runtime_error what), e') =>
      .broke { e' with stderr := e'.stderr ++ what.toList ++ ['\n'] }
    | .error (.exit status, e') => .stopped (.exit status) e'
    | .error (.hang, e') => .stopped .hang e'

/-- The method `Emulator::prepare_and_hold`: the call that would load the
program is commented out; the CPU is reset. -/
def Emulator.prepare_and_hold (e : Emulator) (_filename : List Char) : Emulator :=
  { e with cpu := e.cpu.reset }

/-! ## include/obj.hpp, src/obj.cpp -/

/-- The files of the machine: the bytes of each file that can be opened for
reading, and whether a path can be opened for writing. -/
structure FileSystem where
  files : List Char → Option (List Nat)
  writable : List Char → Bool

/-- The file system after `path` has been opened for writing, truncated, and
`bytes` have been written to it. -/
def FileSystem.write (fs : FileSystem) (path : List Char) (bytes : List Nat) : FileSystem :=
  { fs with files := fun p => if p = path then some bytes else fs.files p }

def MIPS_VERSION : Nat := 1
def MIPS_HEADER_SIZE_BYTES : Nat := 8

/-- The struct `MIPS_file_header` (8 bytes, no implicit padding). -/
structure MIPS_file_header where
  magic : List Nat
  endianess : Nat
  version : Nat
  shnum : Nat
  padding : List Nat
  deriving DecidableEq, Repr

/-- The struct `MIPS_section_header` (12 bytes: four bytes, then two aligned
32-bit words). -/
structure MIPS_section_header where
  segment : Nat
  padding : List Nat
  offset : Nat
  size : Nat
  deriving DecidableEq, Repr

/-- The four bytes of a `word_t` in memory, in the byte order of the host
(`big_endian = false` for a little-endian host such as x86). -/
def word_bytes (big_endian : Bool) (v : Nat) : List Nat :=
  if big_endian then [(v >>> 24) % 256, (v >>> 16) % 256, (v >>> 8) % 256, v % 256]
  else [v % 256, (v >>> 8) % 256, (v >>> 16) % 256, (v >>> 24) % 256]

/-- The `word_t` whose four bytes in memory are `bs`, in the byte order of the
host; a byte that was not read counts as 0. -/
def bytes_word (big_endian : Bool) (bs : List Nat) : Nat :=
  if big_endian then
    (bs.getD 0 0 <<< 24) ||| (bs.getD 1 0 <<< 16) ||| (bs.getD 2 0 <<< 8) ||| bs.getD 3 0
  else
    (bs.getD 3 0 <<< 24) ||| (bs.getD 2 0 <<< 16) ||| (bs.getD 1 0 <<< 8) ||| bs.getD 0 0

/-- The bytes of a `MIPS_file_header` object, as `file.write((char*)&header, 8)`
writes them. -/
def MIPS_file_header.bytes (h : MIPS_file_header) : List Nat :=
  [h.magic.getD 0 0, h.magic.getD 1 0, h.magic.getD 2 0, h.magic.getD 3 0,
    h.endianess, h.version, h.shnum, h.padding.getD 0 0]

/-- The `MIPS_file_header` object after `file.read((char*)&header, 8)` on a
stream whose unread bytes are `bs`; a byte that was not read counts as 0. -/
def read_file_header (bs : List Nat) : MIPS_file_header :=
  { magic := [bs.getD 0 0, bs.getD 1 0, bs.getD 2 0, bs.getD 3 0],
    endianess := bs.getD 4 0, version := bs.getD 5 0, shnum := bs.getD 6 0,
    padding := [bs.getD 7 0] }

/-- The bytes of a `MIPS_section_header` object, as
`file.write((char*)&text_section, sizeof(MIPS_section_header))` writes them. -/
def MIPS_section_header.bytes (big_endian : Bool) (s : MIPS_section_header) : List Nat :=
  [s.segment, s.padding.getD 0 0, s.padding.getD 1 0, s.padding.getD 2 0] ++
    word_bytes big_endian s.offset ++ word_bytes big_endian s.size

/-- The `MIPS_section_header` object after
`file.read((char*)&section_header, sizeof(MIPS_section_header))` on a stream
whose unread bytes are `bs`; a byte that was not read counts as 0. -/
def read_section_header (big_endian : Bool) (bs : List Nat) : MIPS_section_header :=
  { segment := bs.getD 0 0, padding := [bs.getD 1 0, bs.getD 2 0, bs.getD 3 0],
    offset := bytes_word big_endian ((bs.drop 4).take 4),
    size := bytes_word big_endian ((bs.drop 8).take 4) }

/-- The function `is_mips_header`. -/
def is_mips_header (header : MIPS_file_header) : Bool :=
  if header.magic.getD 0 0 ≠ 'M'.toNat ∨ header.magic.getD 1 0 ≠ 'I'.toNat ∨
      header.magic.getD 2 0 ≠ 'P'.toNat ∨ header.magic.getD 3 0 ≠ 'S'.toNat then false
  else if header.version ≠ MIPS_VERSION then false
  else true

/-- The method `Memory::load_text_section`: its body is empty. -/
def Memory.load_text_section (m : Memory) (_file : List Nat) (_offset _size : Nat) : Memory := m

/-- The method `Memory::load_data_section`: its body is empty. -/
def Memory.load_data_section (m : Memory) (_file : List Nat) (_offset _size : Nat) : Memory := m

/-- The loop over the section headers of `load_mips_binary`: `count`
iterations on a stream whose unread bytes are `rest`. -/
def load_sections (big_endian : Bool) : Nat → List Nat → Memory → Memory
  | 0, _, memory => memory
  | count + 1, rest, memory =>
    let section_header := read_section_header big_endian rest
    let rest' := rest.drop 12
    if section_header.segment = 0 then
      load_sections big_endian count rest'
        (memory.load_text_section rest' section_header.offset section_header.size)
    else if section_header.segment = 1 then
      load_sections big_endian count rest'
        (memory.load_data_section rest' section_header.offset section_header.size)
    else load_sections big_endian count rest' memory

/-- The function `load_mips_binary`. -/
def load_mips_binary (fs : FileSystem) (big_endian : Bool) (filename : List Char)
    (memory : Memory) : Except Fault Memory :=
  match fs.files filename with
  | none => .error (.runtime_error "Failed to open file")
  | some bytes =>
    let header := read_file_header bytes
    if !is_mips_header header then .error (.runtime_error "Invalid MIPS header")
    else .ok (load_sections big_endian header.shnum (bytes.drop MIPS_HEADER_SIZE_BYTES) memory)

/-- The bytes that `save_mips_binary` writes for the buffer `binary`. -/
def mips_binary_bytes (big_endian : Bool) (binary : List Nat) : List Nat :=
  let header : MIPS_file_header :=
    { magic := ['M'.toNat, 'I'.toNat, 'P'.toNat, 'S'.toNat], endianess := 0,
      version := MIPS_VERSION, shnum := 1, padding := [0] }
  let text_section : MIPS_section_header :=
    { segment := 0, padding := [0, 0, 0], offset := 0, size := binary.length % 2 ^ 32 }
  header.bytes ++ text_section.bytes big_endian ++ binary

/-- The function `save_mips_binary`. -/
def save_mips_binary (fs : FileSystem) (big_endian : Bool) (filename : List Char)
    (binary : List Nat) : Except AsmError FileSystem :=
  if !fs.writable filename then .error (.runtime_error "Failed to open file")
  else .ok (fs.write filename (mips_binary_bytes big_endian binary))

/-- The emulator state in which the loop of `run` is or was left. -/
def RunResult.emulator : RunResult → Emulator
  | .looping e => e
  | .broke e => e
  | .stopped _ e => e

/-- Whether the loop of `run` is still going on. -/
def RunResult.is_looping : RunResult → Bool
  | .looping _ => true
  | _ => false

/-- A file system whose only readable file is `path`, holding `bytes`; every
path can be opened for writing. -/
def single_file (path : List Char) (bytes : List Nat) : FileSystem :=
  { files := fun p => if p = path then some bytes else none, writable := fun _ => true }

/-! ## src/assembler.cpp: the passes over a file -/

/-- The loop `while (std::getline(file, line))` of `load_file` on a stream
whose unread characters are `rest`; every iteration consumes a character. -/
def read_lines : Nat → List Char → List (List Char)
  | 0, _ => []
  | n + 1, rest =>
    match getline rest '\n' with
    | none => []
    | some (line, rest') => line :: read_lines n rest'

/-- The method `Assembler::load_file`: the lines of the file are appended to
`file_contents`. -/
def Assembler.load_file (a : Assembler) (fs : FileSystem) (filename : List Char) :
    Except AsmError Assembler :=
  match fs.files filename with
  | none => .error (.runtime_error "Could not open file")
  | some bytes =>
    let text := bytes.map Char.ofNat
    .ok { a with file_contents := a.file_contents ++ read_lines text.length text }

/-- The `for` loop of `first_pass` from index `i` on, over the remaining
lines; the index is converted to `address_t` in the `Symbol`. -/
def first_pass_from : Nat → List (List Char) → List Symbol → List Symbol
  | _, [], labels => labels
  | i, line :: rest, labels =>
    let line := trim line
    if is_empty_line line then first_pass_from (i + 1) rest labels
    else if is_comment line then first_pass_from (i + 1) rest labels
    else if is_label line then
      let label := line.takeWhile (fun c => c != ':')
      first_pass_from (i + 1) rest (labels ++ [{ name := label, address := i % 2 ^ 32 }])
    else first_pass_from (i + 1) rest labels

/-- The method `Assembler::first_pass`; nothing in it throws. -/
def Assembler.first_pass (a : Assembler) : Assembler :=
  { a with labels := first_pass_from 0 a.file_contents a.labels }

/-- The method `Assembler::assemble`, with the file system it reads and
writes: the state of the object when it returns or throws, the file system
then, and the exception if it throws. -/
def Assembler.assemble (a : Assembler) (fs : FileSystem) (big_endian : Bool)
    (filename output : List Char) : Assembler × FileSystem × Option AsmError :=
  match a.load_file fs filename with
  | .error e => (a, fs, some e)
  | .ok a1 =>
    match a1.first_pass.second_pass with
    | (a2, some e) => (a2, fs, some e)
    | (a2, none) =>
      match save_mips_binary fs big_endian output a2.binary with
      | .error e => (a2, fs, some e)
      | .ok fs' => (a2, fs', none)

/-- The bytes of a text, one per character. -/
def text_bytes (text : List Char) : List Nat := text.map Char.toNat

/-! ## The symbol table as the specification words it -/

/-- The symbol that the specification of pass 1 assigns to the line of index
`i`: a line that after trimming is non-empty, contains no `#` and contains `:`
gives the text of the trimmed line before its first `:` as name and the index
as address; every other line gives no symbol. -/
def specified_symbol (i : Nat) (line : List Char) : Option Symbol :=
  if trim line ≠ [] ∧ '#' ∉ trim line ∧ ':' ∈ trim line then
    some { name := (trim line).takeWhile (fun c => c != ':'), address := i }
  else none

/-- The symbol list that the specification of pass 1 assigns to a source: the
symbols of its lines, in source order. -/
def specified_symbols (src : List (List Char)) : List Symbol :=
  src.enum.filterMap fun p => specified_symbol p.1 p.2

/-- The conversion of a symbol's address to the 32-bit `address_t`. -/
def Symbol.to_address_t (s : Symbol) : Symbol := { s with address := s.address % 2 ^ 32 }

/-! ## Two calls of `assemble` on one object -/

/-- A file system with two sources: `a.s` holds a label and an `add`, `b.s` a
label and a `sub`; every path can be opened for writing. -/
def two_source_files : FileSystem :=
  (single_file "a.s".toList (text_bytes "l1:\nadd $t1, $t2, $t3\n".toList)).write "b.s".toList
    (text_bytes "l2:\nsub $t1, $t2, $t3\n".toList)

/-- The call `assemble(f1, o1)` followed by `assemble(f2, o2)` on the same
object: the second call starts from the object and the files that the first
call left. -/
def assemble_twice (a : Assembler) (fs : FileSystem) (big_endian : Bool)
    (f1 o1 f2 o2 : List Char) : Assembler × FileSystem × Option AsmError :=
  let r := a.assemble fs big_endian f1 o1
  r.1.assemble r.2.1 big_endian f2 o2

/-! ## Theorems -/

/-! ### Arithmetic readings of the bit operations -/

theorem and_shiftRight_eq (w mask sh n : Nat) (hm : mask >>> sh = 2 ^ n - 1) :
    (w &&& mask) >>> sh = (w / 2 ^ sh) % 2 ^ n := by
  have h : (w &&& mask) >>> sh = (w >>> sh) &&& (mask >>> sh) := by
    apply Nat.eq_of_testBit_eq
    intro i
    simp only [Nat.testBit_shiftRight, Nat.testBit_and]
  rw [h, hm, Nat.and_pow_two_sub_one_eq_mod, Nat.shiftRight_eq_div_pow]

theorem or_eq_add (a b i : Nat) (hb : b < 2 ^ i) (ha : a % 2 ^ i = 0) : a ||| b = a + b := by
  obtain ⟨k, rfl⟩ := Nat.dvd_of_mod_eq_zero ha
  exact (Nat.mul_add_lt_is_or hb k).symm

theorem get_opcode_eq (w : Nat) : get_opcode w = (w / 2 ^ 26) % 64 := by
  unfold get_opcode OPCODE_MASK OPCODE_SHIFT
  rw [and_shiftRight_eq w _ 26 6 (by decide)]
  omega

theorem get_rs_eq (w : Nat) : get_rs w = (w / 2 ^ 21) % 32 := by
  unfold get_rs RS_MASK RS_SHIFT
  rw [and_shiftRight_eq w _ 21 5 (by decide)]
  omega

theorem get_rt_eq (w : Nat) : get_rt w = (w / 2 ^ 16) % 32 := by
  unfold get_rt RT_MASK RT_SHIFT
  rw [and_shiftRight_eq w _ 16 5 (by decide)]
  omega

theorem get_rd_eq (w : Nat) : get_rd w = (w / 2 ^ 11) % 32 := by
  unfold get_rd RD_MASK RD_SHIFT
  rw [and_shiftRight_eq w _ 11 5 (by decide)]
  omega

theorem get_shamt_eq (w : Nat) : get_shamt w = (w / 2 ^ 6) % 32 := by
  unfold get_shamt SHAMT_MASK SHAMT_SHIFT
  rw [and_shiftRight_eq w _ 6 5 (by decide)]
  omega

theorem get_funct_eq (w : Nat) : get_funct w = w % 64 := by
  unfold get_funct FUNCT_MASK FUNCT_SHIFT
  rw [and_shiftRight_eq w _ 0 6 (by decide)]
  omega

theorem get_immediate_eq (w : Nat) : get_immediate w = w % 65536 := by
  unfold get_immediate IMMEDIATE_MASK IMMEDIATE_SHIFT
  rw [and_shiftRight_eq w _ 0 16 (by decide)]
  omega

theorem get_address_eq (w : Nat) : get_address w = w % 2 ^ 26 := by
  unfold get_address ADDRESS_MASK ADDRESS_SHIFT
  rw [and_shiftRight_eq w _ 0 26 (by decide)]
  omega

/-- With every field inside its width the or-ed fields of an R-type word do
not overlap, so the word is their weighted sum. -/
theorem create_r_instruction_eq (op rs rt rd shamt funct : Nat)
    (hop : op < 64) (hrs : rs < 32) (hrt : rt < 32) (hrd : rd < 32)
    (hshamt : shamt < 32) (hfunct : funct < 64) :
    create_r_instruction op rs rt rd shamt funct =
      op * 2 ^ 26 + rs * 2 ^ 21 + rt * 2 ^ 16 + rd * 2 ^ 11 + shamt * 2 ^ 6 + funct := by
  unfold create_r_instruction OPCODE_SHIFT RS_SHIFT RT_SHIFT RD_SHIFT SHAMT_SHIFT FUNCT_SHIFT
  simp only [Nat.shiftLeft_eq, Nat.pow_zero, Nat.mul_one]
  rw [or_eq_add (op * 2 ^ 26) (rs * 2 ^ 21) 26 (by omega) (by omega),
    or_eq_add _ (rt * 2 ^ 16) 21 (by omega) (by omega),
    or_eq_add _ (rd * 2 ^ 11) 16 (by omega) (by omega),
    or_eq_add _ (shamt * 2 ^ 6) 11 (by omega) (by omega),
    or_eq_add _ funct 6 (by omega) (by omega)]
  omega

/-- With every field inside its width an I-type word is the weighted sum of
its fields. -/
theorem create_i_instruction_eq (op rs rt imm : Nat)
    (hop : op < 64) (hrs : rs < 32) (hrt : rt < 32) (himm : imm < 2 ^ 16) :
    create_i_instruction op rs rt imm = op * 2 ^ 26 + rs * 2 ^ 21 + rt * 2 ^ 16 + imm := by
  unfold create_i_instruction OPCODE_SHIFT RS_SHIFT RT_SHIFT IMMEDIATE_SHIFT
  simp only [Nat.shiftLeft_eq, Nat.pow_zero, Nat.mul_one]
  rw [or_eq_add (op * 2 ^ 26) (rs * 2 ^ 21) 26 (by omega) (by omega),
    or_eq_add _ (rt * 2 ^ 16) 21 (by omega) (by omega),
    or_eq_add _ imm 16 (by omega) (by omega)]
  omega

/-- With both fields inside their widths a J-type word is the weighted sum of
its fields. -/
theorem create_j_instruction_eq (op target : Nat) (hop : op < 64) (ht : target < 2 ^ 26) :
    create_j_instruction op target = op * 2 ^ 26 + target := by
  unfold create_j_instruction OPCODE_SHIFT ADDRESS_SHIFT
  simp only [Nat.shiftLeft_eq, Nat.pow_zero, Nat.mul_one]
  rw [or_eq_add _ _ 26 (by omega) (by omega)]
  omega

/-! ### The codec round trip -/

/-- C1: for every `op < 64`, `rs, rt, rd, shamt < 32` and `funct < 64` the
word `w = create_r_instruction op rs rt rd shamt funct` decodes to the same
six fields. -/
theorem create_r_instruction_round_trip (op rs rt rd shamt funct : Nat)
    (hop : op < 64) (hrs : rs < 32) (hrt : rt < 32) (hrd : rd < 32)
    (hshamt : shamt < 32) (hfunct : funct < 64) :
    get_opcode (create_r_instruction op rs rt rd shamt funct) = op ∧
    get_rs (create_r_instruction op rs rt rd shamt funct) = rs ∧
    get_rt (create_r_instruction op rs rt rd shamt funct) = rt ∧
    get_rd (create_r_instruction op rs rt rd shamt funct) = rd ∧
    get_shamt (create_r_instruction op rs rt rd shamt funct) = shamt ∧
    get_funct (create_r_instruction op rs rt rd shamt funct) = funct := by
  rw [create_r_instruction_eq op rs rt rd shamt funct hop hrs hrt hrd hshamt hfunct,
    get_opcode_eq, get_rs_eq, get_rt_eq, get_rd_eq, get_shamt_eq, get_funct_eq]
  refine ⟨?_, ?_, ?_, ?_, ?_, ?_⟩ <;> omega

theorem create_r_instruction_round_trip_witness :
    get_opcode (create_r_instruction 0 2 3 1 0 0x20) = 0 ∧
    get_rs (create_r_instruction 0 2 3 1 0 0x20) = 2 ∧
    get_rt (create_r_instruction 0 2 3 1 0 0x20) = 3 ∧
    get_rd (create_r_instruction 0 2 3 1 0 0x20) = 1 ∧
    get_shamt (create_r_instruction 0 2 3 1 0 0x20) = 0 ∧
    get_funct (create_r_instruction 0 2 3 1 0 0x20) = 0x20 :=
  create_r_instruction_round_trip 0 2 3 1 0 0x20 (by decide) (by decide) (by decide)
    (by decide) (by decide) (by decide)

/-- C2: for every `op < 64`, `rs, rt < 32` and `imm < 2^16` the word
`create_i_instruction op rs rt imm` decodes to `op`, `rs`, `rt`, `imm`; and for
every `op < 64` and `target < 2^26` the word `create_j_instruction op target`
decodes to `op` and `target`. -/
theorem create_i_j_instruction_round_trip (op rs rt imm target : Nat)
    (hop : op < 64) (hrs : rs < 32) (hrt : rt < 32) (himm : imm < 2 ^ 16)
    (htarget : target < 2 ^ 26) :
    (get_opcode (create_i_instruction op rs rt imm) = op ∧
      get_rs (create_i_instruction op rs rt imm) = rs ∧
      get_rt (create_i_instruction op rs rt imm) = rt ∧
      get_immediate (create_i_instruction op rs rt imm) = imm) ∧
    (get_opcode (create_j_instruction op target) = op ∧
      get_address (create_j_instruction op target) = target) := by
  rw [create_i_instruction_eq op rs rt imm hop hrs hrt himm,
    create_j_instruction_eq op target hop htarget,
    get_opcode_eq, get_opcode_eq, get_rs_eq, get_rt_eq, get_immediate_eq, get_address_eq]
  refine ⟨⟨?_, ?_, ?_, ?_⟩, ?_, ?_⟩ <;> omega

theorem create_i_j_instruction_round_trip_witness :
    (get_opcode (create_i_instruction 0x23 9 8 0xFFFF) = 0x23 ∧
      get_rs (create_i_instruction 0x23 9 8 0xFFFF) = 9 ∧
      get_rt (create_i_instruction 0x23 9 8 0xFFFF) = 8 ∧
      get_immediate (create_i_instruction 0x23 9 8 0xFFFF) = 0xFFFF) ∧
    (get_opcode (create_j_instruction 0x23 0x1000) = 0x23 ∧
      get_address (create_j_instruction 0x23 0x1000) = 0x1000) :=
  create_i_j_instruction_round_trip 0x23 9 8 0xFFFF 0x1000 (by decide) (by decide) (by decide)
    (by decide) (by decide)

/-! ### The second pass on single lines -/

/-- C3: on the line `add $t1, $t2, $t3` the second pass emits the bytes
`80 43 08 00`: the word `0x80430800` has opcode field `0x20` (the table entry of
`add`) and funct field `0`, where the claim has opcode `0x00` and funct `0x20`;
the register fields are as claimed (`rd = 1`, `rs = 2`, `rt = 3`).  The same
holds for every mnemonic of the R-table: the table entry lands in the opcode
field and the funct field is `0`. -/
theorem second_pass_r_type_opcode_field :
    Assembler.second_pass { file_contents := ["add $t1, $t2, $t3".toList] } =
      ({ file_contents := ["add $t1, $t2, $t3".toList], binary := [0x80, 0x43, 0x08, 0x00],
         line := 1, text_size := 4 }, none) ∧
    emitted_word ("add $t1, $t2, $t3".toList) = some 0x80430800 ∧
    get_opcode 0x80430800 = 0x20 ∧ get_funct 0x80430800 = 0 ∧ get_shamt 0x80430800 = 0 ∧
    get_rd 0x80430800 = 1 ∧ get_rs 0x80430800 = 2 ∧ get_rt 0x80430800 = 3 ∧
    r_opcode_map.all (fun m =>
      match emitted_word (m.1 ++ " $t1, $t2, $t3".toList) with
      | some w => decide (get_opcode w = m.2 ∧ get_funct w = 0)
      | none => false) = true := by
  refine ⟨by decide, by decide, by decide, by decide, by decide, by decide, by decide,
    by decide, by decide⟩

/-- C4: in the Add scenario (`$t2 = 5`, `$t3 = 7`, the bytes assembled from
`add $t1, $t2, $t3` stored at `pc = 0x00400000`) one CPU step ends with the
exception "Invalid opcode for I-type instruction", with `registers[1]` still 0
and `pc = 0x00400004`; the claim has no fault and `registers[1] = 12`.  The
step faults in the same way for `sub`, `and` and `or`. -/
theorem assembled_r_type_step_faults :
    faulted_with (assemble_and_step ("add $t1, $t2, $t3".toList) add_scenario_cpu)
      "Invalid opcode for I-type instruction" 1 0 0x00400004 = true ∧
    faulted_with (assemble_and_step ("sub $t1, $t2, $t3".toList) add_scenario_cpu)
      "Invalid opcode for I-type instruction" 1 0 0x00400004 = true ∧
    faulted_with (assemble_and_step ("and $t1, $t2, $t3".toList) add_scenario_cpu)
      "Invalid opcode for I-type instruction" 1 0 0x00400004 = true ∧
    faulted_with (assemble_and_step ("or $t1, $t2, $t3".toList) add_scenario_cpu)
      "Invalid opcode for I-type instruction" 1 0 0x00400004 = true := by
  refine ⟨by decide, by decide, by decide, by decide⟩

/-- C5: the line `addi $t1, $t2, -1` is accepted (its immediate token is
valid) and the emitted word is `0xFFFFFFFF`: the immediate field is
`0xFFFF = -1 mod 2^16` as claimed, but the opcode field is `0x3F` instead of
`0x08`, and the `rs` and `rt` fields are `31` instead of `2` and `1`. -/
theorem second_pass_negative_immediate_fields :
    is_valid_immediate ("-1".toList) = .ok true ∧
    map_at i_opcode_map ("addi".toList) = 0x08 ∧
    emitted_word ("addi $t1, $t2, -1".toList) = some 0xFFFFFFFF ∧
    get_immediate 0xFFFFFFFF = 0xFFFF ∧ get_opcode 0xFFFFFFFF = 0x3F ∧
    get_rs 0xFFFFFFFF = 31 ∧ get_rt 0xFFFFFFFF = 31 := by
  refine ⟨by decide, by decide, by decide, by decide, by decide, by decide, by decide⟩

/-- C6: the line `j 67108864` (the address `2^26`) is not rejected: the address
token is valid for `is_valid_address`, the second pass leaves without an
exception and emits the word `0x0C000000`, whose opcode field is `0x03` (that
of `jal`) and whose address field is `0`. -/
theorem second_pass_j_address_out_of_range :
    is_valid_address ("67108864".toList) = true ∧
    stoi ("67108864".toList) = .ok (2 ^ 26) ∧
    map_at j_opcode_map ("j".toList) = 0x02 ∧
    (Assembler.second_pass { file_contents := ["j 67108864".toList] }).2 = none ∧
    emitted_word ("j 67108864".toList) = some 0x0C000000 ∧
    get_opcode 0x0C000000 = 0x03 ∧ get_address 0x0C000000 = 0 := by
  refine ⟨by decide, by decide, by decide, by decide, by decide, by decide, by decide⟩

/-! ### Memory -/

@[simp] theorem Memory.store_memory (m : Memory) (x v y : Nat) :
    (m.store x v).memory y = if y = x then v % 256 else m.memory y := rfl

theorem check_address_eq_true (a : Nat) (h : a < 2 ^ 32) : check_address a = true := by
  have h' : ¬ a ≥ MAX_MEMORY := by unfold MAX_MEMORY; omega
  simp [check_address, h']

/-- The four bytes of a 32-bit word, most significant first, joined again. -/
theorem be_bytes_join (w : Nat) (hw : w < 2 ^ 32) :
    ((((w >>> 24) % 256) <<< 24) ||| (((w >>> 16) % 256) <<< 16) |||
      (((w >>> 8) % 256) <<< 8) ||| (w % 256)) = w := by
  simp only [Nat.shiftLeft_eq, Nat.shiftRight_eq_div_pow]
  rw [or_eq_add (w / 2 ^ 24 % 256 * 2 ^ 24) (w / 2 ^ 16 % 256 * 2 ^ 16) 24 (by omega) (by omega),
    or_eq_add _ (w / 2 ^ 8 % 256 * 2 ^ 8) 16 (by omega) (by omega),
    or_eq_add _ (w % 256) 8 (by omega) (by omega)]
  omega

/-- Four bytes joined most significant first form a 32-bit value. -/
theorem be_join_lt (b0 b1 b2 b3 : Nat) (h0 : b0 < 256) (h1 : b1 < 256) (h2 : b2 < 256)
    (h3 : b3 < 256) : ((b0 <<< 24) ||| (b1 <<< 16) ||| (b2 <<< 8) ||| b3) < 2 ^ 32 := by
  simp only [Nat.shiftLeft_eq]
  rw [or_eq_add (b0 * 2 ^ 24) (b1 * 2 ^ 16) 24 (by omega) (by omega),
    or_eq_add _ (b2 * 2 ^ 8) 16 (by omega) (by omega),
    or_eq_add _ b3 8 (by omega) (by omega)]
  omega

/-- C8: for every address `a` with `a + 3 < MAX_MEMORY` and every 32-bit `w`,
`write_word(w, a)` returns and a following `read_word(a)` returns `w`. -/
theorem write_word_read_word (m : Memory) (a w : Nat) (ha : a + 3 < MAX_MEMORY)
    (hw : w < 2 ^ 32) :
    ∃ m', m.write_word w a = .ok m' ∧ m'.read_word a = .ok w := by
  have ha' : a + 3 < 2 ^ 32 := by unfold MAX_MEMORY at ha; omega
  have e1 : (a + 1) % 2 ^ 32 = a + 1 := Nat.mod_eq_of_lt (by omega)
  have e2 : (a + 2) % 2 ^ 32 = a + 2 := Nat.mod_eq_of_lt (by omega)
  have e3 : (a + 3) % 2 ^ 32 = a + 3 := Nat.mod_eq_of_lt (by omega)
  have c0 : check_address a = true := check_address_eq_true a (by omega)
  have c3 : check_address (a + 3) = true := check_address_eq_true (a + 3) ha'
  refine ⟨_, by simp only [Memory.write_word, e3, c0, c3]; rfl, ?_⟩
  simp only [Memory.read_word, e1, e2, e3, c0, c3, Memory.store_memory]
  have n1 : ¬ a = a + 1 := by omega
  have n2 : ¬ a = a + 2 := by omega
  have n3 : ¬ a = a + 3 := by omega
  have n4 : ¬ a + 1 = a + 2 := by omega
  have n5 : ¬ a + 1 = a + 3 := by omega
  have n6 : ¬ a + 2 = a + 3 := by omega
  simp only [n1, n2, n3, n4, n5, n6, if_true, if_false, Bool.not_true, Bool.or_self,
    Bool.false_eq_true]
  rw [be_bytes_join w hw, Nat.mod_eq_of_lt hw]

theorem write_word_read_word_witness :
    ∃ m', Memory.zero_memory.write_word 0xCAFEBABE 0xFFFFFFFC = .ok m' ∧
      m'.read_word 0xFFFFFFFC = .ok 0xCAFEBABE :=
  write_word_read_word Memory.zero_memory 0xFFFFFFFC 0xCAFEBABE (by decide) (by decide)

/-- C9: for every address `a` with `a + 3 < 2^32` the four calls
`read_byte(a)`, ..., `read_byte(a+3)` return bytes `b0`, ..., `b3` and
`read_word(a)` returns `(b0 << 24) | (b1 << 16) | (b2 << 8) | b3`. -/
theorem read_word_big_endian (m : Memory) (a : Nat) (ha : a + 3 < 2 ^ 32) :
    ∃ b0 b1 b2 b3, m.read_byte a = .ok b0 ∧ m.read_byte (a + 1) = .ok b1 ∧
      m.read_byte (a + 2) = .ok b2 ∧ m.read_byte (a + 3) = .ok b3 ∧
      m.read_word a = .ok ((b0 <<< 24) ||| (b1 <<< 16) ||| (b2 <<< 8) ||| b3) := by
  have e1 : (a + 1) % 2 ^ 32 = a + 1 := Nat.mod_eq_of_lt (by omega)
  have e2 : (a + 2) % 2 ^ 32 = a + 2 := Nat.mod_eq_of_lt (by omega)
  have e3 : (a + 3) % 2 ^ 32 = a + 3 := Nat.mod_eq_of_lt (by omega)
  have c0 : check_address a = true := check_address_eq_true a (by omega)
  have c1 : check_address (a + 1) = true := check_address_eq_true (a + 1) (by omega)
  have c2 : check_address (a + 2) = true := check_address_eq_true (a + 2) (by omega)
  have c3 : check_address (a + 3) = true := check_address_eq_true (a + 3) ha
  refine ⟨m.memory a, m.memory (a + 1), m.memory (a + 2), m.memory (a + 3), ?_, ?_, ?_, ?_, ?_⟩
  · simp [Memory.read_byte, c0]
  · simp [Memory.read_byte, c1]
  · simp [Memory.read_byte, c2]
  · simp [Memory.read_byte, c3]
  · simp only [Memory.read_word, e1, e2, e3, c0, c3, Bool.not_true, Bool.or_self,
      Bool.false_eq_true, if_false]
    rw [Nat.mod_eq_of_lt (be_join_lt _ _ _ _ (m.byte_bound _) (m.byte_bound _)
      (m.byte_bound _) (m.byte_bound _))]

theorem read_word_big_endian_witness :
    ∃ b0 b1 b2 b3, Memory.zero_memory.read_byte 0xFFFFFFFC = .ok b0 ∧
      Memory.zero_memory.read_byte (0xFFFFFFFC + 1) = .ok b1 ∧
      Memory.zero_memory.read_byte (0xFFFFFFFC + 2) = .ok b2 ∧
      Memory.zero_memory.read_byte (0xFFFFFFFC + 3) = .ok b3 ∧
      Memory.zero_memory.read_word 0xFFFFFFFC =
        .ok ((b0 <<< 24) ||| (b1 <<< 16) ||| (b2 <<< 8) ||| b3) :=
  read_word_big_endian Memory.zero_memory 0xFFFFFFFC (by decide)

/-- C10: `read_word(0xFFFFFFFD)` (that is `read_word(MAX_MEMORY - 3)`) raises
nothing: `address + 3` wraps to `0`, both calls of `check_address` return true
and the result is made of the cells `0xFFFFFFFD`, `0xFFFFFFFE`, `0xFFFFFFFF`
and `0`; `write_word(w, 0xFFFFFFFD)` returns as well, and its last byte lands
in cell `0`. -/
theorem read_word_wraps_at_top (m : Memory) (w : Nat) :
    check_address ((0xFFFFFFFD + 3) % 2 ^ 32) = true ∧
    m.read_word 0xFFFFFFFD =
      .ok (((m.memory 0xFFFFFFFD <<< 24) ||| (m.memory 0xFFFFFFFE <<< 16) |||
        (m.memory 0xFFFFFFFF <<< 8) ||| m.memory 0) % 2 ^ 32) ∧
    ∃ m', m.write_word w 0xFFFFFFFD = .ok m' ∧ m'.memory 0 = w % 256 := by
  refine ⟨by decide, rfl, _, rfl, ?_⟩
  simp

/-! ### The payload of the second pass -/

theorem create_r_instruction_lt (op rs rt rd shamt funct : Nat) :
    create_r_instruction op rs rt rd shamt funct < 2 ^ 32 :=
  Nat.mod_lt _ (by decide)

theorem create_i_instruction_lt (op rs rt imm : Nat) :
    create_i_instruction op rs rt imm < 2 ^ 32 :=
  Nat.mod_lt _ (by decide)

theorem create_j_instruction_lt (op target : Nat) : create_j_instruction op target < 2 ^ 32 :=
  Nat.mod_lt _ (by decide)

theorem assemble_r_type_instruction_lt (m rd rs rt : List Char) (w : Nat)
    (h : assemble_r_type_instruction m rd rs rt = .ok w) : w < 2 ^ 32 := by
  unfold assemble_r_type_instruction at h
  simp only [bind, Except.bind, pure, Except.pure] at h
  repeat' split at h
  all_goals first
    | contradiction
    | (injection h with h; subst h; exact create_r_instruction_lt _ _ _ _ _ _)

theorem assemble_i_type_instruction_lt (m rt rs imm : List Char) (w : Nat)
    (h : assemble_i_type_instruction m rt rs imm = .ok w) : w < 2 ^ 32 := by
  unfold assemble_i_type_instruction at h
  simp only [bind, Except.bind, pure, Except.pure] at h
  repeat' split at h
  all_goals first
    | contradiction
    | (injection h with h; subst h; exact create_i_instruction_lt _ _ _ _)

theorem assemble_j_type_instruction_lt (m address : List Char) (w : Nat)
    (h : assemble_j_type_instruction m address = .ok w) : w < 2 ^ 32 := by
  unfold assemble_j_type_instruction at h
  simp only [bind, Except.bind, pure, Except.pure] at h
  repeat' split at h
  all_goals first
    | contradiction
    | (injection h with h; subst h; exact create_j_instruction_lt _ _)

theorem except_bind_eq_ok {ε α β : Type} (x : Except ε α) (f : α → Except ε β) (v : β)
    (h : (x >>= f) = .ok v) : ∃ a, x = .ok a ∧ f a = .ok v := by
  cases x with
  | error e => cases h
  | ok a => exact ⟨a, rfl, h⟩

theorem second_pass_line_lt (i : Nat) (line : List Char) (w : Nat)
    (h : second_pass_line i line = .ok (some w)) : w < 2 ^ 32 := by
  unfold second_pass_line at h
  generalize tokenize line = tokens at h
  split at h
  · cases h
  · simp only [] at h
    split at h
    · obtain ⟨_, _, h⟩ := except_bind_eq_ok _ _ _ h
      split at h
      · cases h
      · obtain ⟨_, _, h⟩ := except_bind_eq_ok _ _ _ h
        obtain ⟨v, hv, h⟩ := except_bind_eq_ok _ _ _ h
        cases h
        exact assemble_r_type_instruction_lt _ _ _ _ _ hv
    · split at h
      · obtain ⟨_, _, h⟩ := except_bind_eq_ok _ _ _ h
        split at h
        · cases h
        · obtain ⟨_, _, h⟩ := except_bind_eq_ok _ _ _ h
          obtain ⟨b, _, h⟩ := except_bind_eq_ok _ _ _ h
          split at h
          · cases h
          · obtain ⟨_, _, h⟩ := except_bind_eq_ok _ _ _ h
            obtain ⟨v, hv, h⟩ := except_bind_eq_ok _ _ _ h
            cases h
            exact assemble_i_type_instruction_lt _ _ _ _ _ hv
      · split at h
        · obtain ⟨_, _, h⟩ := except_bind_eq_ok _ _ _ h
          split at h
          · cases h
          · obtain ⟨_, _, h⟩ := except_bind_eq_ok _ _ _ h
            obtain ⟨v, hv, h⟩ := except_bind_eq_ok _ _ _ h
            cases h
            exact assemble_j_type_instruction_lt _ _ _ hv
        · cases h

theorem emitted_from_lt : ∀ (lines : List (List Char)) (i : Nat) (w : Nat),
    w ∈ emitted_from i lines → w < 2 ^ 32 := by
  intro lines
  induction lines with
  | nil => intro i w h; simp [emitted_from] at h
  | cons line rest ih =>
    intro i w h
    unfold emitted_from at h
    split at h
    · simp at h
    · exact ih _ _ h
    · next instruction heq =>
      rcases List.mem_cons.mp h with h | h
      · subst h; exact second_pass_line_lt _ _ _ heq
      · exact ih _ _ h

theorem append_instruction_eq (w : Nat) (binary : List Nat) :
    append_instruction w binary = binary ++ be_payload [w] := by
  simp [append_instruction, be_payload]

theorem be_payload_append (ws : List Nat) (w : Nat) :
    be_payload (ws ++ [w]) = be_payload ws ++ be_payload [w] := by
  induction ws with
  | nil => simp [be_payload]
  | cons x xs ih => simp [be_payload, ih]

theorem be_payload_length (ws : List Nat) : (be_payload ws).length = 4 * ws.length := by
  induction ws with
  | nil => rfl
  | cons x xs ih => simp only [be_payload, List.length_cons, ih]; omega

/-- Reading word `k` of a packed payload gives back the `k`-th word. -/
theorem word_at_be_payload : ∀ (ws : List Nat), (∀ w ∈ ws, w < 2 ^ 32) →
    ∀ k, word_at (be_payload ws) k = ws[k]? := by
  intro ws
  induction ws with
  | nil => intro _ k; simp [word_at, be_payload]
  | cons x xs ih =>
    intro hws k
    cases k with
    | zero =>
      simp only [word_at, be_payload, Nat.mul_zero, List.drop_zero, List.getElem?_cons_zero]
      rw [be_bytes_join x (hws x (List.mem_cons_self _ _))]
    | succ k =>
      have h := ih (fun w hw => hws w (List.mem_cons_of_mem _ hw)) k
      have e : 4 * (k + 1) = 4 * k + 4 := by omega
      simp only [word_at, be_payload, e, List.drop_succ_cons, List.getElem?_cons_succ] at h ⊢
      exact h

/-- What the loop of `second_pass` does to the buffer and the counters, in
terms of the words it emits. -/
theorem second_pass_from_spec : ∀ (lines : List (List Char)) (i : Nat) (a : Assembler),
    a.text_size < 2 ^ 32 →
    (second_pass_from i lines a).1.binary = a.binary ++ be_payload (emitted_from i lines) ∧
    (second_pass_from i lines a).1.text_size =
      (a.text_size + 4 * (emitted_from i lines).length) % 2 ^ 32 ∧
    (second_pass_from i lines a).1.line = a.line + (emitted_from i lines).length := by
  intro lines
  induction lines with
  | nil =>
    intro i a ha
    simp only [second_pass_from, emitted_from, be_payload, List.append_nil, List.length_nil,
      Nat.mul_zero, Nat.add_zero, Nat.mod_eq_of_lt ha, Nat.cast_zero, Int.add_zero, and_self]
  | cons line rest ih =>
    intro i a ha
    cases hl : second_pass_line i line with
    | error e =>
      simp only [second_pass_from, emitted_from, hl, be_payload, List.append_nil,
        List.length_nil, Nat.mul_zero, Nat.add_zero, Nat.mod_eq_of_lt ha, Nat.cast_zero,
        Int.add_zero, and_self]
    | ok r =>
      cases r with
      | none =>
        simp only [second_pass_from, emitted_from, hl]
        exact ih (i + 1) a ha
      | some w =>
        have hemit : (a.emit w).text_size < 2 ^ 32 := Nat.mod_lt _ (by decide)
        obtain ⟨h1, h2, h3⟩ := ih (i + 1) (a.emit w) hemit
        have e1 : (a.emit w).binary = a.binary ++ be_payload [w] := append_instruction_eq w _
        have e2 : (a.emit w).text_size = (a.text_size + 4) % 2 ^ 32 := rfl
        have e3 : (a.emit w).line = a.line + 1 := rfl
        simp only [second_pass_from, emitted_from, hl]
        rw [h1, h2, h3, e1, e2, e3]
        refine ⟨?_, ?_, ?_⟩
        · simp only [be_payload, List.append_assoc, List.cons_append, List.nil_append]
        · simp only [List.length_cons]
          omega
        · simp only [List.length_cons]
          push_cast
          omega

theorem second_pass_line_j_zero (i : Nat) :
    second_pass_line i ("j 0".toList) = .ok (some 0x08000000) := by
  rfl

theorem emitted_from_replicate_j_zero : ∀ (n i : Nat),
    emitted_from i (List.replicate n ("j 0".toList)) = List.replicate n 0x08000000 := by
  intro n
  induction n with
  | zero => intro i; rfl
  | succ n ih =>
    intro i
    rw [List.replicate_succ, List.replicate_succ]
    simp only [emitted_from, second_pass_line_j_zero, ih]

theorem second_pass_fresh (src : List (List Char)) :
    Assembler.second_pass { file_contents := src } =
      second_pass_from 0 src { file_contents := src } := rfl

/-- C7 (as amended): `append_instruction(w, binary)` appends exactly the four
bytes `(w >> 24) & 0xFF`, `(w >> 16) & 0xFF`, `(w >> 8) & 0xFF`, `w & 0xFF` and
changes no earlier byte; after the second pass on a fresh assembler the buffer
length is 4 times the number of emitted instructions (which is also the
counter `line`), `text_size` equals the buffer length modulo `2^32` (so it
equals the buffer length when fewer than `2^30` instructions are emitted), and
bytes `4k .. 4k+3` read big-endian give the `k`-th emitted word. -/
theorem second_pass_big_endian_payload (w : Nat) (binary : List Nat)
    (src : List (List Char)) :
    append_instruction w binary =
      binary ++ [(w >>> 24) &&& 0xFF, (w >>> 16) &&& 0xFF, (w >>> 8) &&& 0xFF, w &&& 0xFF] ∧
    (Assembler.second_pass { file_contents := src }).1.binary.length =
      4 * (emitted_from 0 src).length ∧
    (Assembler.second_pass { file_contents := src }).1.line = (emitted_from 0 src).length ∧
    (Assembler.second_pass { file_contents := src }).1.text_size =
      (Assembler.second_pass { file_contents := src }).1.binary.length % 2 ^ 32 ∧
    ((emitted_from 0 src).length < 2 ^ 30 →
      (Assembler.second_pass { file_contents := src }).1.text_size =
        (Assembler.second_pass { file_contents := src }).1.binary.length) ∧
    ∀ k, word_at (Assembler.second_pass { file_contents := src }).1.binary k =
      (emitted_from 0 src)[k]? := by
  have hff : ∀ x : Nat, x &&& 0xFF = x % 256 := fun x => Nat.and_pow_two_sub_one_eq_mod x 8
  obtain ⟨h1, h2, h3⟩ := second_pass_from_spec src 0 { file_contents := src }
    (show (0 : Nat) < 2 ^ 32 by decide)
  have hb : (Assembler.second_pass { file_contents := src }).1.binary =
      be_payload (emitted_from 0 src) := by
    rw [show (Assembler.second_pass { file_contents := src }).1.binary = _ from h1]
    rfl
  have ht : (Assembler.second_pass { file_contents := src }).1.text_size =
      (0 + 4 * (emitted_from 0 src).length) % 2 ^ 32 := h2
  have hl : (Assembler.second_pass { file_contents := src }).1.line =
      (0 : Int) + (emitted_from 0 src).length := h3
  refine ⟨?_, ?_, ?_, ?_, ?_, ?_⟩
  · simp only [append_instruction, hff]
  · rw [hb, be_payload_length]
  · rw [hl, Int.zero_add]
  · rw [ht, hb, be_payload_length, Nat.zero_add]
  · intro hlt
    rw [ht, hb, be_payload_length, Nat.zero_add]
    exact Nat.mod_eq_of_lt (by omega)
  · intro k
    rw [hb]
    exact word_at_be_payload _ (emitted_from_lt src 0) k

/-- C7 (the claim as stated fails): on the source made of `2^30` lines `j 0`
the second pass leaves a buffer of `2^32` bytes while the 32-bit counter
`text_size` has wrapped to `0`, so the buffer length does not equal
`text_size`. -/
theorem second_pass_text_size_wraps :
    (Assembler.second_pass
      { file_contents := List.replicate (2 ^ 30) ("j 0".toList) }).1.binary.length = 2 ^ 32 ∧
    (Assembler.second_pass
      { file_contents := List.replicate (2 ^ 30) ("j 0".toList) }).1.text_size = 0 ∧
    (Assembler.second_pass
      { file_contents := List.replicate (2 ^ 30) ("j 0".toList) }).1.binary.length ≠
    (Assembler.second_pass
      { file_contents := List.replicate (2 ^ 30) ("j 0".toList) }).1.text_size := by
  obtain ⟨h1, h2, _⟩ := second_pass_from_spec (List.replicate (2 ^ 30) ("j 0".toList)) 0
    { file_contents := List.replicate (2 ^ 30) ("j 0".toList) } (show (0 : Nat) < 2 ^ 32 by decide)
  rw [emitted_from_replicate_j_zero] at h1 h2
  rw [List.length_replicate] at h2
  rw [second_pass_fresh, h1, h2, List.length_append, be_payload_length, List.length_replicate]
  norm_num

/-! ### One CPU step -/

theorem step_eq (cpu : CPU) (w : Nat) (h : cpu.memory.read_word cpu.pc = .ok w) :
    cpu.step = CPU.execute { cpu with pc := (cpu.pc + 4) % 2 ^ 32 } w (get_opcode w) := by
  simp only [CPU.step, CPU.fetch, h, CPU.decode, bind, Except.bind]

theorem execute_r_type (cpu : CPU) (w : Nat) (h : get_opcode w = 0) :
    cpu.execute w (get_opcode w) = cpu.execute_r w := by
  simp [CPU.execute, h, R_TYPE]

/-- The fields of an R-type word built from in-range fields. -/
theorem create_r_instruction_fields (op rs rt rd shamt funct : Nat)
    (hop : op < 64) (hrs : rs < 32) (hrt : rt < 32) (hrd : rd < 32)
    (hshamt : shamt < 32) (hfunct : funct < 64) :
    get_opcode (create_r_instruction op rs rt rd shamt funct) = op ∧
    get_rs (create_r_instruction op rs rt rd shamt funct) = rs ∧
    get_rt (create_r_instruction op rs rt rd shamt funct) = rt ∧
    get_rd (create_r_instruction op rs rt rd shamt funct) = rd ∧
    get_funct (create_r_instruction op rs rt rd shamt funct) = funct := by
  rw [create_r_instruction_eq op rs rt rd shamt funct hop hrs hrt hrd hshamt hfunct,
    get_opcode_eq, get_rs_eq, get_rt_eq, get_rd_eq, get_funct_eq]
  refine ⟨?_, ?_, ?_, ?_, ?_⟩ <;> omega

theorem sub_mod_eq (a b : Nat) :
    (a + 2 ^ 32 - b % 2 ^ 32) % 2 ^ 32 = Int.toNat (((a : Int) - (b : Int)) % 2 ^ 32) := by
  omega

/-- C11: for every CPU state whose memory word at `pc` is
`create_r_instruction(0, rs, rt, rd, 0, f)` with `f` one of `0x20` (add),
`0x22` (sub), `0x24` (and), `0x25` (or), one step returns without a fault;
afterwards `registers[rd]` is `registers[rs] op registers[rt]` on the pre-step
values (`+` and `-` reduced modulo `2^32`, `&` and `|` of 32-bit values being
32-bit values), `pc` is `pc + 4` in 32-bit arithmetic, and every other
register, `hi`, `lo` and the memory are unchanged. -/
theorem step_r_type (cpu : CPU) (rs rt rd f : Nat)
    (hrs : rs < 32) (hrt : rt < 32) (hrd : rd < 32)
    (hf : f = 0x20 ∨ f = 0x22 ∨ f = 0x24 ∨ f = 0x25)
    (hword : cpu.memory.read_word cpu.pc = .ok (create_r_instruction 0 rs rt rd 0 f)) :
    ∃ cpu', cpu.step = .ok cpu' ∧
      (f = 0x20 → cpu'.registers rd = (cpu.registers rs + cpu.registers rt) % 2 ^ 32) ∧
      (f = 0x22 → cpu'.registers rd =
        Int.toNat (((cpu.registers rs : Int) - (cpu.registers rt : Int)) % 2 ^ 32)) ∧
      (f = 0x24 → cpu'.registers rd = cpu.registers rs &&& cpu.registers rt) ∧
      (f = 0x25 → cpu'.registers rd = cpu.registers rs ||| cpu.registers rt) ∧
      ((∀ i, cpu.registers i < 2 ^ 32) → cpu'.registers rd < 2 ^ 32) ∧
      cpu'.pc = (cpu.pc + 4) % 2 ^ 32 ∧
      (cpu.pc + 4 < 2 ^ 32 → cpu'.pc = cpu.pc + 4) ∧
      (∀ i, i ≠ rd → cpu'.registers i = cpu.registers i) ∧
      cpu'.hi = cpu.hi ∧ cpu'.lo = cpu.lo ∧ cpu'.memory = cpu.memory := by
  have hf64 : f < 64 := by omega
  obtain ⟨hop, h1, h2, h3, h4⟩ :=
    create_r_instruction_fields 0 rs rt rd 0 f (by decide) hrs hrt hrd (by decide) hf64
  rw [step_eq cpu _ hword, execute_r_type _ _ hop]
  have hpc : cpu.pc + 4 < 2 ^ 32 → (cpu.pc + 4) % 2 ^ 32 = cpu.pc + 4 := fun h =>
    Nat.mod_eq_of_lt h
  rcases hf with hf | hf | hf | hf
  · subst hf
    refine ⟨_, by simp only [CPU.execute_r, h1, h2, h3, h4]; rfl, ?_, ?_, ?_, ?_, ?_, ?_, ?_, ?_,
      ?_, ?_, ?_⟩
    · intro _; simp [CPU.set_register]
    · intro h; exact absurd h (by decide)
    · intro h; exact absurd h (by decide)
    · intro h; exact absurd h (by decide)
    · intro h; simp only [CPU.set_register, if_true]; exact Nat.mod_lt _ (by decide)
    · rfl
    · exact hpc
    · intro i hi; simp [CPU.set_register, hi]
    · rfl
    · rfl
    · rfl
  · subst hf
    refine ⟨_, by simp only [CPU.execute_r, h1, h2, h3, h4]; rfl, ?_, ?_, ?_, ?_, ?_, ?_, ?_, ?_,
      ?_, ?_, ?_⟩
    · intro h; exact absurd h (by decide)
    · intro _; simp only [CPU.set_register, if_true]; exact sub_mod_eq _ _
    · intro h; exact absurd h (by decide)
    · intro h; exact absurd h (by decide)
    · intro h; simp only [CPU.set_register, if_true]; exact Nat.mod_lt _ (by decide)
    · rfl
    · exact hpc
    · intro i hi; simp [CPU.set_register, hi]
    · rfl
    · rfl
    · rfl
  · subst hf
    refine ⟨_, by simp only [CPU.execute_r, h1, h2, h3, h4]; rfl, ?_, ?_, ?_, ?_, ?_, ?_, ?_, ?_,
      ?_, ?_, ?_⟩
    · intro h; exact absurd h (by decide)
    · intro h; exact absurd h (by decide)
    · intro _; simp [CPU.set_register]
    · intro h; exact absurd h (by decide)
    · intro h; simp only [CPU.set_register, if_true]; exact Nat.and_lt_two_pow _ (h rt)
    · rfl
    · exact hpc
    · intro i hi; simp [CPU.set_register, hi]
    · rfl
    · rfl
    · rfl
  · subst hf
    refine ⟨_, by simp only [CPU.execute_r, h1, h2, h3, h4]; rfl, ?_, ?_, ?_, ?_, ?_, ?_, ?_, ?_,
      ?_, ?_, ?_⟩
    · intro h; exact absurd h (by decide)
    · intro h; exact absurd h (by decide)
    · intro h; exact absurd h (by decide)
    · intro _; simp [CPU.set_register]
    · intro h; simp only [CPU.set_register, if_true]; exact Nat.or_lt_two_pow (h rs) (h rt)
    · rfl
    · exact hpc
    · intro i hi; simp [CPU.set_register, hi]
    · rfl
    · rfl
    · rfl

theorem step_r_type_witness :
    ∃ cpu', (with_instruction add_scenario_cpu (create_r_instruction 0 2 3 1 0 0x20)).step =
        .ok cpu' ∧ cpu'.registers 1 = 12 ∧ cpu'.pc = 0x00400004 ∧ cpu'.registers 2 = 5 ∧
      cpu'.registers 3 = 7 := by
  obtain ⟨c, hstep, hadd, _, _, _, _, hpc, _, hothers, _⟩ :=
    step_r_type (with_instruction add_scenario_cpu (create_r_instruction 0 2 3 1 0 0x20))
      2 3 1 0x20 (by decide) (by decide) (by decide) (by decide) (by decide)
  exact ⟨c, hstep, (hadd rfl).trans (by decide), hpc.trans (by decide),
    (hothers 2 (by decide)).trans (by decide), (hothers 3 (by decide)).trans (by decide)⟩

theorem execute_default (c : CPU) (w : Nat) (h0 : get_opcode w ≠ 0) (hc : get_opcode w ≠ 0x0C) :
    c.execute w (get_opcode w) = (c.execute_i w >>= fun c' => c'.execute_j w) := by
  simp [CPU.execute, R_TYPE, SYSCALL, h0, hc]

theorem execute_j_fault (c : CPU) (w : Nat) (h2 : get_opcode w ≠ 0x02)
    (h3 : get_opcode w ≠ 0x03) :
    c.execute_j w = .error (.fault (.runtime_error "Invalid opcode for J-type instruction"), c) := by
  unfold CPU.execute_j
  simp only []

theorem execute_i_fault_of_j (c : CPU) (w : Nat)
    (h : get_opcode w = 0x02 ∨ get_opcode w = 0x03) :
    c.execute_i w = .error (.fault (.runtime_error "Invalid opcode for I-type instruction"), c) := by
  unfold CPU.execute_i
  rcases h with h | h <;> simp only [h]

/-- An exception is the only way `execute_i` stops without returning. -/
theorem execute_i_error (c c' : CPU) (w : Nat) (s : Stop) (h : c.execute_i w = .error (s, c')) :
    ∃ e, s = .fault e := by
  unfold CPU.execute_i at h
  simp only [] at h
  split at h
  all_goals first
    | (split at h <;> first | (cases h; exact ⟨_, rfl⟩) | cases h)
    | (cases h; exact ⟨_, rfl⟩)
    | cases h

/-- In the `default` branch of `execute`, when `execute_i` returns, the step
ends in the exception of `execute_j`, in the state `execute_i` produced. -/
theorem step_of_execute_i_ok (cpu c' : CPU) (w : Nat)
    (hword : cpu.memory.read_word cpu.pc = .ok w)
    (h0 : get_opcode w ≠ 0) (hc : get_opcode w ≠ 0x0C)
    (hi : CPU.execute_i { cpu with pc := (cpu.pc + 4) % 2 ^ 32 } w = .ok c') :
    cpu.step =
      .error (.fault (.runtime_error "Invalid opcode for J-type instruction"), c') := by
  have hj : get_opcode w ≠ 0x02 ∧ get_opcode w ≠ 0x03 := by
    constructor
    · intro h
      rw [execute_i_fault_of_j _ w (Or.inl h)] at hi
      cases hi
    · intro h
      rw [execute_i_fault_of_j _ w (Or.inr h)] at hi
      cases hi
  rw [step_eq cpu w hword, execute_default _ w h0 hc, hi]
  exact execute_j_fault c' w hj.1 hj.2

/-- C12: for every instruction word whose opcode is neither `0x00` nor `0x0C`,
one CPU step ends with an exception, whatever the opcode: a J-type opcode
(`0x02`, `0x03`) is rejected by `execute_i`, which runs first ("Invalid opcode
for I-type instruction"), and when `execute_i` returns, `execute_j` runs on the
same word and rejects it; the claim has the step complete without a fault for
the implemented I-type and J-type opcodes. -/
theorem step_default_branch_faults (cpu : CPU) (w : Nat)
    (hword : cpu.memory.read_word cpu.pc = .ok w)
    (h0 : get_opcode w ≠ 0x00) (hc : get_opcode w ≠ 0x0C) :
    (∃ e cpu', cpu.step = .error (.fault e, cpu')) ∧
    (get_opcode w = 0x02 ∨ get_opcode w = 0x03 →
      fault_of cpu.step = some "Invalid opcode for I-type instruction") ∧
    (∀ c', CPU.execute_i { cpu with pc := (cpu.pc + 4) % 2 ^ 32 } w = .ok c' →
      fault_of cpu.step = some "Invalid opcode for J-type instruction") := by
  refine ⟨?_, ?_, ?_⟩
  · cases hi : CPU.execute_i { cpu with pc := (cpu.pc + 4) % 2 ^ 32 } w with
    | error p =>
      obtain ⟨s, c'⟩ := p
      obtain ⟨e, rfl⟩ := execute_i_error _ _ _ _ hi
      refine ⟨e, c', ?_⟩
      rw [step_eq cpu w hword, execute_default _ w h0 hc, hi]
      rfl
    | ok c' => exact ⟨_, c', step_of_execute_i_ok cpu c' w hword h0 hc hi⟩
  · intro h
    rw [step_eq cpu w hword, execute_default _ w h0 hc, execute_i_fault_of_j _ w h]
    rfl
  · intro c' hi
    rw [step_of_execute_i_ok cpu c' w hword h0 hc hi]
    rfl

theorem step_default_branch_faults_witness :
    fault_of (with_instruction (scenario_cpu []) (create_i_instruction 0x0F 0 9 5)).step =
      some "Invalid opcode for J-type instruction" ∧
    (state_after (with_instruction (scenario_cpu [])
      (create_i_instruction 0x0F 0 9 5)).step).registers 9 = 0x00050000 :=
  ⟨(step_default_branch_faults (with_instruction (scenario_cpu [])
      (create_i_instruction 0x0F 0 9 5)) (create_i_instruction 0x0F 0 9 5)
      (by decide) (by decide) (by decide)).2.2 _ (by rfl), by decide⟩

/-- The fields of a J-type word built from in-range fields. -/
theorem create_j_instruction_fields (op target : Nat) (hop : op < 64) (ht : target < 2 ^ 26) :
    get_opcode (create_j_instruction op target) = op ∧
    get_address (create_j_instruction op target) = target := by
  rw [create_j_instruction_eq op target hop ht, get_opcode_eq, get_address_eq]
  constructor <;> omega

/-- C13: for every state whose word at `pc` is `create_j_instruction(0x02, t)`
or `create_j_instruction(0x03, t)` with `t < 2^26`, one step ends with the
exception "Invalid opcode for I-type instruction" thrown by `execute_i`, before
`execute_j` runs: `pc` is only advanced by the fetch (`pc + 4` in 32-bit
arithmetic, not `t`) and no register changes, `registers[31]` included; the
claim has `pc = t` and, for `0x03`, `registers[31] = old pc + 4`. -/
theorem step_jump_faults (cpu : CPU) (op t : Nat) (hop : op = 0x02 ∨ op = 0x03)
    (ht : t < 2 ^ 26)
    (hword : cpu.memory.read_word cpu.pc = .ok (create_j_instruction op t)) :
    cpu.step = .error (.fault (.runtime_error "Invalid opcode for I-type instruction"),
      { cpu with pc := (cpu.pc + 4) % 2 ^ 32 }) ∧
    (state_after cpu.step).pc = (cpu.pc + 4) % 2 ^ 32 ∧
    (state_after cpu.step).registers = cpu.registers := by
  have hop64 : op < 64 := by omega
  obtain ⟨h1, _⟩ := create_j_instruction_fields op t hop64 ht
  have h0 : get_opcode (create_j_instruction op t) ≠ 0 := by rw [h1]; omega
  have hc : get_opcode (create_j_instruction op t) ≠ 0x0C := by rw [h1]; omega
  have hj : get_opcode (create_j_instruction op t) = 0x02 ∨
      get_opcode (create_j_instruction op t) = 0x03 := by rw [h1]; exact hop
  have hstep : cpu.step = .error (.fault (.runtime_error "Invalid opcode for I-type instruction"),
      { cpu with pc := (cpu.pc + 4) % 2 ^ 32 }) := by
    rw [step_eq cpu _ hword, execute_default _ _ h0 hc, execute_i_fault_of_j _ _ hj]
    rfl
  refine ⟨hstep, ?_, ?_⟩ <;> rw [hstep] <;> rfl

theorem step_jump_faults_witness :
    fault_of (with_instruction (scenario_cpu []) (create_j_instruction 0x03 0x1000)).step =
      some "Invalid opcode for I-type instruction" ∧
    (state_after (with_instruction (scenario_cpu [])
      (create_j_instruction 0x03 0x1000)).step).pc = 0x00400004 ∧
    (state_after (with_instruction (scenario_cpu [])
      (create_j_instruction 0x03 0x1000)).step).registers 31 = 0 := by
  obtain ⟨h1, h2, h3⟩ := step_jump_faults (with_instruction (scenario_cpu [])
    (create_j_instruction 0x03 0x1000)) 0x03 0x1000 (by decide) (by decide) (by decide)
  refine ⟨?_, h2.trans (by decide), ?_⟩
  · rw [h1]; rfl
  · rw [h3]; rfl

/-- The state a step leaves when `execute_i` returns: the one it produced. -/
theorem state_after_step_i (cpu c' : CPU) (w : Nat)
    (hword : cpu.memory.read_word cpu.pc = .ok w)
    (h0 : get_opcode w ≠ 0) (hc : get_opcode w ≠ 0x0C)
    (hi : CPU.execute_i { cpu with pc := (cpu.pc + 4) % 2 ^ 32 } w = .ok c') :
    state_after cpu.step = c' := by
  rw [step_of_execute_i_ok cpu c' w hword h0 hc hi]
  rfl

theorem add_shift_two_mod (pc imm : Nat) :
    ((pc + 4) % 2 ^ 32 + (imm <<< 2)) % 2 ^ 32 = (pc + 4 + 4 * imm) % 2 ^ 32 := by
  rw [Nat.shiftLeft_eq]
  omega

set_option maxRecDepth 8000

/-- C14 (as amended): for every state whose word at `pc0` is a beq (opcode
`0x04`) or a bne (opcode `0x05`) with 16-bit immediate `imm`, in the state that
one step leaves `pc = (pc0 + 4 + (zero_extend(imm) << 2)) mod 2^32` when the
branch condition holds (`registers[rs] == registers[rt]` for beq, `!=` for bne)
and `pc = (pc0 + 4) mod 2^32` otherwise; no register changes. -/
theorem step_beq_bne (cpu : CPU) (w : Nat)
    (hword : cpu.memory.read_word cpu.pc = .ok w)
    (hop : get_opcode w = 0x04 ∨ get_opcode w = 0x05) :
    (get_opcode w = 0x04 →
      (state_after cpu.step).pc =
        if cpu.registers (get_rs w) = cpu.registers (get_rt w)
        then (cpu.pc + 4 + 4 * get_immediate w) % 2 ^ 32 else (cpu.pc + 4) % 2 ^ 32) ∧
    (get_opcode w = 0x05 →
      (state_after cpu.step).pc =
        if cpu.registers (get_rs w) ≠ cpu.registers (get_rt w)
        then (cpu.pc + 4 + 4 * get_immediate w) % 2 ^ 32 else (cpu.pc + 4) % 2 ^ 32) ∧
    (state_after cpu.step).registers = cpu.registers ∧
    get_immediate w < 2 ^ 16 := by
  have h0 : get_opcode w ≠ 0 := by omega
  have hc : get_opcode w ≠ 0x0C := by omega
  have himm : get_immediate w < 2 ^ 16 := by rw [get_immediate_eq]; omega
  rcases hop with hop | hop
  · by_cases heq : cpu.registers (get_rs w) = cpu.registers (get_rt w)
    · have hi : CPU.execute_i { cpu with pc := (cpu.pc + 4) % 2 ^ 32 } w =
          .ok { cpu with pc := ((cpu.pc + 4) % 2 ^ 32 + (get_immediate w <<< 2)) % 2 ^ 32 } := by
        simp only [CPU.execute_i, hop, heq, if_true]
      rw [state_after_step_i cpu _ w hword h0 hc hi]
      refine ⟨fun _ => ?_, fun h => by omega, rfl, himm⟩
      simp only [heq, if_true]
      exact add_shift_two_mod _ _
    · have hi : CPU.execute_i { cpu with pc := (cpu.pc + 4) % 2 ^ 32 } w =
          .ok { cpu with pc := (cpu.pc + 4) % 2 ^ 32 } := by
        simp only [CPU.execute_i, hop, heq, if_false]
      rw [state_after_step_i cpu _ w hword h0 hc hi]
      refine ⟨fun _ => ?_, fun h => by omega, rfl, himm⟩
      simp only [heq, if_false]
  · by_cases heq : cpu.registers (get_rs w) = cpu.registers (get_rt w)
    · have hi : CPU.execute_i { cpu with pc := (cpu.pc + 4) % 2 ^ 32 } w =
          .ok { cpu with pc := (cpu.pc + 4) % 2 ^ 32 } := by
        simp only [CPU.execute_i, hop, heq, ne_eq, not_true_eq_false, if_false]
      rw [state_after_step_i cpu _ w hword h0 hc hi]
      refine ⟨fun h => by omega, fun _ => ?_, rfl, himm⟩
      simp only [heq, ne_eq, not_true_eq_false, if_false]
    · have hi : CPU.execute_i { cpu with pc := (cpu.pc + 4) % 2 ^ 32 } w =
          .ok { cpu with pc := ((cpu.pc + 4) % 2 ^ 32 + (get_immediate w <<< 2)) % 2 ^ 32 } := by
        simp only [CPU.execute_i, hop, heq, ne_eq, not_false_eq_true, if_true]
      rw [state_after_step_i cpu _ w hword h0 hc hi]
      refine ⟨fun h => by omega, fun _ => ?_, rfl, himm⟩
      simp only [heq, ne_eq, not_false_eq_true, if_true]
      exact add_shift_two_mod _ _

theorem step_beq_bne_witness :
    (state_after (with_instruction (scenario_cpu [(8, 7), (9, 7)])
      (create_i_instruction 0x04 8 9 2)).step).pc = 0x0040000C := by
  have h := (step_beq_bne (with_instruction (scenario_cpu [(8, 7), (9, 7)])
    (create_i_instruction 0x04 8 9 2)) (create_i_instruction 0x04 8 9 2)
    (by decide) (by decide)).1 (by decide)
  exact h.trans (by decide)

/-- C14 (the claim as stated fails): a taken beq with `imm = 0xFFFF` at
`pc0 = 0x00400000` leaves `pc = 0x00440000 = pc0 + 4 + (0xFFFF << 2)`, not
`pc0`: the immediate is zero-extended, not sign-extended. -/
theorem step_beq_negative_offset :
    get_opcode (create_i_instruction 0x04 8 9 0xFFFF) = 0x04 ∧
    get_immediate (create_i_instruction 0x04 8 9 0xFFFF) = 0xFFFF ∧
    (with_instruction (scenario_cpu [(8, 7), (9, 7)])
      (create_i_instruction 0x04 8 9 0xFFFF)).pc = 0x00400000 ∧
    (state_after (with_instruction (scenario_cpu [(8, 7), (9, 7)])
      (create_i_instruction 0x04 8 9 0xFFFF)).step).pc = 0x00440000 := by
  refine ⟨by decide, by decide, by decide, by decide⟩

theorem read_word_ok (m : Memory) (a : Nat) (ha : a < 2 ^ 32) : ∃ v, m.read_word a = .ok v := by
  have c0 : check_address a = true := check_address_eq_true a ha
  have c3 : check_address ((a + 3) % 2 ^ 32) = true :=
    check_address_eq_true _ (Nat.mod_lt _ (by decide))
  exact ⟨_, by simp only [Memory.read_word, c0, c3]; rfl⟩

/-- C15 (as amended): for every state whose word at `pc` is an lw (opcode
`0x23`) with fields `rs`, `rt` and 16-bit immediate `imm`, in the state that
one step leaves `registers[rt]` equals the big-endian memory word at address
`(registers[rs] + zero_extend(imm)) mod 2^32` (registers and memory as before
the step). -/
theorem step_lw (cpu : CPU) (w : Nat)
    (hword : cpu.memory.read_word cpu.pc = .ok w) (hop : get_opcode w = 0x23) :
    ∃ v, cpu.memory.read_word ((cpu.registers (get_rs w) + get_immediate w) % 2 ^ 32) = .ok v ∧
      (state_after cpu.step).registers (get_rt w) = v ∧ get_immediate w < 2 ^ 16 := by
  have h0 : get_opcode w ≠ 0 := by omega
  have hc : get_opcode w ≠ 0x0C := by omega
  have himm : get_immediate w < 2 ^ 16 := by rw [get_immediate_eq]; omega
  obtain ⟨v, hv⟩ := read_word_ok cpu.memory
    ((cpu.registers (get_rs w) + get_immediate w) % 2 ^ 32) (Nat.mod_lt _ (by decide))
  have hi : CPU.execute_i { cpu with pc := (cpu.pc + 4) % 2 ^ 32 } w =
      .ok (CPU.set_register { cpu with pc := (cpu.pc + 4) % 2 ^ 32 } (get_rt w) v) := by
    simp only [CPU.execute_i, hop, hv]
  refine ⟨v, hv, ?_, himm⟩
  rw [state_after_step_i cpu _ w hword h0 hc hi]
  simp [CPU.set_register]

theorem step_lw_witness :
    (state_after (with_instruction
      { scenario_cpu [(8, 0x10)] with
        memory := Memory.zero_memory.store_bytes 0x14 ([0xCA, 0xFE, 0xBA, 0xBE]) }
      (create_i_instruction 0x23 8 9 4)).step).registers 9 = 0xCAFEBABE := by
  obtain ⟨v, hv, h, _⟩ := step_lw (with_instruction
      { scenario_cpu [(8, 0x10)] with
        memory := Memory.zero_memory.store_bytes 0x14 ([0xCA, 0xFE, 0xBA, 0xBE]) }
      (create_i_instruction 0x23 8 9 4)) (create_i_instruction 0x23 8 9 4)
      (by decide) (by decide)
  have hv' : v = 0xCAFEBABE := by
    have : (Except.ok v : Except Fault Nat) = .ok 0xCAFEBABE := hv.symm.trans (by decide)
    cases this
    rfl
  rw [← hv']
  exact h

/-- C15 (the claim as stated fails): with `registers[8] = 0x10` and the lw
`rs = 8, rt = 9, imm = 0xFFFF`, the word at the sign-extended address
`(0x10 + 0xFFFFFFFF) mod 2^32 = 0xF` is `0xAABBCCDD`, but the step loads the
word at `0x10 + 0xFFFF = 0x1000F`, which is `0`. -/
theorem step_lw_negative_offset :
    (0x10 + sign_extend 0xFFFF) % 2 ^ 32 = 0xF ∧
    (with_instruction
      { scenario_cpu [(8, 0x10)] with
        memory := Memory.zero_memory.store_bytes 0xF ([0xAA, 0xBB, 0xCC, 0xDD]) }
      (create_i_instruction 0x23 8 9 0xFFFF)).memory.read_word 0xF = .ok 0xAABBCCDD ∧
    (state_after (with_instruction
      { scenario_cpu [(8, 0x10)] with
        memory := Memory.zero_memory.store_bytes 0xF ([0xAA, 0xBB, 0xCC, 0xDD]) }
      (create_i_instruction 0x23 8 9 0xFFFF)).step).registers 9 = 0 := by
  refine ⟨by decide, by decide, by decide⟩

/-- C16: in the store/load scenario (`registers[8] = 0x00400100` the base,
`registers[9] = 0xCAFEBABE` the value, `sw` with `rs = 8`, `rt = 9`, `imm = 0`)
the step calls `write_word(registers[rs] + imm, registers[rt])`, whose first
parameter is the value and second the address: afterwards the word at
`registers[rs] + imm = 0x00400100` is still `0`, the word at
`registers[rt] = 0xCAFEBABE` is `0x00400100`, and the following `lw` from the
same base and immediate loads `0`, where the claim has `0xCAFEBABE`. -/
theorem step_sw_swaps_value_and_address :
    get_opcode (create_i_instruction 0x2B 8 9 0) = 0x2B ∧
    get_rs (create_i_instruction 0x2B 8 9 0) = 8 ∧
    get_rt (create_i_instruction 0x2B 8 9 0) = 9 ∧
    store_load_scenario_cpu.memory.read_word store_load_scenario_cpu.pc =
      .ok (create_i_instruction 0x2B 8 9 0) ∧
    (state_after store_load_scenario_cpu.step).memory.read_word 0x00400100 = .ok 0 ∧
    (state_after store_load_scenario_cpu.step).memory.read_word 0xCAFEBABE = .ok 0x00400100 ∧
    (state_after store_load_scenario_cpu.step).memory.read_word
      (state_after store_load_scenario_cpu.step).pc = .ok (create_i_instruction 0x23 8 10 0) ∧
    (state_after (state_after store_load_scenario_cpu.step).step).registers 10 = 0 := by
  refine ⟨by decide, by decide, by decide, by decide, by decide, by decide, by decide,
    by decide⟩

theorem execute_syscall_opcode (c : CPU) (w : Nat) (h : get_opcode w = 0x0C) :
    c.execute w (get_opcode w) = c.execute_syscall := by
  simp [CPU.execute, h, R_TYPE, SYSCALL]

/-- C17: for every state whose word at `pc` has opcode `0x0C`, one step runs
`execute_syscall`, never the `andi` case of `execute_i`: what happens depends
on `registers[2]`, and when the low byte of `registers[2]` is `0` the step ends
with the exception "Invalid syscall code" and no register is written; the
claim has `registers[rt] = registers[rs] & imm` whatever `registers[2]` is. -/
theorem step_opcode_0c_runs_syscall (cpu : CPU) (w : Nat)
    (hword : cpu.memory.read_word cpu.pc = .ok w) (hop : get_opcode w = 0x0C) :
    cpu.step = CPU.execute_syscall { cpu with pc := (cpu.pc + 4) % 2 ^ 32 } ∧
    (cpu.registers 2 % 256 = 0 →
      fault_of cpu.step = some "Invalid syscall code" ∧
      (state_after cpu.step).registers = cpu.registers) := by
  have hstep : cpu.step = CPU.execute_syscall { cpu with pc := (cpu.pc + 4) % 2 ^ 32 } := by
    rw [step_eq cpu w hword, execute_syscall_opcode _ w hop]
  refine ⟨hstep, fun h2 => ?_⟩
  have hsys : CPU.execute_syscall { cpu with pc := (cpu.pc + 4) % 2 ^ 32 } =
      .error (.fault (.runtime_error "Invalid syscall code"),
        { cpu with pc := (cpu.pc + 4) % 2 ^ 32 }) := by
    simp only [CPU.execute_syscall, CPU.get_syscall_code, h2]
  rw [hstep, hsys]
  exact ⟨rfl, rfl⟩

theorem step_opcode_0c_runs_syscall_witness :
    get_rs (create_i_instruction 0x0C 8 9 0xFF) = 8 ∧
    get_rt (create_i_instruction 0x0C 8 9 0xFF) = 9 ∧
    get_immediate (create_i_instruction 0x0C 8 9 0xFF) = 0xFF ∧
    (0x1234 &&& 0xFF : Nat) = 0x34 ∧
    fault_of (with_instruction (scenario_cpu [(8, 0x1234)])
      (create_i_instruction 0x0C 8 9 0xFF)).step = some "Invalid syscall code" ∧
    (state_after (with_instruction (scenario_cpu [(8, 0x1234)])
      (create_i_instruction 0x0C 8 9 0xFF)).step).registers 9 = 0 := by
  obtain ⟨hf, hr⟩ := (step_opcode_0c_runs_syscall (with_instruction (scenario_cpu [(8, 0x1234)])
    (create_i_instruction 0x0C 8 9 0xFF)) (create_i_instruction 0x0C 8 9 0xFF)
    (by decide) (by decide)).2 (by decide)
  refine ⟨by decide, by decide, by decide, by decide, hf, ?_⟩
  rw [hr]
  rfl

/-- C18 (as amended): for every state whose word at `pc` has opcode `0x0E`
with fields `rs`, `rt`, `imm`, in the state that one step leaves
`registers[rt]` is the 32-bit complement of `registers[rs] | zero_extend(imm)`
(the "nori" of the source), every other register being unchanged. -/
theorem step_nori (cpu : CPU) (w : Nat)
    (hword : cpu.memory.read_word cpu.pc = .ok w) (hop : get_opcode w = 0x0E) :
    (state_after cpu.step).registers (get_rt w) =
      2 ^ 32 - 1 - (cpu.registers (get_rs w) ||| get_immediate w) % 2 ^ 32 ∧
    (∀ i, i ≠ get_rt w → (state_after cpu.step).registers i = cpu.registers i) ∧
    get_immediate w < 2 ^ 16 := by
  have h0 : get_opcode w ≠ 0 := by omega
  have hc : get_opcode w ≠ 0x0C := by omega
  have himm : get_immediate w < 2 ^ 16 := by rw [get_immediate_eq]; omega
  have hi : CPU.execute_i { cpu with pc := (cpu.pc + 4) % 2 ^ 32 } w =
      .ok (CPU.set_register { cpu with pc := (cpu.pc + 4) % 2 ^ 32 } (get_rt w)
        (2 ^ 32 - 1 - (cpu.registers (get_rs w) ||| get_immediate w) % 2 ^ 32)) := by
    simp only [CPU.execute_i, hop]
  rw [state_after_step_i cpu _ w hword h0 hc hi]
  refine ⟨by simp [CPU.set_register], fun i hi => by simp [CPU.set_register, hi], himm⟩

theorem step_nori_witness :
    (state_after (with_instruction (scenario_cpu [(8, 0x0F)])
      (create_i_instruction 0x0E 8 9 0x3C)).step).registers 9 = 0xFFFFFFC0 :=
  (step_nori (with_instruction (scenario_cpu [(8, 0x0F)])
    (create_i_instruction 0x0E 8 9 0x3C)) (create_i_instruction 0x0E 8 9 0x3C)
    (by decide) (by decide)).1.trans (by decide)

/-- C18 (the claim as stated fails): with `registers[8] = 0x0F` and the word
of opcode `0x0E`, `rs = 8`, `rt = 9`, `imm = 0x3C`, the step leaves
`registers[9] = 0xFFFFFFC0`, while `0x0F XOR 0x3C = 0x33`. -/
theorem step_opcode_0e_is_not_xor :
    get_opcode (create_i_instruction 0x0E 8 9 0x3C) = 0x0E ∧
    get_immediate (create_i_instruction 0x0E 8 9 0x3C) = 0x3C ∧
    (with_instruction (scenario_cpu [(8, 0x0F)])
      (create_i_instruction 0x0E 8 9 0x3C)).registers 8 = 0x0F ∧
    (0x0F ^^^ 0x3C : Nat) = 0x33 ∧
    (state_after (with_instruction (scenario_cpu [(8, 0x0F)])
      (create_i_instruction 0x0E 8 9 0x3C)).step).registers 9 = 0xFFFFFFC0 := by
  refine ⟨by decide, by decide, by decide, by decide, by decide⟩

/-- C19 (as amended): for every state whose word at `pc` has opcode `0x0A`
with fields `rs`, `rt`, `imm`, in the state that one step leaves
`registers[rt]` is `1` if `registers[rs]`, read as an unsigned 32-bit integer,
is less than `zero_extend(imm)`, and `0` otherwise. -/
theorem step_slti (cpu : CPU) (w : Nat)
    (hword : cpu.memory.read_word cpu.pc = .ok w) (hop : get_opcode w = 0x0A) :
    (state_after cpu.step).registers (get_rt w) =
      (if cpu.registers (get_rs w) < get_immediate w then 1 else 0) ∧
    get_immediate w < 2 ^ 16 := by
  have h0 : get_opcode w ≠ 0 := by omega
  have hc : get_opcode w ≠ 0x0C := by omega
  have himm : get_immediate w < 2 ^ 16 := by rw [get_immediate_eq]; omega
  have hi : CPU.execute_i { cpu with pc := (cpu.pc + 4) % 2 ^ 32 } w =
      .ok (CPU.set_register { cpu with pc := (cpu.pc + 4) % 2 ^ 32 } (get_rt w)
        (if cpu.registers (get_rs w) < get_immediate w then 1 else 0)) := by
    simp only [CPU.execute_i, hop]
  rw [state_after_step_i cpu _ w hword h0 hc hi]
  exact ⟨by simp [CPU.set_register], himm⟩

theorem step_slti_witness :
    (state_after (with_instruction (scenario_cpu [(8, 3)])
      (create_i_instruction 0x0A 8 9 5)).step).registers 9 = 1 :=
  (step_slti (with_instruction (scenario_cpu [(8, 3)])
    (create_i_instruction 0x0A 8 9 5)) (create_i_instruction 0x0A 8 9 5)
    (by decide) (by decide)).1.trans (by decide)

/-- C19 (the claim as stated fails): with `registers[8] = 0xFFFFFFFF` (`-1`
as a signed integer) and `imm = 1` the step leaves `registers[9] = 0`, not `1`;
with `registers[8] = 0` and `imm = 0xFFFF` (`-1` as a signed 16-bit integer) it
leaves `registers[9] = 1`, not `0`. -/
theorem step_slti_compares_unsigned :
    signed32 0xFFFFFFFF < signed16 1 ∧
    (state_after (with_instruction (scenario_cpu [(8, 0xFFFFFFFF)])
      (create_i_instruction 0x0A 8 9 1)).step).registers 9 = 0 ∧
    ¬ signed32 0 < signed16 0xFFFF ∧
    (state_after (with_instruction (scenario_cpu [(8, 0)])
      (create_i_instruction 0x0A 8 9 0xFFFF)).step).registers 9 = 1 := by
  refine ⟨by decide, by decide, by decide, by decide⟩

/-- C20 (as amended): for every state whose word at `pc` has opcode `0x07`,
the branch is taken if and only if `registers[rs]` is not `0` (it is compared
as an unsigned integer): in the state that one step leaves
`pc = (pc + 4 + (zero_extend(imm) << 2)) mod 2^32` when `registers[rs] > 0` and
`pc = (pc + 4) mod 2^32` otherwise; no register changes. -/
theorem step_bgtz (cpu : CPU) (w : Nat)
    (hword : cpu.memory.read_word cpu.pc = .ok w) (hop : get_opcode w = 0x07) :
    (state_after cpu.step).pc =
      (if cpu.registers (get_rs w) > 0 then (cpu.pc + 4 + 4 * get_immediate w) % 2 ^ 32
       else (cpu.pc + 4) % 2 ^ 32) ∧
    (state_after cpu.step).registers = cpu.registers ∧
    get_immediate w < 2 ^ 16 := by
  have h0 : get_opcode w ≠ 0 := by omega
  have hc : get_opcode w ≠ 0x0C := by omega
  have himm : get_immediate w < 2 ^ 16 := by rw [get_immediate_eq]; omega
  by_cases hgt : cpu.registers (get_rs w) > 0
  · have hi : CPU.execute_i { cpu with pc := (cpu.pc + 4) % 2 ^ 32 } w =
        .ok { cpu with pc := ((cpu.pc + 4) % 2 ^ 32 + (get_immediate w <<< 2)) % 2 ^ 32 } := by
      simp only [CPU.execute_i, hop, hgt, if_true]
    rw [state_after_step_i cpu _ w hword h0 hc hi]
    refine ⟨?_, rfl, himm⟩
    simp only [hgt, if_true]
    exact add_shift_two_mod _ _
  · have hi : CPU.execute_i { cpu with pc := (cpu.pc + 4) % 2 ^ 32 } w =
        .ok { cpu with pc := (cpu.pc + 4) % 2 ^ 32 } := by
      simp only [CPU.execute_i, hop, hgt, if_false]
    rw [state_after_step_i cpu _ w hword h0 hc hi]
    refine ⟨?_, rfl, himm⟩
    simp only [hgt, if_false]

theorem step_bgtz_witness :
    (state_after (with_instruction (scenario_cpu [(8, 1)])
      (create_i_instruction 0x07 8 0 2)).step).pc = 0x0040000C :=
  (step_bgtz (with_instruction (scenario_cpu [(8, 1)])
    (create_i_instruction 0x07 8 0 2)) (create_i_instruction 0x07 8 0 2)
    (by decide) (by decide)).1.trans (by decide)

/-- C20 (the claim as stated fails): with `registers[8] = 0x80000000`, which
is negative as a signed 32-bit integer, the bgtz with `imm = 2` at
`pc = 0x00400000` is taken: the step leaves `pc = 0x0040000C`, not
`0x00400004`. -/
theorem step_bgtz_compares_unsigned :
    ¬ signed32 0x80000000 > 0 ∧
    get_opcode (create_i_instruction 0x07 8 0 2) = 0x07 ∧
    (with_instruction (scenario_cpu [(8, 0x80000000)])
      (create_i_instruction 0x07 8 0 2)).pc = 0x00400000 ∧
    (state_after (with_instruction (scenario_cpu [(8, 0x80000000)])
      (create_i_instruction 0x07 8 0 2)).step).pc = 0x0040000C := by
  refine ⟨by decide, by decide, by decide, by decide⟩

/-! ### Register 0 and the syscalls -/

theorem execute_r_register_zero (c : CPU) (w : Nat) (hrd : get_rd w ≠ 0) :
    (state_after (c.execute_r w)).registers 0 = c.registers 0 := by
  have h : (0 : Nat) ≠ get_rd w := fun h => hrd h.symm
  unfold CPU.execute_r
  simp only []
  split <;> simp [state_after, CPU.set_register, h]

theorem execute_syscall_register_zero (c : CPU) :
    (state_after c.execute_syscall).registers 0 = c.registers 0 := by
  unfold CPU.execute_syscall
  simp only []
  split
  · rfl
  · split <;> rfl
  · split
    · rfl
    · split <;> simp [state_after, CPU.set_register]
  · rfl
  · rfl
  · rfl
  · rfl
  · rfl

theorem execute_i_register_zero (c : CPU) (w : Nat)
    (hrt : get_opcode w = 0x23 ∨ get_opcode w = 0x0F ∨ get_opcode w = 0x0C ∨
      get_opcode w = 0x0D ∨ get_opcode w = 0x0E ∨ get_opcode w = 0x0A → get_rt w ≠ 0) :
    (state_after (c.execute_i w)).registers 0 = c.registers 0 := by
  unfold CPU.execute_i
  simp only []
  split
  · next h =>
    have h' : (0 : Nat) ≠ get_rt w := fun e => hrt (by omega) e.symm
    split <;> simp [state_after, CPU.set_register, h']
  · split <;> rfl
  · next h =>
    have h' : (0 : Nat) ≠ get_rt w := fun e => hrt (by omega) e.symm
    simp [state_after, CPU.set_register, h']
  · next h =>
    have h' : (0 : Nat) ≠ get_rt w := fun e => hrt (by omega) e.symm
    simp [state_after, CPU.set_register, h']
  · next h =>
    have h' : (0 : Nat) ≠ get_rt w := fun e => hrt (by omega) e.symm
    simp [state_after, CPU.set_register, h']
  · next h =>
    have h' : (0 : Nat) ≠ get_rt w := fun e => hrt (by omega) e.symm
    simp [state_after, CPU.set_register, h']
  · next h =>
    have h' : (0 : Nat) ≠ get_rt w := fun e => hrt (by omega) e.symm
    simp [state_after, CPU.set_register, h']
  · split <;> rfl
  · split <;> rfl
  · split <;> rfl
  · rfl

/-- C21 (as amended): a CPU step leaves `registers[0]` as it was (so a
`registers[0] == 0` stays `0`) whenever the instruction does not name register
0 as its destination: `rd != 0` for an R-type word (opcode `0x00`), `rt != 0`
for the I-type words that write `rt` (lw `0x23`, lui `0x0F`, ori `0x0D`,
opcode `0x0E`, slti `0x0A`); every other instruction never writes register 0. -/
theorem step_preserves_register_zero (cpu : CPU) (w : Nat)
    (hword : cpu.memory.read_word cpu.pc = .ok w)
    (hrd : get_opcode w = 0x00 → get_rd w ≠ 0)
    (hrt : get_opcode w = 0x23 ∨ get_opcode w = 0x0F ∨ get_opcode w = 0x0D ∨
      get_opcode w = 0x0E ∨ get_opcode w = 0x0A → get_rt w ≠ 0) :
    (state_after cpu.step).registers 0 = cpu.registers 0 ∧
    (cpu.registers 0 = 0 → (state_after cpu.step).registers 0 = 0) := by
  have key : (state_after cpu.step).registers 0 = cpu.registers 0 := by
    by_cases h0 : get_opcode w = 0
    · rw [step_eq cpu w hword, execute_r_type _ w h0]
      exact execute_r_register_zero _ w (hrd h0)
    · by_cases hc : get_opcode w = 0x0C
      · rw [step_eq cpu w hword, execute_syscall_opcode _ w hc]
        exact execute_syscall_register_zero _
      · have hi0 := execute_i_register_zero { cpu with pc := (cpu.pc + 4) % 2 ^ 32 } w
          (by
            intro h
            rcases h with h | h | h | h | h | h
            · exact hrt (Or.inl h)
            · exact hrt (Or.inr (Or.inl h))
            · exact absurd h hc
            · exact hrt (Or.inr (Or.inr (Or.inl h)))
            · exact hrt (Or.inr (Or.inr (Or.inr (Or.inl h))))
            · exact hrt (Or.inr (Or.inr (Or.inr (Or.inr h)))))
        cases hi : CPU.execute_i { cpu with pc := (cpu.pc + 4) % 2 ^ 32 } w with
        | error p =>
          rw [hi] at hi0
          rw [step_eq cpu w hword, execute_default _ w h0 hc, hi]
          exact hi0
        | ok c' =>
          rw [hi] at hi0
          rw [state_after_step_i cpu c' w hword h0 hc hi]
          exact hi0
  exact ⟨key, fun h => key.trans h⟩

theorem step_preserves_register_zero_witness :
    (state_after (with_instruction (scenario_cpu [(2, 5), (3, 7)])
      (create_r_instruction 0 2 3 1 0 0x20)).step).registers 0 = 0 ∧
    (state_after (with_instruction (scenario_cpu [(2, 5), (3, 7)])
      (create_r_instruction 0 2 3 1 0 0x20)).step).registers 1 = 12 :=
  ⟨(step_preserves_register_zero (with_instruction (scenario_cpu [(2, 5), (3, 7)])
      (create_r_instruction 0 2 3 1 0 0x20)) (create_r_instruction 0 2 3 1 0 0x20)
      (by decide) (by decide) (by decide)).2 (by decide), by decide⟩

/-- C21 (the claim as stated fails): with `registers[0] = 0`,
`registers[2] = 5`, `registers[3] = 7`, the add with `rd = 0` leaves
`registers[0] = 12`; and the lui with `rt = 0` and `imm = 0xDEAD` leaves
`registers[0] = 0xDEAD0000`. -/
theorem step_writes_register_zero :
    (with_instruction (scenario_cpu [(2, 5), (3, 7)])
      (create_r_instruction 0 2 3 0 0 0x20)).registers 0 = 0 ∧
    get_rd (create_r_instruction 0 2 3 0 0 0x20) = 0 ∧
    (state_after (with_instruction (scenario_cpu [(2, 5), (3, 7)])
      (create_r_instruction 0 2 3 0 0 0x20)).step).registers 0 = 12 ∧
    get_opcode (create_i_instruction 0x0F 0 0 0xDEAD) = 0x0F ∧
    get_rt (create_i_instruction 0x0F 0 0 0xDEAD) = 0 ∧
    (state_after (with_instruction (scenario_cpu [])
      (create_i_instruction 0x0F 0 0 0xDEAD)).step).registers 0 = 0xDEAD0000 := by
  refine ⟨by decide, by decide, by decide, by decide, by decide, by decide⟩

theorem execute_syscall_noop (c : CPU) (h : c.registers 2 = 8 ∨ c.registers 2 = 12) :
    c.execute_syscall = .ok c := by
  rcases h with h | h <;> simp only [CPU.execute_syscall, CPU.get_syscall_code, h]

theorem execute_syscall_invalid (c : CPU)
    (h1 : c.registers 2 % 256 ≠ 1) (h4 : c.registers 2 % 256 ≠ 4)
    (h5 : c.registers 2 % 256 ≠ 5) (h8 : c.registers 2 % 256 ≠ 8)
    (h10 : c.registers 2 % 256 ≠ 10) (h11 : c.registers 2 % 256 ≠ 11)
    (h12 : c.registers 2 % 256 ≠ 12) :
    c.execute_syscall = .error (.fault (.runtime_error "Invalid syscall code"), c) := by
  unfold CPU.execute_syscall CPU.get_syscall_code
  simp only []

/-- C22 (as amended): for every state, executing a syscall (a word of opcode
`0x0C` at `pc`) with `registers[2]` equal to 8 (read_string) or 12 (read_char)
returns without a fault and changes nothing but `pc`, advanced by the fetch:
registers, `hi`, `lo`, memory and the output are as before; with
`registers[2]` equal to 9 (sbrk, whose case is commented out) the step ends
with the exception "Invalid syscall code", with the same unchanged state and
no output. -/
theorem step_syscall_noop (cpu : CPU) (w : Nat)
    (hword : cpu.memory.read_word cpu.pc = .ok w) (hop : get_opcode w = 0x0C) :
    (cpu.registers 2 = 8 ∨ cpu.registers 2 = 12 →
      cpu.step = .ok { cpu with pc := (cpu.pc + 4) % 2 ^ 32 }) ∧
    (cpu.registers 2 = 9 →
      cpu.step = .error (.fault (.runtime_error "Invalid syscall code"),
        { cpu with pc := (cpu.pc + 4) % 2 ^ 32 })) := by
  rw [step_eq cpu w hword, execute_syscall_opcode _ w hop]
  refine ⟨fun h => execute_syscall_noop _ h, fun h => ?_⟩
  have h' : CPU.registers { cpu with pc := (cpu.pc + 4) % 2 ^ 32 } 2 = 9 := h
  exact execute_syscall_invalid _ (by omega) (by omega) (by omega) (by omega) (by omega)
    (by omega) (by omega)

theorem step_syscall_noop_witness :
    returned (with_instruction (scenario_cpu [(2, 8), (4, 0x1234)])
      (create_r_instruction 0x0C 0 0 0 0 0)).step = true ∧
    (state_after (with_instruction (scenario_cpu [(2, 8), (4, 0x1234)])
      (create_r_instruction 0x0C 0 0 0 0 0)).step).stdout = [] ∧
    (state_after (with_instruction (scenario_cpu [(2, 8), (4, 0x1234)])
      (create_r_instruction 0x0C 0 0 0 0 0)).step).registers 4 = 0x1234 := by
  have h := (step_syscall_noop (with_instruction (scenario_cpu [(2, 8), (4, 0x1234)])
    (create_r_instruction 0x0C 0 0 0 0 0)) (create_r_instruction 0x0C 0 0 0 0 0)
    (by decide) (by decide)).1 (Or.inl (by decide))
  rw [h]
  exact ⟨rfl, rfl, by decide⟩

/-- C22 (the claim as stated fails): with `registers[2] = 9` the syscall ends
with the exception "Invalid syscall code". -/
theorem step_syscall_sbrk_faults :
    (with_instruction (scenario_cpu [(2, 9)])
      (create_r_instruction 0x0C 0 0 0 0 0)).registers 2 = 9 ∧
    get_opcode (create_r_instruction 0x0C 0 0 0 0 0) = 0x0C ∧
    returned (with_instruction (scenario_cpu [(2, 9)])
      (create_r_instruction 0x0C 0 0 0 0 0)).step = false ∧
    fault_of (with_instruction (scenario_cpu [(2, 9)])
      (create_r_instruction 0x0C 0 0 0 0 0)).step = some "Invalid syscall code" := by
  refine ⟨by decide, by decide, by decide, by decide⟩

/-- C23 (as amended): the syscall code is the low 8 bits of `registers[2]`,
and for every value of `registers[2]` whose low byte is not in
`{1, 4, 5, 8, 9, 10, 11, 12}` executing a syscall (a word of opcode `0x0C` at
`pc`) ends with the exception "Invalid syscall code" and performs no I/O: the
state left differs from the one before only by the fetch increment of `pc`. -/
theorem step_syscall_unknown_code (cpu : CPU) (w : Nat)
    (hword : cpu.memory.read_word cpu.pc = .ok w) (hop : get_opcode w = 0x0C)
    (hcode : cpu.registers 2 % 256 ∉ [1, 4, 5, 8, 9, 10, 11, 12]) :
    cpu.get_syscall_code = cpu.registers 2 % 256 ∧
    cpu.step = .error (.fault (.runtime_error "Invalid syscall code"),
      { cpu with pc := (cpu.pc + 4) % 2 ^ 32 }) ∧
    (state_after cpu.step).stdout = cpu.stdout ∧
    (state_after cpu.step).stdin = cpu.stdin := by
  simp only [List.mem_cons, List.mem_singleton, List.not_mem_nil, or_false, not_or] at hcode
  obtain ⟨h1, h4, h5, h8, _, h10, h11, h12⟩ := hcode
  have hstep : cpu.step = .error (.fault (.runtime_error "Invalid syscall code"),
      { cpu with pc := (cpu.pc + 4) % 2 ^ 32 }) := by
    rw [step_eq cpu w hword, execute_syscall_opcode _ w hop]
    exact execute_syscall_invalid _ h1 h4 h5 h8 h10 h11 h12
  refine ⟨rfl, hstep, ?_, ?_⟩ <;> rw [hstep] <;> rfl

theorem step_syscall_unknown_code_witness :
    fault_of (with_instruction (scenario_cpu [(2, 256), (4, 42)])
      (create_r_instruction 0x0C 0 0 0 0 0)).step = some "Invalid syscall code" ∧
    (state_after (with_instruction (scenario_cpu [(2, 256), (4, 42)])
      (create_r_instruction 0x0C 0 0 0 0 0)).step).stdout = [] := by
  obtain ⟨_, h, _⟩ := step_syscall_unknown_code (with_instruction
    (scenario_cpu [(2, 256), (4, 42)]) (create_r_instruction 0x0C 0 0 0 0 0))
    (create_r_instruction 0x0C 0 0 0 0 0) (by decide) (by decide) (by decide)
  rw [h]
  exact ⟨rfl, rfl⟩

/-- C23 (the claim as stated fails): with `registers[2] = 257`, which is not
in `{1, 4, 5, 8, 9, 10, 11, 12}`, and `registers[4] = 42` the syscall returns
without a fault and prints `42`: the code that is dispatched on is
`257 mod 256 = 1` (print_int). -/
theorem step_syscall_code_is_low_byte :
    (with_instruction (scenario_cpu [(2, 257), (4, 42)])
      (create_r_instruction 0x0C 0 0 0 0 0)).registers 2 = 257 ∧
    CPU.get_syscall_code (with_instruction (scenario_cpu [(2, 257), (4, 42)])
      (create_r_instruction 0x0C 0 0 0 0 0)) = 1 ∧
    returned (with_instruction (scenario_cpu [(2, 257), (4, 42)])
      (create_r_instruction 0x0C 0 0 0 0 0)).step = true ∧
    (state_after (with_instruction (scenario_cpu [(2, 257), (4, 42)])
      (create_r_instruction 0x0C 0 0 0 0 0)).step).stdout = "42".toList := by
  refine ⟨by decide, by decide, by decide, by decide⟩

/-! ### The emulator -/

theorem emulator_step_ne_fault (e e' : Emulator) (f : Fault) :
    e.step ≠ .error (.fault f, e') := by
  unfold Emulator.step
  split <;> intro h <;> cases h

theorem run_loop_ne_broke : ∀ (n : Nat) (e e' : Emulator), e.run_loop n ≠ .broke e' := by
  intro n
  induction n with
  | zero => intro e e' h; cases h
  | succ n ih =>
    intro e e'
    unfold Emulator.run_loop
    split
    · exact ih _ _
    · next what e1 hstep => exact absurd hstep (emulator_step_ne_fault _ _ _)
    · intro h; cases h
    · intro h; cases h

/-- C24: when a CPU step raises a runtime fault, `Emulator::step` catches it
itself (it prints the message to `std::cerr` and returns), so the loop of
`run()` does not end at that step: the iteration after it is executed on the
state the faulting step left; and whatever the state and the number of
iterations, the loop of `run()` is never left by the `break` of its `catch`. -/
theorem run_continues_after_fault (e : Emulator) (n : Nat) (what : String) (cpu' : CPU)
    (h : e.cpu.step = .error (.fault (.runtime_error what), cpu')) :
    e.run_loop (n + 1) =
      Emulator.run_loop n { cpu := cpu', stderr := e.stderr ++ what.toList ++ ['\n'] } ∧
    ∀ (k : Nat) (e' : Emulator), e.run_loop k ≠ .broke e' := by
  refine ⟨?_, fun k e' => run_loop_ne_broke k e e'⟩
  have hs : e.step = .ok { cpu := cpu', stderr := e.stderr ++ what.toList ++ ['\n'] } := by
    simp only [Emulator.step, h]
  simp only [Emulator.run_loop, hs]

theorem run_continues_after_fault_witness :
    fault_of (Emulator.new []).cpu.step = some "Invalid funct for R-type instruction" ∧
    ((Emulator.new []).run_loop 3).is_looping = true ∧
    ((Emulator.new []).run_loop 3).emulator.cpu.pc = 12 := by
  have h := (run_continues_after_fault (Emulator.new []) 2
    "Invalid funct for R-type instruction" { (Emulator.new []).cpu with pc := 4 } (by rfl)).1
  refine ⟨by decide, ?_, ?_⟩
  · rw [h]; decide
  · rw [h]; decide

/-- C25: `prepare_and_hold(path)` never touches the memory (the call that
would load the program is commented out), it only resets the CPU.  On a fresh
emulator and the valid object file written by `save_mips_binary` for the
payload `80 43 08 00` (text section, offset 0), the byte at `TEXT_OFFSET` is
still `0` afterwards, where the claim has `0x80`; `load_mips_binary` itself on
that file leaves the memory unchanged too, its section hooks being empty.
The reset part of the claim holds: `pc`, `hi`, `lo` and all registers are 0. -/
theorem prepare_and_hold_loads_nothing (e : Emulator) (filename : List Char) :
    (e.prepare_and_hold filename).cpu.memory = e.cpu.memory ∧
    (e.prepare_and_hold filename).cpu.pc = 0 ∧
    (e.prepare_and_hold filename).cpu.hi = 0 ∧
    (e.prepare_and_hold filename).cpu.lo = 0 ∧
    (∀ i, (e.prepare_and_hold filename).cpu.registers i = 0) ∧
    ((Emulator.new []).prepare_and_hold ("prog.mobj".toList)).cpu.memory.read_byte TEXT_OFFSET =
      .ok 0 ∧
    (mips_binary_bytes false ([0x80, 0x43, 0x08, 0x00])).drop 20 = [0x80, 0x43, 0x08, 0x00] ∧
    (load_mips_binary (single_file ("prog.mobj".toList)
        (mips_binary_bytes false ([0x80, 0x43, 0x08, 0x00]))) false ("prog.mobj".toList)
        Memory.zero_memory).map (fun m => m.read_byte TEXT_OFFSET) = .ok (.ok 0) := by
  refine ⟨rfl, rfl, rfl, rfl, fun _ => rfl, by decide, by decide, by decide⟩

/-! ### The object file -/

theorem bytes_word_word_bytes (big_endian : Bool) (v : Nat) (hv : v < 2 ^ 32) :
    bytes_word big_endian (word_bytes big_endian v) = v := by
  cases big_endian
  · simp only [bytes_word, word_bytes, Bool.false_eq_true, if_false, List.getD_cons_zero,
      List.getD_cons_succ]
    exact be_bytes_join v hv
  · simp only [bytes_word, word_bytes, if_true, List.getD_cons_zero, List.getD_cons_succ]
    exact be_bytes_join v hv

theorem word_bytes_length (big_endian : Bool) (v : Nat) :
    (word_bytes big_endian v).length = 4 := by
  cases big_endian <;> rfl

theorem load_sections_eq (big_endian : Bool) : ∀ (count : Nat) (rest : List Nat) (m : Memory),
    load_sections big_endian count rest m = m := by
  intro count
  induction count with
  | zero => intro rest m; rfl
  | succ n ih =>
    intro rest m
    unfold load_sections
    simp only [Memory.load_text_section, Memory.load_data_section, ih, ite_self]

theorem mips_binary_bytes_eq (big_endian : Bool) (b : List Nat) (hb : b.length < 2 ^ 32) :
    mips_binary_bytes big_endian b =
      ['M'.toNat, 'I'.toNat, 'P'.toNat, 'S'.toNat, 0, 1, 1, 0] ++ [0, 0, 0, 0] ++
        word_bytes big_endian 0 ++ word_bytes big_endian b.length ++ b := by
  have hmod : b.length % 2 ^ 32 = b.length := Nat.mod_eq_of_lt hb
  simp only [mips_binary_bytes, hmod]
  simp [MIPS_file_header.bytes, MIPS_section_header.bytes, MIPS_VERSION]

/-- What the reader decodes from the section header of a file written for the
buffer `b`. -/
theorem read_section_header_mips_binary_bytes (big_endian : Bool) (b : List Nat)
    (hb : b.length < 2 ^ 32) :
    read_section_header big_endian ((mips_binary_bytes big_endian b).drop 8) =
      { segment := 0, padding := [0, 0, 0], offset := 0, size := b.length } := by
  have h0 := bytes_word_word_bytes big_endian 0 (by decide)
  have hl := bytes_word_word_bytes big_endian b.length hb
  rw [mips_binary_bytes_eq big_endian b hb]
  cases big_endian
  · simp only [word_bytes, Bool.false_eq_true, if_false] at h0 hl ⊢
    simp only [read_section_header, List.cons_append, List.nil_append, List.drop_succ_cons,
      List.drop_zero, List.getD_cons_zero, List.getD_cons_succ, List.take_succ_cons,
      List.take_zero, h0, hl]
  · simp only [word_bytes, if_true] at h0 hl ⊢
    simp only [read_section_header, List.cons_append, List.nil_append, List.drop_succ_cons,
      List.drop_zero, List.getD_cons_zero, List.getD_cons_succ, List.take_succ_cons,
      List.take_zero, h0, hl]

/-- C26: for every byte sequence `b` with `len(b) < 2^32`, the file written
by `save_mips_binary` is the 8 header bytes `'M','I','P','S'`, 0, 1, 1, 0, then
the 12-byte section header (segment 0, three zero bytes, offset 0 and size
`len(b)`, four bytes each in the byte order of the producer), then `b`, for
`20 + len(b)` bytes in all; read back, the header passes `is_mips_header`, the
section header decodes to segment 0, offset 0 and size `len(b)`, the payload
is `b`, and `load_mips_binary` accepts the file. -/
theorem save_mips_binary_round_trip (fs : FileSystem) (big_endian : Bool)
    (filename : List Char) (b : List Nat) (hw : fs.writable filename = true)
    (hb : b.length < 2 ^ 32) :
    ∃ fs' file, save_mips_binary fs big_endian filename b = .ok fs' ∧
      fs'.files filename = some file ∧
      (∀ p, p ≠ filename → fs'.files p = fs.files p) ∧
      file = ['M'.toNat, 'I'.toNat, 'P'.toNat, 'S'.toNat, 0, 1, 1, 0] ++ [0, 0, 0, 0] ++
        word_bytes big_endian 0 ++ word_bytes big_endian b.length ++ b ∧
      file.length = 20 + b.length ∧
      is_mips_header (read_file_header file) = true ∧
      (read_file_header file).shnum = 1 ∧
      read_section_header big_endian (file.drop 8) =
        { segment := 0, padding := [0, 0, 0], offset := 0, size := b.length } ∧
      file.drop 20 = b ∧
      ∀ m, load_mips_binary fs' big_endian filename m = .ok m := by
  have hfile := mips_binary_bytes_eq big_endian b hb
  have hhead : read_file_header (mips_binary_bytes big_endian b) =
      { magic := ['M'.toNat, 'I'.toNat, 'P'.toNat, 'S'.toNat], endianess := 0, version := 1,
        shnum := 1, padding := [0] } := by
    rw [hfile]; rfl
  have hfiles : (fs.write filename (mips_binary_bytes big_endian b)).files filename =
      some (mips_binary_bytes big_endian b) := by
    simp [FileSystem.write]
  refine ⟨fs.write filename (mips_binary_bytes big_endian b), mips_binary_bytes big_endian b,
    ?_, hfiles, ?_, hfile, ?_, ?_, ?_, ?_, ?_, ?_⟩
  · simp [save_mips_binary, hw]
  · intro p hp
    simp [FileSystem.write, hp]
  · rw [hfile]
    simp only [List.length_append, word_bytes_length, List.length_cons, List.length_nil]
  · rw [hhead]; rfl
  · rw [hhead]
  · exact read_section_header_mips_binary_bytes big_endian b hb
  · rw [hfile]
    cases big_endian <;> rfl
  · intro m
    simp only [load_mips_binary, hfiles, hhead]
    rw [load_sections_eq]
    rfl

theorem save_mips_binary_round_trip_witness :
    ∃ file, (save_mips_binary (single_file [] []) false ("out.mobj".toList)
        ([0x80, 0x43, 0x08, 0x00])).map (fun fs => fs.files ("out.mobj".toList)) =
        .ok (some file) ∧
      file = [77, 73, 80, 83, 0, 1, 1, 0, 0, 0, 0, 0, 0, 0, 0, 0, 4, 0, 0, 0,
        0x80, 0x43, 0x08, 0x00] := by
  obtain ⟨fs', file, h1, h2, _, h3, _⟩ := save_mips_binary_round_trip (single_file [] []) false
    ("out.mobj".toList) ([0x80, 0x43, 0x08, 0x00]) (by rfl) (by decide)
  refine ⟨file, ?_, ?_⟩
  · rw [h1]
    simp only [Except.map, h2]
  · rw [h3]; decide

theorem is_mips_header_read (bytes : List Nat) :
    is_mips_header (read_file_header bytes) = true ↔
      (bytes.getD 0 0 = 'M'.toNat ∧ bytes.getD 1 0 = 'I'.toNat ∧ bytes.getD 2 0 = 'P'.toNat ∧
        bytes.getD 3 0 = 'S'.toNat) ∧ bytes.getD 5 0 = 1 := by
  simp only [is_mips_header, read_file_header, List.getD_cons_zero, List.getD_cons_succ,
    MIPS_VERSION]
  constructor
  · intro h
    split at h
    · cases h
    · split at h
      · cases h
      · refine ⟨⟨?_, ?_, ?_, ?_⟩, ?_⟩ <;> omega
  · rintro ⟨⟨h0, h1, h2, h3⟩, h5⟩
    rw [if_neg (by omega), if_neg (by omega)]

/-- C27: for every openable file of at least 8 bytes, `load_mips_binary` fails
with "Invalid MIPS header" if and only if its first four bytes are not
`'M','I','P','S'` or its byte 5 (the version) is not 1; otherwise it returns
(leaving the memory as it was), whatever the endianness byte (byte 4), the
section count (byte 6), the pad byte (byte 7) and the rest of the file. -/
theorem load_mips_binary_header_validation (fs : FileSystem) (big_endian : Bool)
    (filename : List Char) (m : Memory) (bytes : List Nat)
    (hopen : fs.files filename = some bytes) (hlen : 8 ≤ bytes.length) :
    (load_mips_binary fs big_endian filename m = .error (.runtime_error "Invalid MIPS header") ↔
      (¬ (bytes.getD 0 0 = 'M'.toNat ∧ bytes.getD 1 0 = 'I'.toNat ∧
          bytes.getD 2 0 = 'P'.toNat ∧ bytes.getD 3 0 = 'S'.toNat) ∨ bytes.getD 5 0 ≠ 1)) ∧
    (((bytes.getD 0 0 = 'M'.toNat ∧ bytes.getD 1 0 = 'I'.toNat ∧
          bytes.getD 2 0 = 'P'.toNat ∧ bytes.getD 3 0 = 'S'.toNat) ∧ bytes.getD 5 0 = 1) →
      load_mips_binary fs big_endian filename m = .ok m) ∧
    (∀ k, k < 8 → bytes[k]? = some (bytes.getD k 0)) := by
  have hgood : ((bytes.getD 0 0 = 'M'.toNat ∧ bytes.getD 1 0 = 'I'.toNat ∧
      bytes.getD 2 0 = 'P'.toNat ∧ bytes.getD 3 0 = 'S'.toNat) ∧ bytes.getD 5 0 = 1) →
      load_mips_binary fs big_endian filename m = .ok m := by
    intro h
    have hh := (is_mips_header_read bytes).mpr h
    simp only [load_mips_binary, hopen, hh, Bool.not_true, Bool.false_eq_true, if_false,
      load_sections_eq]
  have hbad : (¬ (bytes.getD 0 0 = 'M'.toNat ∧ bytes.getD 1 0 = 'I'.toNat ∧
      bytes.getD 2 0 = 'P'.toNat ∧ bytes.getD 3 0 = 'S'.toNat) ∨ bytes.getD 5 0 ≠ 1) →
      load_mips_binary fs big_endian filename m =
        .error (.runtime_error "Invalid MIPS header") := by
    intro h
    have hh : is_mips_header (read_file_header bytes) = false := by
      cases hc : is_mips_header (read_file_header bytes) with
      | false => rfl
      | true =>
        have := (is_mips_header_read bytes).mp hc
        rcases h with h | h
        · exact absurd this.1 h
        · exact absurd this.2 h
    simp only [load_mips_binary, hopen, hh, Bool.not_false, if_true]
  refine ⟨⟨fun h => ?_, hbad⟩, hgood, fun k hk => ?_⟩
  · by_contra hcon
    have hg : (bytes.getD 0 0 = 'M'.toNat ∧ bytes.getD 1 0 = 'I'.toNat ∧
        bytes.getD 2 0 = 'P'.toNat ∧ bytes.getD 3 0 = 'S'.toNat) ∧ bytes.getD 5 0 = 1 := by
      constructor
      · by_contra h1
        exact hcon (Or.inl h1)
      · by_contra h5
        exact hcon (Or.inr h5)
    rw [hgood hg] at h
    cases h
  · simp [List.getD_eq_getElem?_getD, List.getElem?_eq_getElem (show k < bytes.length by omega)]

theorem load_mips_binary_header_validation_witness :
    load_mips_binary (single_file ("a.mobj".toList) ([77, 73, 80, 83, 9, 1, 200, 7]))
      false ("a.mobj".toList) Memory.zero_memory = .ok Memory.zero_memory ∧
    load_mips_binary (single_file ("a.mobj".toList) ([77, 73, 80, 83, 0, 2, 1, 0]))
      false ("a.mobj".toList) Memory.zero_memory =
      .error (.runtime_error "Invalid MIPS header") :=
  ⟨(load_mips_binary_header_validation (single_file ("a.mobj".toList)
      ([77, 73, 80, 83, 9, 1, 200, 7])) false ("a.mobj".toList) Memory.zero_memory
      ([77, 73, 80, 83, 9, 1, 200, 7]) (by rfl) (by decide)).2.1 (by decide),
   (load_mips_binary_header_validation (single_file ("a.mobj".toList)
      ([77, 73, 80, 83, 0, 2, 1, 0])) false ("a.mobj".toList) Memory.zero_memory
      ([77, 73, 80, 83, 0, 2, 1, 0]) (by rfl) (by decide)).1.mpr (by decide)⟩

/-! ### The assembler as a whole -/

/-- C28: for every source, if `load_file` or the second pass raises an error
(the first pass raises none), `assemble()` propagates that error and the file
system is unchanged: the output file is not opened; the file system changes
only when both passes have succeeded, and then by the write of the object file
for the assembled buffer. -/
theorem assemble_no_partial_output (a : Assembler) (fs : FileSystem) (big_endian : Bool)
    (filename output : List Char) :
    (∀ e, a.load_file fs filename = .error e →
      a.assemble fs big_endian filename output = (a, fs, some e)) ∧
    (∀ a1 e, a.load_file fs filename = .ok a1 → (a1.first_pass.second_pass).2 = some e →
      (a.assemble fs big_endian filename output).2.2 = some e ∧
      (a.assemble fs big_endian filename output).2.1 = fs) ∧
    ((a.assemble fs big_endian filename output).2.1 ≠ fs →
      ∃ a1, a.load_file fs filename = .ok a1 ∧ (a1.first_pass.second_pass).2 = none ∧
        (a.assemble fs big_endian filename output).2.2 = none ∧
        (a.assemble fs big_endian filename output).2.1 =
          fs.write output (mips_binary_bytes big_endian (a1.first_pass.second_pass).1.binary)) := by
  refine ⟨?_, ?_, ?_⟩
  · intro e h
    simp only [Assembler.assemble, h]
  · intro a1 e h1 h2
    cases hp : a1.first_pass.second_pass with
    | mk a2 r =>
      rw [hp] at h2
      simp only at h2
      subst h2
      simp only [Assembler.assemble, h1, hp, and_self]
  · intro hne
    cases h1 : a.load_file fs filename with
    | error e =>
      simp only [Assembler.assemble, h1] at hne
      exact absurd rfl hne
    | ok a1 =>
      cases hp : a1.first_pass.second_pass with
      | mk a2 r =>
        cases r with
        | some e =>
          simp only [Assembler.assemble, h1, hp] at hne
          exact absurd rfl hne
        | none =>
          cases hs : save_mips_binary fs big_endian output a2.binary with
          | error e =>
            simp only [Assembler.assemble, h1, hp, hs] at hne
            exact absurd rfl hne
          | ok fs' =>
            refine ⟨a1, rfl, by rw [hp], ?_, ?_⟩
            · simp only [Assembler.assemble, h1, hp, hs]
            · simp only [Assembler.assemble, h1, hp, hs]
              unfold save_mips_binary at hs
              split at hs
              · cases hs
              · cases hs
                rfl

theorem assemble_no_partial_output_witness :
    (Assembler.assemble {} (single_file ("in.s".toList)
        (text_bytes ("add $t1, $t2, $t3\nadd $t1, $t2\n".toList))) false ("in.s".toList)
        ("out.mobj".toList)).2.1.files ("out.mobj".toList) = none ∧
    (Assembler.assemble {} (single_file ("in.s".toList)
        (text_bytes ("add $t1, $t2, $t3\nadd $t1, $t2\n".toList))) false ("in.s".toList)
        ("out.mobj".toList)).2.2 =
      some (.SyntaxException ("Invalid number of arguments in line 1 for instruction ".toList ++
        [Char.ofNat 39] ++ "add".toList ++ [Char.ofNat 39] ++
        " (expected 4, got 3)".toList)) := by
  obtain ⟨he, hfs⟩ := (assemble_no_partial_output {} (single_file ("in.s".toList)
        (text_bytes ("add $t1, $t2, $t3\nadd $t1, $t2\n".toList))) false ("in.s".toList)
        ("out.mobj".toList)).2.1 _ _ (by rfl) (by rfl)
  refine ⟨?_, he.trans (by decide)⟩
  rw [hfs]
  decide

/-- C29: the one-line source `foo $t1, $t2, $t3` is not rejected: `foo` is in
none of the three tables, the chain of `if`s of the second pass has no final
`else`, so the line is passed over, no exception is raised, and `assemble()`
writes an object file whose text section is empty (the 20 header bytes with
size 0); the claim has a syntax error. -/
theorem second_pass_unknown_mnemonic_accepted :
    is_r_type_instruction ("foo".toList) = false ∧
    is_i_type_instruction ("foo".toList) = false ∧
    is_j_type_instruction ("foo".toList) = false ∧
    tokenize ("foo $t1, $t2, $t3".toList) =
      ["foo".toList, "$t1".toList, "$t2".toList, "$t3".toList] ∧
    second_pass_line 0 ("foo $t1, $t2, $t3".toList) = .ok none ∧
    (Assembler.assemble {} (single_file ("in.s".toList)
        (text_bytes ("foo $t1, $t2, $t3\n".toList))) false ("in.s".toList)
        ("out.mobj".toList)).2.2 = none ∧
    (Assembler.assemble {} (single_file ("in.s".toList)
        (text_bytes ("foo $t1, $t2, $t3\n".toList))) false ("in.s".toList)
        ("out.mobj".toList)).2.1.files ("out.mobj".toList) =
      some [77, 73, 80, 83, 0, 1, 1, 0, 0, 0, 0, 0, 0, 0, 0, 0, 0, 0, 0, 0] := by
  refine ⟨by decide, by decide, by decide, by decide, by decide, by decide, by decide⟩

theorem is_j_type_instruction_cases (m : List Char) (h : is_j_type_instruction m = true) :
    m = "j".toList ∨ m = "jal".toList := by
  by_cases h1 : m = "j".toList
  · exact Or.inl h1
  · by_cases h2 : m = "jal".toList
    · exact Or.inr h2
    · exfalso
      have e1 : (m == "j".toList) = false := beq_false_of_ne h1
      have e2 : (m == "jal".toList) = false := beq_false_of_ne h2
      simp only [is_j_type_instruction, map_contains, j_opcode_map, List.lookup, e1, e2] at h
      cases h

theorem is_j_type_instruction_disjoint (m : List Char) (h : is_j_type_instruction m = true) :
    is_r_type_instruction m = false ∧ is_i_type_instruction m = false := by
  rcases is_j_type_instruction_cases m h with rfl | rfl <;> exact ⟨by decide, by decide⟩

theorem ASSERT_ARG_COUNT_error (tokens : List (List Char)) (count i : Nat) (m : List Char)
    (h : tokens.length ≠ count) :
    ∃ msg, ASSERT_ARG_COUNT tokens count i m = .error (.SyntaxException msg) ∧
      List.IsInfix (to_string i) msg ∧ List.IsInfix m msg := by
  refine ⟨_, by simp only [ASSERT_ARG_COUNT, h, ne_eq, not_false_eq_true, if_true]; rfl, ?_, ?_⟩
  · exact ⟨"Invalid number of arguments in line ".toList,
      " for instruction ".toList ++ [Char.ofNat 39] ++ m ++ [Char.ofNat 39] ++
      " (expected ".toList ++ to_string count ++ ", got ".toList ++ to_string tokens.length ++
      ")".toList, by simp only [List.append_assoc]⟩
  · exact ⟨"Invalid number of arguments in line ".toList ++ to_string i ++
      " for instruction ".toList ++ [Char.ofNat 39],
      [Char.ofNat 39] ++ " (expected ".toList ++ to_string count ++ ", got ".toList ++
      to_string tokens.length ++ ")".toList, by simp only [List.append_assoc]⟩

/-- What the code does give on a wrong argument count: for every line that
the second pass tokenises (not empty, no `#`, no `:`) whose first token, as
`tokenize` cuts it, is in the R- or I-table with a token count other than 4,
or in the J-table with a token count other than 2, the second pass raises a
SyntaxException whose message contains the line index and that token, and
appends no bytes for the line: the loop is left in the state it had before
the line. -/
theorem second_pass_wrong_argument_count (i : Nat) (line : List Char)
    (rest : List (List Char)) (a : Assembler)
    (hsig : (is_empty_line line || is_comment line || is_label line) = false)
    (hcount :
      ((is_r_type_instruction (token_at (tokenize line) 0) = true ∨
          is_i_type_instruction (token_at (tokenize line) 0) = true) ∧
        (tokenize line).length ≠ 4) ∨
      (is_j_type_instruction (token_at (tokenize line) 0) = true ∧
        (tokenize line).length ≠ 2)) :
    ∃ msg, second_pass_line i line = .error (.SyntaxException msg) ∧
      List.IsInfix (to_string i) msg ∧
      List.IsInfix (token_at (tokenize line) 0) msg ∧
      second_pass_from i (line :: rest) a = (a, some (.SyntaxException msg)) := by
  have key : ∃ msg, second_pass_line i line = .error (.SyntaxException msg) ∧
      List.IsInfix (to_string i) msg ∧ List.IsInfix (token_at (tokenize line) 0) msg := by
    unfold second_pass_line
    rw [if_neg (by rw [hsig]; exact Bool.false_ne_true)]
    simp only []
    by_cases hr : is_r_type_instruction (token_at (tokenize line) 0) = true
    · have h4 : (tokenize line).length ≠ 4 := by
        rcases hcount with h | h
        · exact h.2
        · rw [(is_j_type_instruction_disjoint _ h.1).1] at hr
          cases hr
      obtain ⟨msg, hm, h1, h2⟩ :=
        ASSERT_ARG_COUNT_error (tokenize line) 4 i (token_at (tokenize line) 0) h4
      refine ⟨msg, ?_, h1, h2⟩
      rw [if_pos hr, hm]
      rfl
    · by_cases hi : is_i_type_instruction (token_at (tokenize line) 0) = true
      · have h4 : (tokenize line).length ≠ 4 := by
          rcases hcount with h | h
          · exact h.2
          · rw [(is_j_type_instruction_disjoint _ h.1).2] at hi
            cases hi
        obtain ⟨msg, hm, h1, h2⟩ :=
          ASSERT_ARG_COUNT_error (tokenize line) 4 i (token_at (tokenize line) 0) h4
        refine ⟨msg, ?_, h1, h2⟩
        rw [if_neg hr, if_pos hi, hm]
        rfl
      · have hj : is_j_type_instruction (token_at (tokenize line) 0) = true ∧
            (tokenize line).length ≠ 2 := by
          rcases hcount with h | h
          · rcases h.1 with h' | h'
            · exact absurd h' hr
            · exact absurd h' hi
          · exact h
        obtain ⟨msg, hm, h1, h2⟩ :=
          ASSERT_ARG_COUNT_error (tokenize line) 2 i (token_at (tokenize line) 0) hj.2
        refine ⟨msg, ?_, h1, h2⟩
        rw [if_neg hr, if_neg hi, if_pos hj.1, hm]
        rfl
  obtain ⟨msg, hm, h1, h2⟩ := key
  refine ⟨msg, hm, h1, h2, ?_⟩
  simp only [second_pass_from, hm]

theorem second_pass_wrong_argument_count_witness :
    ∃ msg, second_pass_line 7 ("add $t1, $t2".toList) = .error (.SyntaxException msg) ∧
      List.IsInfix ("7".toList) msg ∧ List.IsInfix ("add".toList) msg ∧
      second_pass_from 7 ["add $t1, $t2".toList, "add $t1, $t2, $t3".toList] {} =
        ({}, some (.SyntaxException msg)) :=
  second_pass_wrong_argument_count 7 ("add $t1, $t2".toList) ["add $t1, $t2, $t3".toList] {}
    (by decide) (Or.inl ⟨Or.inl (by decide), by decide⟩)

/-- C30 (the code departs from it): the second pass does not trim the line and
`tokenize` cuts the mnemonic at the first space only.  An instruction line
with a wrong argument count that starts with a blank, or that has a tab after
the mnemonic, therefore has a first token that is in no table and is passed
over: `  add $t1, $t2`, the tab-separated `add $t1, $t2` and ` j 1, 2` raise
nothing and emit nothing, and `assemble` on a file holding `  add $t1, $t2`
raises nothing and writes an object with an empty text section.  The same
line without the leading blanks raises the SyntaxException with the line index
and the mnemonic. -/
theorem second_pass_wrong_argument_count_passed_over :
    trim "  add $t1, $t2".toList = "add $t1, $t2".toList ∧
    token_at (tokenize "  add $t1, $t2".toList) 0 = [] ∧
    (tokenize "  add $t1, $t2".toList).length = 3 ∧
    second_pass_line 0 "  add $t1, $t2".toList = .ok none ∧
    token_at (tokenize "add\t$t1, $t2".toList) 0 = "add\t$t1,".toList ∧
    second_pass_line 0 "add\t$t1, $t2".toList = .ok none ∧
    second_pass_line 0 " j 1, 2".toList = .ok none ∧
    Assembler.second_pass { file_contents := ["  add $t1, $t2".toList] } =
      ({ file_contents := ["  add $t1, $t2".toList] }, none) ∧
    (Assembler.assemble {} (single_file "a.s".toList (text_bytes "  add $t1, $t2\n".toList))
      false "a.s".toList "a.o".toList).2.2 = none ∧
    (Assembler.assemble {} (single_file "a.s".toList (text_bytes "  add $t1, $t2\n".toList))
      false "a.s".toList "a.o".toList).2.1.files "a.o".toList =
      some [77, 73, 80, 83, 0, 1, 1, 0, 0, 0, 0, 0, 0, 0, 0, 0, 0, 0, 0, 0] ∧
    second_pass_line 0 "add $t1, $t2".toList =
      .error (.SyntaxException ("Invalid number of arguments in line 0 for instruction ".toList ++
        [Char.ofNat 39] ++ "add".toList ++ [Char.ofNat 39] ++ " (expected 4, got 3)".toList)) := by
  decide

/-! ### Operand checks of the second pass -/

/-- C31: lines with the right argument count and a bad operand do not raise a
SyntaxException and their message names neither the line nor the mnemonic:
`add $x1, $t2, $t3` raises `std::runtime_error("Invalid register")`,
`addi $t1, $t2, 99999` raises `std::runtime_error("Invalid immediate")`,
`j 12x` raises `std::runtime_error("Invalid address")`, and an empty or an
overlong immediate (`addi $t1, $t2, ` and `addi $t1, $t2, 99999999999`)
escapes as the `std::invalid_argument` and `std::out_of_range` of
`std::stoi`. -/
theorem second_pass_operand_errors :
    (tokenize ("add $x1, $t2, $t3".toList)).length = 4 ∧
    second_pass_line 0 ("add $x1, $t2, $t3".toList) =
      .error (.runtime_error "Invalid register") ∧
    (tokenize ("addi $t1, $t2, 99999".toList)).length = 4 ∧
    second_pass_line 0 ("addi $t1, $t2, 99999".toList) =
      .error (.runtime_error "Invalid immediate") ∧
    (tokenize ("j 12x".toList)).length = 2 ∧
    second_pass_line 0 ("j 12x".toList) = .error (.runtime_error "Invalid address") ∧
    second_pass_line 0 ("addi $t1, $t2, ".toList) = .error .invalid_argument ∧
    second_pass_line 0 ("addi $t1, $t2, 99999999999".toList) = .error .out_of_range := by
  refine ⟨by decide, by decide, by decide, by decide, by decide, by decide, by decide,
    by decide⟩

/-- C32: `is_valid_immediate` strips a leading `-` before it parses and
range-checks the digits, so the lower bound is never reached: `"-32768"` is
rejected (the claim has it accepted) although `"-32767"` and `"32767"` are
accepted and `"32768"` and `"99999"` rejected; and on `""` and `"-"` the
function does not return false but lets the `std::invalid_argument` of
`std::stoi` escape (`std::out_of_range` on `"99999999999"`). -/
theorem is_valid_immediate_lower_bound :
    MIN_IMMEDIATE = -32768 ∧
    is_valid_immediate ("-32768".toList) = .ok false ∧
    is_valid_immediate ("-32767".toList) = .ok true ∧
    is_valid_immediate ("32767".toList) = .ok true ∧
    is_valid_immediate ("32768".toList) = .ok false ∧
    is_valid_immediate ("99999".toList) = .ok false ∧
    is_valid_immediate ("".toList) = .error .invalid_argument ∧
    is_valid_immediate ("-".toList) = .error .invalid_argument ∧
    is_valid_immediate ("99999999999".toList) = .error .out_of_range := by
  refine ⟨by decide, by decide, by decide, by decide, by decide, by decide, by decide,
    by decide, by decide⟩

/-- C33: the second pass does not trim the line (the first pass trims its
copy).  For `   add $t1, $t2, $t3` the first token is empty, for the
tab-separated `add\t$t1, $t2, $t3` it is `add\t$t1,`; neither is in a table, so
both lines are passed over and emit nothing, while the trimmed line
`add $t1, $t2, $t3` emits the bytes `80 43 08 00`. -/
theorem second_pass_leading_whitespace :
    trim ("   add $t1, $t2, $t3".toList) = "add $t1, $t2, $t3".toList ∧
    (Assembler.second_pass { file_contents := ["add $t1, $t2, $t3".toList] }).1.binary =
      [0x80, 0x43, 0x08, 0x00] ∧
    token_at (tokenize ("   add $t1, $t2, $t3".toList)) 0 = [] ∧
    Assembler.second_pass { file_contents := ["   add $t1, $t2, $t3".toList] } =
      ({ file_contents := ["   add $t1, $t2, $t3".toList] }, none) ∧
    token_at (tokenize ("add\t$t1, $t2, $t3".toList)) 0 = "add\t$t1,".toList ∧
    Assembler.second_pass { file_contents := ["add\t$t1, $t2, $t3".toList] } =
      ({ file_contents := ["add\t$t1, $t2, $t3".toList] }, none) ∧
    first_pass_from 0 ["   lab:  ".toList] [] = [{ name := "lab".toList, address := 0 }] := by
  refine ⟨by decide, by decide, by decide, by decide, by decide, by decide, by decide⟩

/-! ### The codec on arbitrary words -/

theorem shiftRight_and_mask (w sh n : Nat) :
    (w >>> sh) &&& (2 ^ n - 1) = (w / 2 ^ sh) % 2 ^ n := by
  rw [Nat.and_pow_two_sub_one_eq_mod, Nat.shiftRight_eq_div_pow]

/-- C36: for every word `w`, `get_opcode(w) = (w >> 26) & 0x3F`,
`get_rs(w) = (w >> 21) & 0x1F`, `get_rt(w) = (w >> 16) & 0x1F`,
`get_rd(w) = (w >> 11) & 0x1F`, `get_shamt(w) = (w >> 6) & 0x1F`,
`get_funct(w) = w & 0x3F`, `get_immediate(w) = w & 0xFFFF` and
`get_address(w) = w & 0x03FFFFFF`; so opcode and funct are below 64, the
register and shamt fields below 32, the immediate below `2^16` and the address
below `2^26`. -/
theorem field_extractors_reference (w : Nat) :
    get_opcode w = (w >>> 26) &&& 0x3F ∧ get_rs w = (w >>> 21) &&& 0x1F ∧
    get_rt w = (w >>> 16) &&& 0x1F ∧ get_rd w = (w >>> 11) &&& 0x1F ∧
    get_shamt w = (w >>> 6) &&& 0x1F ∧ get_funct w = w &&& 0x3F ∧
    get_immediate w = w &&& 0xFFFF ∧ get_address w = w &&& 0x03FFFFFF ∧
    get_opcode w < 64 ∧ get_funct w < 64 ∧ get_rs w < 32 ∧ get_rt w < 32 ∧
    get_rd w < 32 ∧ get_shamt w < 32 ∧ get_immediate w < 2 ^ 16 ∧
    get_address w < 2 ^ 26 := by
  have h6 : ∀ x : Nat, x &&& 0x3F = x % 2 ^ 6 := fun x => Nat.and_pow_two_sub_one_eq_mod x 6
  have h5 : ∀ x : Nat, x &&& 0x1F = x % 2 ^ 5 := fun x => Nat.and_pow_two_sub_one_eq_mod x 5
  have h16 : ∀ x : Nat, x &&& 0xFFFF = x % 2 ^ 16 := fun x =>
    Nat.and_pow_two_sub_one_eq_mod x 16
  have h26 : ∀ x : Nat, x &&& 0x03FFFFFF = x % 2 ^ 26 := fun x =>
    Nat.and_pow_two_sub_one_eq_mod x 26
  rw [get_opcode_eq, get_rs_eq, get_rt_eq, get_rd_eq, get_shamt_eq, get_funct_eq,
    get_immediate_eq, get_address_eq, h6, h6, h5, h5, h5, h5, h16, h26]
  simp only [Nat.shiftRight_eq_div_pow]
  refine ⟨?_, ?_, ?_, ?_, ?_, ?_, ?_, ?_, ?_, ?_, ?_, ?_, ?_, ?_, ?_, ?_⟩ <;> first | omega | trivial

/-- C38: for every 32-bit `w`, packing the fields extracted from `w` gives
`w` back, in each of the three layouts. -/
theorem decode_encode_identity (w : Nat) (hw : w < 2 ^ 32) :
    create_r_instruction (get_opcode w) (get_rs w) (get_rt w) (get_rd w) (get_shamt w)
      (get_funct w) = w ∧
    create_i_instruction (get_opcode w) (get_rs w) (get_rt w) (get_immediate w) = w ∧
    create_j_instruction (get_opcode w) (get_address w) = w := by
  have ho : get_opcode w < 64 := by rw [get_opcode_eq]; omega
  have hs : get_rs w < 32 := by rw [get_rs_eq]; omega
  have ht : get_rt w < 32 := by rw [get_rt_eq]; omega
  have hd : get_rd w < 32 := by rw [get_rd_eq]; omega
  have hh : get_shamt w < 32 := by rw [get_shamt_eq]; omega
  have hf : get_funct w < 64 := by rw [get_funct_eq]; omega
  have hi : get_immediate w < 2 ^ 16 := by rw [get_immediate_eq]; omega
  have ha : get_address w < 2 ^ 26 := by rw [get_address_eq]; omega
  rw [create_r_instruction_eq _ _ _ _ _ _ ho hs ht hd hh hf,
    create_i_instruction_eq _ _ _ _ ho hs ht hi, create_j_instruction_eq _ _ ho ha,
    get_opcode_eq, get_rs_eq, get_rt_eq, get_rd_eq, get_shamt_eq, get_funct_eq,
    get_immediate_eq, get_address_eq]
  refine ⟨?_, ?_, ?_⟩ <;> omega

theorem decode_encode_identity_witness :
    create_r_instruction (get_opcode 0xDEADBEEF) (get_rs 0xDEADBEEF) (get_rt 0xDEADBEEF)
      (get_rd 0xDEADBEEF) (get_shamt 0xDEADBEEF) (get_funct 0xDEADBEEF) = 0xDEADBEEF ∧
    create_i_instruction (get_opcode 0xDEADBEEF) (get_rs 0xDEADBEEF) (get_rt 0xDEADBEEF)
      (get_immediate 0xDEADBEEF) = 0xDEADBEEF ∧
    create_j_instruction (get_opcode 0xDEADBEEF) (get_address 0xDEADBEEF) = 0xDEADBEEF :=
  decode_encode_identity 0xDEADBEEF (by decide)

/-! ### The frame of `write_word` -/

/-- C39: for every memory, every 32-bit `w` and every address `a` with
`a + 3 < 2^32`, `write_word(w, a)` returns; afterwards `read_byte(b)` is as
before for every address `b` outside `[a, a+3]`, and the bytes at `a`, `a+1`,
`a+2`, `a+3` are the bytes of `w`, most significant first.  A `write_word`
that raises does so on its address check, before the first assignment: the
call yields the exception only and the memory it was called on is untouched. -/
theorem write_word_frame (m : Memory) (a w : Nat) (ha : a + 3 < 2 ^ 32) (hw : w < 2 ^ 32) :
    (∃ m', m.write_word w a = .ok m' ∧
      (∀ b, b < a ∨ a + 3 < b → m'.read_byte b = m.read_byte b) ∧
      m'.read_byte a = .ok (w >>> 24) ∧
      m'.read_byte (a + 1) = .ok ((w >>> 16) % 256) ∧
      m'.read_byte (a + 2) = .ok ((w >>> 8) % 256) ∧
      m'.read_byte (a + 3) = .ok (w % 256)) ∧
    (∀ x v e, m.write_word v x = .error e →
      e = .runtime_error "Invalid address" ∧
      (check_address x && check_address ((x + 3) % 2 ^ 32)) = false) := by
  have e1 : (a + 1) % 2 ^ 32 = a + 1 := Nat.mod_eq_of_lt (by omega)
  have e2 : (a + 2) % 2 ^ 32 = a + 2 := Nat.mod_eq_of_lt (by omega)
  have e3 : (a + 3) % 2 ^ 32 = a + 3 := Nat.mod_eq_of_lt (by omega)
  have c0 : check_address a = true := check_address_eq_true a (by omega)
  have c1 : check_address (a + 1) = true := check_address_eq_true (a + 1) (by omega)
  have c2 : check_address (a + 2) = true := check_address_eq_true (a + 2) (by omega)
  have c3 : check_address (a + 3) = true := check_address_eq_true (a + 3) ha
  refine ⟨⟨_, by simp only [Memory.write_word, e1, e2, e3, c0, c3]; rfl, ?_, ?_, ?_, ?_, ?_⟩, ?_⟩
  · intro b hb
    have n0 : ¬ b = a := by omega
    have n1 : ¬ b = a + 1 := by omega
    have n2 : ¬ b = a + 2 := by omega
    have n3 : ¬ b = a + 3 := by omega
    simp only [Memory.read_byte, Memory.store_memory, n0, n1, n2, n3, if_false]
  · have n1 : ¬ a = a + 1 := by omega
    have n2 : ¬ a = a + 2 := by omega
    have n3 : ¬ a = a + 3 := by omega
    have hb : (w >>> 24) % 256 = w >>> 24 := by
      rw [Nat.shiftRight_eq_div_pow]; omega
    simp [Memory.read_byte, Memory.store_memory, c0, n1, n2, n3, hb]
  · have n2 : ¬ a + 1 = a + 2 := by omega
    have n3 : ¬ a + 1 = a + 3 := by omega
    simp [Memory.read_byte, Memory.store_memory, c1, n2, n3]
  · have n3 : ¬ a + 2 = a + 3 := by omega
    simp [Memory.read_byte, Memory.store_memory, c2, n3]
  · simp [Memory.read_byte, Memory.store_memory, c3]
  · intro x v e h
    unfold Memory.write_word at h
    split at h
    · next hc =>
      cases h
      refine ⟨rfl, ?_⟩
      revert hc
      cases check_address x <;> cases check_address ((x + 3) % 2 ^ 32) <;> decide
    · cases h

theorem write_word_frame_witness :
    ∃ m', Memory.zero_memory.write_word 0xCAFEBABE 0x00400100 = .ok m' ∧
      m'.read_byte 0x004000FF = .ok 0 ∧ m'.read_byte 0x00400100 = .ok 0xCA ∧
      m'.read_byte 0x00400103 = .ok 0xBE ∧ m'.read_byte 0x00400104 = .ok 0 := by
  obtain ⟨⟨m', h, hframe, h0, _, _, h3⟩, _⟩ :=
    write_word_frame Memory.zero_memory 0x00400100 0xCAFEBABE (by decide) (by decide)
  exact ⟨m', h, (hframe 0x004000FF (Or.inl (by decide))).trans (by decide),
    h0.trans (by decide), h3.trans (by decide),
    (hframe 0x00400104 (Or.inr (by decide))).trans (by decide)⟩

/-! ### The packers on oversize arguments -/

theorem or_mod_two_pow (a b n : Nat) : (a ||| b) % 2 ^ n = (a % 2 ^ n) ||| (b % 2 ^ n) := by
  apply Nat.eq_of_testBit_eq
  intro i
  simp only [Nat.testBit_mod_two_pow, Nat.testBit_or]
  cases decide (i < n) <;> simp

theorem shiftLeft_opcode_mod (op : Nat) : (op <<< 26) % 2 ^ 32 = ((op % 64) <<< 26) % 2 ^ 32 := by
  simp only [Nat.shiftLeft_eq]
  omega

theorem and_field_mask (x n : Nat) (h : x < 2 ^ n) : x &&& (2 ^ n - 1) = x := by
  rw [Nat.and_pow_two_sub_one_eq_mod, Nat.mod_eq_of_lt h]

theorem create_r_instruction_opcode_mod (op rs rt rd shamt funct : Nat) :
    create_r_instruction op rs rt rd shamt funct =
      create_r_instruction (op % 64) rs rt rd shamt funct := by
  unfold create_r_instruction OPCODE_SHIFT
  simp only [or_mod_two_pow]
  rw [shiftLeft_opcode_mod]

theorem create_i_instruction_opcode_mod (op rs rt imm : Nat) :
    create_i_instruction op rs rt imm = create_i_instruction (op % 64) rs rt imm := by
  unfold create_i_instruction OPCODE_SHIFT
  simp only [or_mod_two_pow]
  rw [shiftLeft_opcode_mod]

theorem create_j_instruction_opcode_mod (op target : Nat) :
    create_j_instruction op target = create_j_instruction (op % 64) target := by
  unfold create_j_instruction OPCODE_SHIFT
  simp only [or_mod_two_pow]
  rw [shiftLeft_opcode_mod]

/-- C37 (as the code has it): the packers do not mask.  An opcode of any
size is cut to its six low bits by the conversion of the or-ed value to 32
bits, so for every `op`, and for `rs`, `rt`, `rd`, `shamt < 32`, `funct < 64`,
`imm < 2^16` and `target < 2^26`, each packer returns the same word as with
every argument reduced to its field width, and
`get_opcode(create_i_instruction(op, rs, rt, imm)) = op & 0x3F`. -/
theorem create_instruction_masks_opcode (op rs rt rd shamt funct imm target : Nat)
    (hrs : rs < 32) (hrt : rt < 32) (hrd : rd < 32) (hshamt : shamt < 32)
    (hfunct : funct < 64) (himm : imm < 2 ^ 16) (ht : target < 2 ^ 26) :
    create_r_instruction op rs rt rd shamt funct =
      create_r_instruction (op &&& 0x3F) (rs &&& 0x1F) (rt &&& 0x1F) (rd &&& 0x1F)
        (shamt &&& 0x1F) (funct &&& 0x3F) ∧
    create_i_instruction op rs rt imm =
      create_i_instruction (op &&& 0x3F) (rs &&& 0x1F) (rt &&& 0x1F) (imm &&& 0xFFFF) ∧
    create_j_instruction op target =
      create_j_instruction (op &&& 0x3F) (target &&& 0x03FFFFFF) ∧
    get_opcode (create_i_instruction op rs rt imm) = op &&& 0x3F := by
  have eop : op &&& 0x3F = op % 64 := Nat.and_pow_two_sub_one_eq_mod op 6
  have ers : rs &&& 0x1F = rs := and_field_mask rs 5 hrs
  have ert : rt &&& 0x1F = rt := and_field_mask rt 5 hrt
  have erd : rd &&& 0x1F = rd := and_field_mask rd 5 hrd
  have eshamt : shamt &&& 0x1F = shamt := and_field_mask shamt 5 hshamt
  have efunct : funct &&& 0x3F = funct := and_field_mask funct 6 hfunct
  have eimm : imm &&& 0xFFFF = imm := and_field_mask imm 16 himm
  have et : target &&& 0x03FFFFFF = target := and_field_mask target 26 ht
  rw [eop, ers, ert, erd, eshamt, efunct, eimm, et]
  refine ⟨create_r_instruction_opcode_mod _ _ _ _ _ _, create_i_instruction_opcode_mod _ _ _ _,
    create_j_instruction_opcode_mod _ _, ?_⟩
  rw [create_i_instruction_opcode_mod,
    create_i_instruction_eq (op % 64) rs rt imm (Nat.mod_lt _ (by decide)) hrs hrt himm,
    get_opcode_eq]
  omega

theorem create_instruction_masks_opcode_witness :
    create_r_instruction 0xE0 9 10 8 0 0x20 = create_r_instruction 0x20 9 10 8 0 0x20 ∧
    get_opcode (create_i_instruction 0xC8 10 9 0xFFFF) = 0x08 := by
  have h := create_instruction_masks_opcode 0xE0 9 10 8 0 0x20 0 0
    (by decide) (by decide) (by decide) (by decide) (by decide) (by decide) (by decide)
  have h2 := create_instruction_masks_opcode 0xC8 10 9 0 0 0 0xFFFF 0
    (by decide) (by decide) (by decide) (by decide) (by decide) (by decide) (by decide)
  exact ⟨h.1.trans (by decide), h2.2.2.2.trans (by decide)⟩

/-- C37 fails as stated: an immediate with bits above the sixteenth, a target
with bits above the twenty-sixth, or an 8-bit register, shamt or funct
argument above its field width is or-ed in whole and changes the fields to
its left, so the word differs from the one built from masked arguments. -/
theorem create_instruction_oversize_operand :
    create_i_instruction 0x08 2 1 0xFFFFFFFF = 0xFFFFFFFF ∧
    create_i_instruction (0x08 &&& 0x3F) (2 &&& 0x1F) (1 &&& 0x1F) (0xFFFFFFFF &&& 0xFFFF)
      = 0x2041FFFF ∧
    get_opcode (create_i_instruction 0x08 2 1 0xFFFFFFFF) = 0x3F ∧
    (0x08 &&& 0x3F) = 0x08 ∧
    create_j_instruction 0x02 0x04000000 = 0x0C000000 ∧
    create_j_instruction (0x02 &&& 0x3F) (0x04000000 &&& 0x03FFFFFF) = 0x08000000 ∧
    create_r_instruction 0 0x20 0 0 0 0 = 0x04000000 ∧
    create_r_instruction 0 0 0x20 0 0 0 = 0x00200000 ∧
    create_r_instruction 0 0 0 0x20 0 0 = 0x00010000 ∧
    create_r_instruction 0 0 0 0 0x20 0 = 0x00000800 ∧
    create_r_instruction 0 0 0 0 0 0x40 = 0x00000040 ∧
    create_r_instruction (0 &&& 0x3F) (0x20 &&& 0x1F) (0x20 &&& 0x1F) (0x20 &&& 0x1F)
      (0x20 &&& 0x1F) (0x40 &&& 0x3F) = 0 := by
  decide

/-! ### Lines that the second pass skips -/

theorem ASSERT_ARG_COUNT_ok (tokens : List (List Char)) (count i : Nat) (m : List Char)
    (h : tokens.length = count) : ASSERT_ARG_COUNT tokens count i m = .ok () := by
  simp only [ASSERT_ARG_COUNT, h, ne_eq, not_true_eq_false, if_false]

theorem ASSERT_ARG_COUNT_bind_index {α : Type} (tokens : List (List Char)) (count i j : Nat)
    (m : List Char) (f : Unit → Except AsmError α) :
    (ASSERT_ARG_COUNT tokens count i m >>= f).toOption =
      (ASSERT_ARG_COUNT tokens count j m >>= f).toOption := by
  by_cases h : tokens.length = count
  · rw [ASSERT_ARG_COUNT_ok tokens count i m h, ASSERT_ARG_COUNT_ok tokens count j m h]
  · obtain ⟨_, hi, _⟩ := ASSERT_ARG_COUNT_error tokens count i m h
    obtain ⟨_, hj, _⟩ := ASSERT_ARG_COUNT_error tokens count j m h
    rw [hi, hj]
    rfl

/-- Whether a line raises, and the word it emits, do not depend on its index:
the index only appears in the message of `ASSERT_ARG_COUNT`. -/
theorem second_pass_line_index (i j : Nat) (line : List Char) :
    (second_pass_line i line).toOption = (second_pass_line j line).toOption := by
  unfold second_pass_line
  split
  · rfl
  · simp only []
    split
    · exact ASSERT_ARG_COUNT_bind_index _ _ _ _ _ _
    · split
      · exact ASSERT_ARG_COUNT_bind_index _ _ _ _ _ _
      · split
        · exact ASSERT_ARG_COUNT_bind_index _ _ _ _ _ _
        · rfl

theorem second_pass_line_skipped (i : Nat) (line : List Char)
    (h : line = [] ∨ '#' ∈ line ∨ ':' ∈ line) : second_pass_line i line = .ok none := by
  have hc : (is_empty_line line || is_comment line || is_label line) = true := by
    rcases h with h | h | h
    · simp [is_empty_line, h]
    · simp [is_comment, h]
    · simp [is_label, h]
  simp only [second_pass_line, hc, if_true]

theorem emitted_from_filter (skip : List Char → Bool)
    (hskip : ∀ i line, skip line = true → second_pass_line i line = .ok none) :
    ∀ (src : List (List Char)) (a b : Assembler) (i j : Nat),
      emitted_from i src = emitted_from j (src.filter fun l => !skip l) ∧
      (second_pass_from i src a).2.isSome =
        (second_pass_from j (src.filter fun l => !skip l) b).2.isSome := by
  intro src
  induction src with
  | nil => intro a b i j; exact ⟨rfl, rfl⟩
  | cons line rest ih =>
    intro a b i j
    cases hs : skip line with
    | true =>
      have hl := hskip i line hs
      simp only [List.filter, hs, Bool.not_true, emitted_from, second_pass_from, hl]
      exact ih a b (i + 1) j
    | false =>
      have hidx := second_pass_line_index i j line
      simp only [List.filter, hs, Bool.not_false, emitted_from, second_pass_from]
      cases hi : second_pass_line i line with
      | error e =>
        cases hj : second_pass_line j line with
        | error e2 => exact ⟨rfl, rfl⟩
        | ok v => rw [hi, hj] at hidx; cases hidx
      | ok v =>
        cases hj : second_pass_line j line with
        | error e2 => rw [hi, hj] at hidx; cases hidx
        | ok v2 =>
          rw [hi, hj] at hidx
          cases hidx
          cases v with
          | none => exact ih a b (i + 1) (j + 1)
          | some w =>
            simp only []
            obtain ⟨h1, h2⟩ := ih (a.emit w) (b.emit w) (i + 1) (j + 1)
            exact ⟨by rw [h1], h2⟩

/-- C35: a line that is empty, contains `#` or contains `:` is skipped by the
second pass at every index: no word is emitted and nothing is raised.  For
every source, the second pass on a fresh assembler leaves the same bytes in
the buffer as on the source with all such lines removed, and raises on the one
exactly when it raises on the other; the line
`add $t1, $t2, $t3 # c` emits nothing. -/
theorem second_pass_skipped_lines (src : List (List Char)) :
    (∀ i line, (line = [] ∨ '#' ∈ line ∨ ':' ∈ line) → second_pass_line i line = .ok none) ∧
    (Assembler.second_pass { file_contents := src }).1.binary =
      (Assembler.second_pass { file_contents :=
        (src.filter fun l => !decide (l = [] ∨ '#' ∈ l ∨ ':' ∈ l)) }).1.binary ∧
    (Assembler.second_pass { file_contents := src }).2.isSome =
      (Assembler.second_pass { file_contents :=
        (src.filter fun l => !decide (l = [] ∨ '#' ∈ l ∨ ':' ∈ l)) }).2.isSome ∧
    Assembler.second_pass { file_contents := ["add $t1, $t2, $t3 # c".toList] } =
      ({ file_contents := ["add $t1, $t2, $t3 # c".toList] }, none) ∧
    (Assembler.second_pass { file_contents := ["add $t1, $t2, $t3".toList] }).1.binary =
      [0x80, 0x43, 0x08, 0x00] := by
  have hskip : ∀ i line, decide (line = [] ∨ '#' ∈ line ∨ ':' ∈ line) = true →
      second_pass_line i line = .ok none :=
    fun i line h => second_pass_line_skipped i line (of_decide_eq_true h)
  refine ⟨second_pass_line_skipped, ?_, ?_, by decide, by decide⟩
  · rw [second_pass_fresh, second_pass_fresh,
      (second_pass_from_spec _ 0 _ (Nat.two_pow_pos 32)).1,
      (second_pass_from_spec _ 0 _ (Nat.two_pow_pos 32)).1,
      (emitted_from_filter _ hskip src {} {} 0 0).1]
  · rw [second_pass_fresh, second_pass_fresh]
    exact (emitted_from_filter _ hskip src _ _ 0 0).2

/-! ### The symbols of the first pass -/

theorem dropWhile_isspace_ne_newline (l : List Char) : l.dropWhile isspace ≠ ['\n'] := by
  intro h
  have hne : l.dropWhile isspace ≠ [] := by rw [h]; exact List.cons_ne_nil _ _
  have hp := List.head_dropWhile_not isspace l hne
  simp only [h, List.head_cons] at hp
  exact absurd hp (by decide)

theorem trim_ne_newline (str : List Char) : trim str ≠ ['\n'] := by
  intro h
  unfold trim at h
  have h2 := congrArg List.reverse h
  rw [List.reverse_reverse] at h2
  exact dropWhile_isspace_ne_newline _ h2

theorem is_empty_line_trim (str : List Char) : is_empty_line (trim str) = decide (trim str = []) := by
  simp [is_empty_line, trim_ne_newline]

theorem first_pass_from_spec : ∀ (src : List (List Char)) (i : Nat) (labels : List Symbol),
    first_pass_from i src labels =
      labels ++ ((src.enumFrom i).filterMap fun p => specified_symbol p.1 p.2).map
        Symbol.to_address_t := by
  intro src
  induction src with
  | nil => intro i labels; simp [first_pass_from]
  | cons line rest ih =>
    intro i labels
    simp only [first_pass_from, is_empty_line_trim, List.enumFrom_cons, List.filterMap_cons,
      is_comment, is_label]
    by_cases h1 : trim line = []
    · have hs : specified_symbol i line = none := by simp [specified_symbol, h1]
      simp [h1, hs, ih]
    · by_cases h2 : '#' ∈ trim line
      · have hs : specified_symbol i line = none := by simp [specified_symbol, h2]
        simp [h1, h2, hs, ih]
      · by_cases h3 : ':' ∈ trim line
        · have hs : specified_symbol i line =
              some { name := (trim line).takeWhile (fun c => c != ':'), address := i } := by
            simp [specified_symbol, h1, h2, h3]
          simp [h1, h2, h3, hs, ih, Symbol.to_address_t]
        · have hs : specified_symbol i line = none := by simp [specified_symbol, h3]
          simp [h1, h2, h3, hs, ih]

theorem map_to_address_t_of_le : ∀ (src : List (List Char)) (i : Nat),
    i + src.length ≤ 2 ^ 32 →
    ((src.enumFrom i).filterMap fun p => specified_symbol p.1 p.2).map Symbol.to_address_t =
      (src.enumFrom i).filterMap fun p => specified_symbol p.1 p.2 := by
  intro src
  induction src with
  | nil => intro i _; rfl
  | cons line rest ih =>
    intro i h
    have hi : i % 2 ^ 32 = i := Nat.mod_eq_of_lt (by simp only [List.length_cons] at h; omega)
    have ih2 := ih (i + 1) (by simp only [List.length_cons] at h; omega)
    cases hs : specified_symbol i line with
    | none =>
      simp only [List.enumFrom_cons, List.filterMap_cons, hs]
      exact ih2
    | some s =>
      have hs2 : s.address = i := by
        unfold specified_symbol at hs
        split at hs
        · cases hs; rfl
        · cases hs
      simp only [List.enumFrom_cons, List.filterMap_cons, hs, List.map_cons, ih2,
        Symbol.to_address_t, hs2, hi]
      rw [← hs2]

theorem first_pass_from_replicate_nil : ∀ (n i : Nat) (rest : List (List Char))
    (labels : List Symbol),
    first_pass_from i (List.replicate n [] ++ rest) labels = first_pass_from (i + n) rest labels := by
  intro n
  induction n with
  | zero => intro i rest labels; rfl
  | succ n ih =>
    intro i rest labels
    rw [List.replicate_succ, List.cons_append]
    have ht : trim ([] : List Char) = [] := rfl
    have he : is_empty_line [] = true := rfl
    simp only [first_pass_from, ht, he, if_true]
    rw [ih (i + 1) rest labels, Nat.add_assoc, Nat.add_comm 1 n]

theorem specified_symbols_replicate_nil : ∀ (n i : Nat),
    ((List.replicate n ([] : List Char)).enumFrom i).filterMap
      (fun p => specified_symbol p.1 p.2) = [] := by
  intro n
  induction n with
  | zero => intro i; rfl
  | succ n ih =>
    intro i
    rw [List.replicate_succ, List.enumFrom_cons, List.filterMap_cons]
    have hs : specified_symbol i [] = none := rfl
    simp only [hs]
    exact ih (i + 1)

theorem first_pass_fresh (src : List (List Char)) :
    (Assembler.first_pass { file_contents := src }).labels = first_pass_from 0 src [] := rfl

/-- C34 (as the code has it): after `first_pass` the symbol list is the list
it had before followed, in source order, by exactly one symbol for each line
that after trimming is non-empty, contains no `#` and contains `:`, with the
text of the trimmed line before its first `:` as name and the 0-based index of
the line modulo `2^32` as address (the address is held in a 32-bit
`address_t`); no other line adds a symbol.  On a source of at most `2^32`
lines the address is the index itself. -/
theorem first_pass_symbols (a : Assembler) :
    a.first_pass.labels =
      a.labels ++ (specified_symbols a.file_contents).map Symbol.to_address_t ∧
    (a.file_contents.length ≤ 2 ^ 32 →
      a.first_pass.labels = a.labels ++ specified_symbols a.file_contents) ∧
    (∀ i line s, specified_symbol i line = some s →
      s.to_address_t = { name := (trim line).takeWhile (fun c => c != ':'),
                         address := i % 2 ^ 32 }) ∧
    (Assembler.first_pass { file_contents := ["main:".toList, "  add $t1, $t2, $t3".toList,
        "  loop:  ".toList, "# c:".toList, [], "x: add # y".toList] }).labels =
      [{ name := "main".toList, address := 0 }, { name := "loop".toList, address := 2 }] := by
  have h := first_pass_from_spec a.file_contents 0 a.labels
  refine ⟨h, ?_, ?_, by decide⟩
  · intro hlen
    have h2 := map_to_address_t_of_le a.file_contents 0 (by omega)
    exact h.trans (by rw [h2]; rfl)
  · intro i line s hs
    unfold specified_symbol at hs
    split at hs
    · cases hs; rfl
    · cases hs

/-- C34 fails as stated: on a source of `2^32` empty lines followed by the
line `a:` the symbol `a` gets the address `0`, while the index of its line is
`2^32`. -/
theorem first_pass_index_wraps :
    (Assembler.first_pass
      { file_contents := List.replicate (2 ^ 32) [] ++ ["a:".toList] }).labels =
      [{ name := "a".toList, address := 0 }] ∧
    specified_symbols (List.replicate (2 ^ 32) [] ++ ["a:".toList]) =
      [{ name := "a".toList, address := 2 ^ 32 }] := by
  constructor
  · rw [first_pass_fresh, first_pass_from_replicate_nil]
    decide
  · unfold specified_symbols List.enum
    rw [List.enumFrom_append, List.filterMap_append, specified_symbols_replicate_nil,
      List.length_replicate]
    decide

/-! ### Two calls of `assemble` on one object -/

/-- C40 (the code departs from it): `load_file` appends to `file_contents` and
nothing resets `file_contents`, `labels` or `binary` between calls.  With
`a.s` holding `l1:` and an `add` and `b.s` holding `l2:` and a `sub`, a fresh
assembler writes for `b.s` a text section of 4 bytes, the `sub` word; after
`assemble(a.s)` on the same object, `assemble(b.s)` writes a text section of 12
bytes, the `add` word twice and then the `sub` word, and the symbol list holds
`l1` twice and `l2` with the index 2 it has after the lines of `a.s`. -/
theorem assemble_twice_carries_over :
    (Assembler.assemble {} two_source_files false "b.s".toList "b.o".toList).2.1.files
        "b.o".toList =
      some ([77, 73, 80, 83, 0, 1, 1, 0, 0, 0, 0, 0, 0, 0, 0, 0, 4, 0, 0, 0] ++
        [0x88, 0x43, 0x08, 0x00]) ∧
    (Assembler.assemble {} two_source_files false "b.s".toList "b.o".toList).1.labels =
      [{ name := "l2".toList, address := 0 }] ∧
    (assemble_twice {} two_source_files false "a.s".toList "a.o".toList "b.s".toList
        "b.o".toList).2.1.files "b.o".toList =
      some ([77, 73, 80, 83, 0, 1, 1, 0, 0, 0, 0, 0, 0, 0, 0, 0, 12, 0, 0, 0] ++
        [0x80, 0x43, 0x08, 0x00] ++ [0x80, 0x43, 0x08, 0x00] ++ [0x88, 0x43, 0x08, 0x00]) ∧
    (assemble_twice {} two_source_files false "a.s".toList "a.o".toList "b.s".toList
        "b.o".toList).1.labels =
      [{ name := "l1".toList, address := 0 }, { name := "l1".toList, address := 0 },
       { name := "l2".toList, address := 2 }] ∧
    (assemble_twice {} two_source_files false "a.s".toList "a.o".toList "b.s".toList
        "b.o".toList).1.file_contents =
      ["l1:".toList, "add $t1, $t2, $t3".toList, "l2:".toList, "sub $t1, $t2, $t3".toList] ∧
    (assemble_twice {} two_source_files false "a.s".toList "a.o".toList "b.s".toList
        "b.o".toList).2.2 = none := by
  decide

end Mips
